import Mathlib

/-!
# NeuroCheck: a verification development

Shallow embedding of the client-side pipeline of the NeuroCheck browser
extension (`src/ai-image-detector`): score decoding, the decision threshold,
the size filter, the tensor encoder, the two batch schedulers
(`content/detect.js` and `content/detect-simple.js`), the saliency worker
(`content/saliency.js`) with its cache, job counter, bilinear upscaling and
colormap, the initialization handshake of `content/detect-loader.js` and the
blacklist editor of `options/options.js`.

Conventions.

* JavaScript numbers are modelled by an arbitrary linear ordered field `α`
  with a floor function (`ℚ` evaluates, `ℝ` carries `Real.exp`); rounding of
  IEEE doubles, `NaN` and the infinities are outside the model.
* `Math.exp` is a library function of the host, so it is a parameter `exp`
  of every definition that calls it; theorems that need its properties
  instantiate it with `Real.exp`.
* A DOM attribute that the scripts only test with `hasAttribute` and set to
  the string `'true'` is a `Bool` field.
* A function that can throw returns `Option` or `Except`; a `catch` block of
  the caller is the branch for `none` or `Except.error`.
-/

namespace NeuroCheck

/-! ## Score decoding (`detectAI`, `softmax`) -/

section Decode

variable {α : Type} [LinearOrderedField α]

/-- `Math.max(...arr)` for a non-empty array whose first element is `x`. -/
def mathMax (x : α) (xs : List α) : α :=
  xs.foldl max x

/-- `softmax` of `content/detect.js`:
`maxVal = Math.max(...arr)`, `expArr = arr.map(val => Math.exp(val - maxVal))`,
`sumExp = expArr.reduce((a, b) => a + b, 0)`, result `expArr.map(val => val / sumExp)`.
On the empty array both maps return the empty array. -/
def softmax (exp : α → α) (arr : List α) : List α :=
  match arr with
  | [] => []
  | x :: xs =>
    let maxVal := mathMax x xs
    let expArr := (x :: xs).map (fun val => exp (val - maxVal))
    let sumExp := expArr.foldl (fun a b => a + b) 0
    expArr.map (fun val => val / sumExp)

/-- The single-output branch shared by both `detectAI` functions:
sigmoid when `value < -10 || value > 10`, sigmoid when `value < 0 || value > 1`,
otherwise the value itself. -/
def singleOutput (exp : α → α) (value : α) : α :=
  if value < -10 ∨ value > 10 then
    1 / (1 + exp (-value))
  else if value < 0 ∨ value > 1 then
    1 / (1 + exp (-value))
  else
    value

namespace Detect

/-- The value of `aiProbability` computed by `detectAI` of `content/detect.js`
from `outputData`. With more than one element the first two go through
`softmax` and the second probability is taken; otherwise `outputData[0]` is
decoded by the single-output branch. For an empty `outputData` the value is
`undefined` (`none`). -/
def aiProbability (exp : α → α) (outputData : List α) : Option α :=
  match outputData with
  | [] => none
  | [value] => some (singleOutput exp value)
  | a :: b :: _ => (softmax exp [a, b])[1]?

end Detect

namespace DetectSimple

/-- The value of `aiProbability` computed by `detectAI` of
`content/detect-simple.js`: with more than one element
`exp1 / (exp0 + exp1)` without subtracting the maximum, otherwise the same
single-output branch. -/
def aiProbability (exp : α → α) (outputData : List α) : Option α :=
  match outputData with
  | [] => none
  | [value] => some (singleOutput exp value)
  | a :: b :: _ =>
    let exp0 := exp a
    let exp1 := exp b
    let sum := exp0 + exp1
    some (exp1 / sum)

end DetectSimple

end Decode

/-! ## Images and their attributes -/

/-- The two values that `isValidImageSize` writes to `data-ai-skip`. -/
inductive SkipReason where
  | small
  | large
  deriving DecidableEq, Repr

/-- An `<img>` element as the scripts see it: the DOM properties they read,
the `data-ai-*` attributes they test and set, and the elements that `ui.js`
and `content-simple.js` attach around it. -/
structure Img where
  /-- `img.naturalWidth` -/
  naturalWidth : Nat := 0
  /-- `img.naturalHeight` -/
  naturalHeight : Nat := 0
  /-- `img.width` (layout width) -/
  width : Nat := 0
  /-- `img.height` (layout height) -/
  height : Nat := 0
  /-- `img.complete` -/
  complete : Bool := false
  /-- `data-ai-detected` is present -/
  dataAiDetected : Bool := false
  /-- `data-ai-probability`: the decimal printed by `toFixed(3)`, in thousandths -/
  dataAiProbability : Option Int := none
  /-- `data-ai-skip` -/
  dataAiSkip : Option SkipReason := none
  /-- `data-ai-queued` is present -/
  dataAiQueued : Bool := false
  /-- `data-ai-saliency-ready` is present -/
  dataAiSaliencyReady : Bool := false
  /-- `data-ai-error` is present -/
  dataAiError : Bool := false
  /-- the image sits in an `.ai-detector-wrapper` (`ui.js`) -/
  wrapper : Bool := false
  /-- the `.ai-detector-badge` of the wrapper, with the percentage it shows -/
  badge : Option Int := none
  /-- the wrapper has a `Show why` button -/
  showWhy : Bool := false
  /-- `img.dataset.aiProcessed` is set (`content-simple.js`) -/
  aiProcessed : Bool := false
  /-- the image sits in an `.ai-wrapper` (`content-simple.js`) -/
  aiWrapper : Bool := false
  /-- the `.ai-badge` elements appended to the `.ai-wrapper`, oldest first -/
  aiBadges : List Int := []
  /-- `img.parentNode` is not `null`: the image is attached to a parent node -/
  parentNode : Bool := true
  deriving DecidableEq, Repr

/-- JavaScript `a || b` on non-negative integers: `a` unless it is `0`. -/
def orElse (a b : Nat) : Nat :=
  if a ≠ 0 then a else b

/-- `MIN_SIZE` of `detect.js` and `detect-simple.js`. -/
def MIN_SIZE : Nat := 150

/-- `MAX_SIZE` of `detect.js` and `detect-simple.js`. -/
def MAX_SIZE : Nat := 1024

/-- `MAX_BATCH_SIZE` of `detect.js` and `detect-simple.js`. -/
def MAX_BATCH_SIZE : Nat := 8

/-- `isValidImageSize(img)`; the function has the same text in `detect.js`
and in `detect-simple.js`. Returns the boolean result and the image with the
`data-ai-skip` attribute the call may have written. -/
def isValidImageSize (img : Img) : Bool × Img :=
  let width := orElse img.naturalWidth img.width
  let height := orElse img.naturalHeight img.height
  if width ≥ MIN_SIZE ∧ width ≤ MAX_SIZE ∧ height ≥ MIN_SIZE ∧ height ≤ MAX_SIZE then
    (true, img)
  else if width < MIN_SIZE ∨ height < MIN_SIZE then
    (false, { img with dataAiSkip := some SkipReason.small })
  else
    (false, { img with dataAiSkip := some SkipReason.large })

namespace ContentSimple

/-- `isValidSize(img)` of `content-simple.js`. -/
def isValidSize (img : Img) : Bool :=
  let w := orElse img.naturalWidth img.width
  let h := orElse img.naturalHeight img.height
  decide (w ≥ 150 ∧ w ≤ 1024 ∧ h ≥ 150 ∧ h ≤ 1024)

end ContentSimple

/-! ## The decision threshold and the badges -/

section Badges

variable {α : Type} [LinearOrderedField α] [FloorRing α]

/-- `Math.round(x)`: the nearest integer, halves rounded up. -/
def mathRound (x : α) : Int :=
  ⌊x + 1 / 2⌋

/-- `x.toFixed(3)`, as the number of thousandths it prints. -/
def toFixed3 (x : α) : Int :=
  ⌊x * 1000 + 1 / 2⌋

namespace UI

/-- `updateImageBadge(img, probability)` of `content/ui.js`: returns at once
unless `probability >= 0.7`; otherwise makes sure the image has a wrapper,
replaces the wrapper's badge by a new one showing
`Math.round(probability * 100)` and adds the `Show why` button if absent.
An image that is in no wrapper gets one through
`img.parentNode.insertBefore(wrapper, img)`, which throws a `TypeError` when
the image has no parent: that is `none`, and nothing was changed before it. -/
def updateImageBadge (img : Img) (probability : α) : Option Img :=
  let isAI := decide (probability ≥ 7 / 10)
  if !isAI then some img
  else if !img.wrapper && !img.parentNode then none
  else
    some { img with
      wrapper := true
      showWhy := true
      badge := some (mathRound (probability * 100)) }

end UI

namespace ContentSimple

/-- `addBadge(img, probability)` of `content-simple.js`: nothing for an image
whose `dataset.aiProcessed` is set; otherwise sets it, and for
`probability >= 0.7` wraps the image and appends a badge showing
`Math.round(probability * 100)`. An image whose parent is not an
`.ai-wrapper` is wrapped through `img.parentNode.insertBefore(wrapper, img)`,
which throws a `TypeError` when the image has no parent: that is
`Except.error`, carrying the image as the throw leaves it. -/
def addBadge (img : Img) (probability : α) : Except Img Img :=
  if img.aiProcessed then Except.ok img
  else
    let img1 := { img with aiProcessed := true }
    let isAI := decide (probability ≥ 7 / 10)
    if !isAI then Except.ok img1
    else if !img1.aiWrapper && !img1.parentNode then Except.error img1
    else
      Except.ok { img1 with
        aiWrapper := true
        aiBadges := img1.aiBadges ++ [mathRound (probability * 100)] }

end ContentSimple

namespace Detect

/-- `detectAI(img)` of `content/detect.js` as a function of the image.
`session` says whether the model session exists, `ui` whether
`window.updateImageBadge` is defined, and `result` is what preprocessing and
`session.run` deliver: `none` when either throws, `some outputData`
otherwise. An `undefined` probability makes `toFixed` throw after
`data-ai-detected` was written, and `updateImageBadge` may throw after
`data-ai-probability` was written: both end in the `catch` block, which sets
`data-ai-error`. -/
def detectAI (exp : α → α) (session ui : Bool) (img : Img) (result : Option (List α)) : Img :=
  if !session || img.dataAiDetected then img
  else
    match result with
    | none => { img with dataAiError := true }
    | some outputData =>
      match aiProbability exp outputData with
      | none => { img with dataAiDetected := true, dataAiError := true }
      | some p =>
        let img1 := { img with dataAiDetected := true, dataAiProbability := some (toFixed3 p) }
        match (if ui then UI.updateImageBadge img1 p else some img1) with
        | none => { img1 with dataAiError := true }
        | some img2 =>
          if p ≥ 7 / 10 then { img2 with dataAiSaliencyReady := true } else img2

end Detect

namespace DetectSimple

/-- `detectAI(img)` of `content/detect-simple.js` as a function of the image.
`result` is what `getImageData` and the background round trip deliver:
`none` when one of them throws or the response carries an `error`,
`some outputData` otherwise. A throw of `toFixed` or of `updateImageBadge`
ends in the `catch` block like the others. -/
def detectAI (exp : α → α) (ui : Bool) (img : Img) (result : Option (List α)) : Img :=
  if img.dataAiDetected then img
  else
    match result with
    | none => { img with dataAiError := true }
    | some outputData =>
      match aiProbability exp outputData with
      | none => { img with dataAiDetected := true, dataAiError := true }
      | some p =>
        let img1 := { img with dataAiDetected := true, dataAiProbability := some (toFixed3 p) }
        match (if ui then UI.updateImageBadge img1 p else some img1) with
        | none => { img1 with dataAiError := true }
        | some img2 =>
          if p ≥ 7 / 10 then { img2 with dataAiSaliencyReady := true } else img2

end DetectSimple

end Badges

/-! ## The tensor encoder (`preprocessImage`) -/

section Encoder

variable {α : Type} [LinearOrderedField α]

/-- `pixels[i] / 255.0` for a `Uint8ClampedArray` `pixels`, whose elements are
bytes. Every read of the encoders is inside the buffer when the buffer has the
length `getImageData` gives it; outside it the model reads the byte `0`. -/
def pixelAt (pixels : List (Fin 256)) (i : Nat) : α :=
  (((pixels.getD i 0 : Fin 256) : Nat) : α) / 255

/-- The innermost loop of `fillHWC` below on its own: the three channel
writes of pixel `(h, w)`. -/
def writePixel (size : Nat) (pixels : List (Fin 256)) (h w : Nat) (data : List α) : List α :=
  (List.range 3).foldl
    (fun float32Data c =>
      let srcIdx := (h * size + w) * 4 + c
      let dstIdx := h * size * 3 + w * 3 + c
      float32Data.set dstIdx (pixelAt pixels srcIdx))
    data

namespace Detect

/-- The loop nest of `preprocessImage` in `content/detect.js` (the same text
as in `getImageData` of `detect-simple.js`), with the literal `256` of the
source as `size`. `float32Data` starts as `size * size * 3` zeros; a write
beyond the end of a typed array is ignored, as `List.set` does. -/
def fillHWC (size : Nat) (pixels : List (Fin 256)) : List α :=
  (List.range size).foldl
    (fun float32Data h =>
      (List.range size).foldl
        (fun float32Data w =>
          (List.range 3).foldl
            (fun float32Data c =>
              let srcIdx := (h * size + w) * 4 + c
              let dstIdx := h * size * 3 + w * 3 + c
              float32Data.set dstIdx (pixelAt pixels srcIdx))
            float32Data)
        float32Data)
    (List.replicate (size * size * 3) 0)

/-- The data of the tensor returned by `preprocessImage` of `detect.js`, from
the pixels of the 256 x 256 canvas. -/
def preprocessImage (pixels : List (Fin 256)) : List α :=
  fillHWC 256 pixels

end Detect

namespace Saliency

/-- The loop of `preprocessImage` in `content/saliency.js`, with the literal
`224` of the source as `size`: `i` runs over `0, 4, 8, ...` below
`pixels.length`, and each round writes three channels at `idx++`. The state
of the fold is `(float32Data, idx)`. -/
def fillFlat (size : Nat) (pixels : List (Fin 256)) : List α :=
  ((List.range ((pixels.length + 3) / 4)).foldl
    (fun (st : List α × Nat) k =>
      let i := 4 * k
      let float32Data := st.1
      let idx := st.2
      let float32Data := float32Data.set idx (pixelAt pixels i)
      let idx := idx + 1
      let float32Data := float32Data.set idx (pixelAt pixels (i + 1))
      let idx := idx + 1
      let float32Data := float32Data.set idx (pixelAt pixels (i + 2))
      let idx := idx + 1
      (float32Data, idx))
    (List.replicate (size * size * 3) 0, 0)).1

/-- The data of the tensor returned by `preprocessImage` of `saliency.js`,
from the pixels of the 224 x 224 canvas. -/
def preprocessImage (pixels : List (Fin 256)) : List α :=
  fillFlat 224 pixels

end Saliency

end Encoder

/-! ## The batch schedulers of `detect.js` and `detect-simple.js`

Both scripts keep the same module state and share the text of `queueImage`,
`processImages`, `startDetection` and `stopDetection`; they differ in
`detectAI` and `processBatch`. Images are named by natural numbers. An
`async` function is cut at its suspension points: every event below runs to
completion before the next one starts, as on the single JavaScript thread. -/

/-- What a run records besides the state (ghost observations). -/
inductive Obs where
  /-- `processingQueue.push(img)` in `queueImage` -/
  | push (i : Nat)
  /-- a cycle started: `processingQueue.splice(0, MAX_BATCH_SIZE)` returned `batch` -/
  | cycle (batch : List Nat)
  /-- `detectAI(img)` was called by a cycle -/
  | detect (i : Nat)
  /-- `isValidImageSize(img)` was called -/
  | filter (i : Nat)
  deriving DecidableEq, Repr

/-- The batches of the cycles recorded in a trace, oldest first. -/
def Obs.cycles (trace : List Obs) : List (List Nat) :=
  trace.filterMap (fun o => match o with
    | Obs.cycle batch => some batch
    | _ => none)

/-- The images passed to `detectAI` by the cycles recorded in a trace, oldest first. -/
def Obs.detects (trace : List Obs) : List Nat :=
  trace.filterMap (fun o => match o with
    | Obs.detect i => some i
    | _ => none)

/-- The images pushed onto `processingQueue` in a trace, oldest first. -/
def Obs.pushes (trace : List Obs) : List Nat :=
  trace.filterMap (fun o => match o with
    | Obs.push i => some i
    | _ => none)

/-- The module state of `detect.js` / `detect-simple.js` together with the
images of the page and the callbacks that are pending in the browser. -/
structure State where
  /-- the images and their attributes -/
  imgs : Nat → Img
  /-- `session` is non-null (`detect.js` only) -/
  session : Bool := true
  /-- `window.updateImageBadge` is defined -/
  ui : Bool := true
  /-- `processingQueue` -/
  processingQueue : List Nat := []
  /-- `isProcessing` -/
  isProcessing : Bool := false
  /-- `observer` is non-null -/
  observer : Bool := false
  /-- `batchTimer` is non-null: the debounce timer of `queueImage` is pending -/
  batchTimer : Bool := false
  /-- the local `batch` of every `processBatch` call that has started a cycle
  and not yet finished it: the images that cycle has still to process -/
  running : List (List Nat) := []
  /-- pending `setTimeout(processBatch, 100)` callbacks (`detect-simple.js`) -/
  nextTimers : Nat := 0
  /-- pending one-shot `load` listeners registered by `processImages`, per image -/
  listeners : Nat → Nat := fun _ => 0
  /-- the observations so far -/
  trace : List Obs := []

/-- `queueImage(img)`: nothing for an image that has `data-ai-detected`,
`data-ai-skip` or `data-ai-queued`; otherwise marks it queued, pushes it and
starts the debounce timer unless one is pending. -/
def queueImage (s : State) (i : Nat) : State :=
  let img := s.imgs i
  if img.dataAiDetected || img.dataAiSkip.isSome || img.dataAiQueued then s
  else
    { s with
      imgs := Function.update s.imgs i { img with dataAiQueued := true }
      processingQueue := s.processingQueue ++ [i]
      batchTimer := if !s.batchTimer then true else s.batchTimer
      trace := s.trace ++ [Obs.push i] }

/-- The statement `if (isValidImageSize(img)) { queueImage(img); }` that
`processImages` runs at once for a loaded image and in the `load` listener
otherwise. -/
def checkAndQueue (s : State) (i : Nat) : State :=
  let r := isValidImageSize (s.imgs i)
  let s1 := { s with
    imgs := Function.update s.imgs i r.2
    trace := s.trace ++ [Obs.filter i] }
  if r.1 then queueImage s1 i else s1

/-- `processImages()`, where `doc` is `document.querySelectorAll('img')`:
an image with `data-ai-detected` or `data-ai-skip` is passed over; a loaded
one (`complete && naturalWidth > 0`) is filtered and queued at once; for any
other a one-shot `load` listener is registered. -/
def processImages (s : State) (doc : List Nat) : State :=
  doc.foldl
    (fun s i =>
      let img := s.imgs i
      if img.dataAiDetected || img.dataAiSkip.isSome then s
      else if img.complete && decide (img.naturalWidth > 0) then checkAndQueue s i
      else { s with listeners := Function.update s.listeners i (s.listeners i + 1) })
    s

/-- The `load` event of image `i`, which arrives with natural size
`naturalWidth x naturalHeight`: every pending one-shot listener of the image
runs once, in registration order. -/
def load (s : State) (i naturalWidth naturalHeight : Nat) : State :=
  let img := s.imgs i
  let s1 := { s with
    imgs := Function.update s.imgs i
      { img with complete := true, naturalWidth := naturalWidth, naturalHeight := naturalHeight }
    listeners := Function.update s.listeners i 0 }
  (fun s => checkAndQueue s i)^[s.listeners i] s1

/-- `startDetection()`: nothing when an observer exists; otherwise the
initial scan, then the observer is installed. -/
def startDetection (s : State) (doc : List Nat) : State :=
  if s.observer then s
  else { processImages s doc with observer := true }

/-- The `MutationObserver` callback for a mutation that added an image:
`processImages()`. Without an observer there is no callback. -/
def mutation (s : State) (doc : List Nat) : State :=
  if s.observer then processImages s doc else s

/-- `stopDetection()`, where `doc` lists the images of the document: drops
the observer and the debounce timer, empties the queue, clears
`isProcessing`, removes every badge and clears the four detection attributes
of the images that have `data-ai-detected`. -/
def stopDetection (s : State) (doc : List Nat) : State :=
  { s with
    observer := false
    batchTimer := false
    processingQueue := []
    isProcessing := false
    imgs := fun i =>
      if i ∈ doc then
        let img := { s.imgs i with badge := none }
        if img.dataAiDetected then
          { img with
            dataAiDetected := false
            dataAiProbability := none
            dataAiQueued := false
            dataAiSaliencyReady := false }
        else img
      else s.imgs i }

/-- The events of a page: calls of the exported functions, browser callbacks
and the steps of the running cycles. `result` is what preprocessing and
inference deliver for the image at hand (`none`: an exception or an `error`
response). -/
inductive Event (α : Type) where
  | queueImage (i : Nat)
  | processImages (doc : List Nat)
  | load (i naturalWidth naturalHeight : Nat)
  | mutation (doc : List Nat)
  | startDetection (doc : List Nat)
  | stopDetection (doc : List Nat)
  /-- the debounce timer set by `queueImage` fires -/
  | timer
  /-- a `setTimeout(processBatch, 100)` of `detect-simple.js` fires -/
  | nextTimer
  /-- `processBatch()` is called -/
  | processBatch
  /-- the `k`-th running cycle takes its next step -/
  | processNext (k : Nat) (result : Option (List α))

/-- A run: the events are applied from left to right. -/
def run {σ ε : Type} (step : σ → ε → σ) (s : σ) (events : List ε) : σ :=
  events.foldl step s

section Schedulers

variable {α : Type} [LinearOrderedField α] [FloorRing α]

namespace Detect

/-- `processBatch()` of `detect.js` up to its `requestIdleCallback`: nothing
while `isProcessing` or on an empty queue; otherwise sets `isProcessing`,
splices the first `MAX_BATCH_SIZE` images off the queue and schedules
`processNext` for them. -/
def processBatch (s : State) : State :=
  if s.isProcessing || s.processingQueue.length == 0 then s
  else
    let batch := s.processingQueue.take MAX_BATCH_SIZE
    { s with
      isProcessing := true
      processingQueue := s.processingQueue.drop MAX_BATCH_SIZE
      running := s.running ++ [batch]
      trace := s.trace ++ [Obs.cycle batch] }

/-- One call of `processNext` for the `k`-th running cycle of `detect.js`: on
an empty `batch` it clears `isProcessing` and the cycle is over (nothing else
is scheduled); otherwise it shifts the first image, runs `detectAI` on it and
schedules itself again. -/
def processNext (exp : α → α) (s : State) (k : Nat) (result : Option (List α)) : State :=
  match s.running[k]? with
  | none => s
  | some [] => { s with isProcessing := false, running := s.running.eraseIdx k }
  | some (i :: rest) =>
    { s with
      imgs := Function.update s.imgs i (detectAI exp s.session s.ui (s.imgs i) result)
      running := s.running.set k rest
      trace := s.trace ++ [Obs.detect i] }

/-- The transition function of the page running `detect.js`. -/
def step (exp : α → α) (s : State) : Event α → State
  | Event.queueImage i => queueImage s i
  | Event.processImages doc => processImages s doc
  | Event.load i w h => load s i w h
  | Event.mutation doc => mutation s doc
  | Event.startDetection doc => startDetection s doc
  | Event.stopDetection doc => stopDetection s doc
  | Event.timer => if s.batchTimer then processBatch { s with batchTimer := false } else s
  | Event.nextTimer => s
  | Event.processBatch => processBatch s
  | Event.processNext k result => processNext exp s k result

/-- The event the page produces next when nothing arrives from outside:
the step of the running cycle if there is one, else the debounce timer if it
is pending. `infer` gives the inference result of every image. -/
def nextInternal (infer : Nat → Option (List α)) (s : State) : Option (Event α) :=
  match s.running with
  | (i :: _) :: _ => some (Event.processNext 0 (infer i))
  | [] :: _ => some (Event.processNext 0 none)
  | [] => if s.batchTimer then some Event.timer else none

/-- The page left alone for at most `fuel` events. -/
def runAlone (exp : α → α) (infer : Nat → Option (List α)) : Nat → State → State
  | 0, s => s
  | fuel + 1, s =>
    match nextInternal infer s with
    | none => s
    | some e => runAlone exp infer fuel (step exp s e)

end Detect

namespace DetectSimple

/-- `processBatch()` of `detect-simple.js` up to its first `await`: nothing
while `isProcessing` or on an empty queue; otherwise sets `isProcessing` and
splices the first `MAX_BATCH_SIZE` images off the queue. -/
def processBatch (s : State) : State :=
  if s.isProcessing || s.processingQueue.length == 0 then s
  else
    let batch := s.processingQueue.take MAX_BATCH_SIZE
    { s with
      isProcessing := true
      processingQueue := s.processingQueue.drop MAX_BATCH_SIZE
      running := s.running ++ [batch]
      trace := s.trace ++ [Obs.cycle batch] }

/-- One step of the `for` loop of the `k`-th running `processBatch` of
`detect-simple.js`: `detectAI` and the 50 ms pause for the next image of the
batch; after the last image the loop ends, `isProcessing` is cleared and,
if the queue is not empty, `setTimeout(processBatch, 100)` is scheduled. -/
def processNext (exp : α → α) (s : State) (k : Nat) (result : Option (List α)) : State :=
  match s.running[k]? with
  | none => s
  | some [] =>
    let s1 := { s with isProcessing := false, running := s.running.eraseIdx k }
    if s1.processingQueue.length > 0 then { s1 with nextTimers := s1.nextTimers + 1 } else s1
  | some (i :: rest) =>
    { s with
      imgs := Function.update s.imgs i (detectAI exp s.ui (s.imgs i) result)
      running := s.running.set k rest
      trace := s.trace ++ [Obs.detect i] }

/-- The transition function of the page running `detect-simple.js`. -/
def step (exp : α → α) (s : State) : Event α → State
  | Event.queueImage i => queueImage s i
  | Event.processImages doc => processImages s doc
  | Event.load i w h => load s i w h
  | Event.mutation doc => mutation s doc
  | Event.startDetection doc => startDetection s doc
  | Event.stopDetection doc => stopDetection s doc
  | Event.timer => if s.batchTimer then processBatch { s with batchTimer := false } else s
  | Event.nextTimer =>
    if s.nextTimers > 0 then processBatch { s with nextTimers := s.nextTimers - 1 } else s
  | Event.processBatch => processBatch s
  | Event.processNext k result => processNext exp s k result

/-- The event the page produces next when nothing arrives from outside:
the step of the running cycle if there is one, else a pending timer.
`infer` gives the inference result of every image. -/
def nextInternal (infer : Nat → Option (List α)) (s : State) : Option (Event α) :=
  match s.running with
  | (i :: _) :: _ => some (Event.processNext 0 (infer i))
  | [] :: _ => some (Event.processNext 0 none)
  | [] =>
    if s.batchTimer then some Event.timer
    else if s.nextTimers > 0 then some Event.nextTimer
    else none

/-- The page left alone for at most `fuel` events. -/
def runAlone (exp : α → α) (infer : Nat → Option (List α)) : Nat → State → State
  | 0, s => s
  | fuel + 1, s =>
    match nextInternal infer s with
    | none => s
    | some e => runAlone exp infer fuel (step exp s e)

end DetectSimple

end Schedulers

/-! ## Properties of scheduler states -/

/-- No image was pushed onto `processingQueue` twice, every pushed image is
marked `data-ai-queued`, and the queue holds pushed images without
repetition. -/
def PushedOnce (s : State) : Prop :=
  (Obs.pushes s.trace).Nodup
  ∧ (∀ i ∈ Obs.pushes s.trace, (s.imgs i).dataAiQueued = true)
  ∧ s.processingQueue.Nodup
  ∧ (∀ i ∈ s.processingQueue, i ∈ Obs.pushes s.trace)

/-- The event is a call of `stopDetection`. -/
def Event.isStop {α : Type} : Event α → Bool
  | Event.stopDetection _ => true
  | _ => false

/-! ## The saliency worker (`content/saliency.js`)

`Math.sqrt` and `Math.random` are host functions: `sqrt` is a parameter, and
the samples drawn by one `generateGradCAM` call are a function `random`
from the index of the draw. The keys of `saliencyCache` are the base-36
strings of 32-bit hashes; a key is named by the hash it prints. -/

namespace Saliency

/-- `MAX_CACHE_SIZE` -/
def MAX_CACHE_SIZE : Nat := 50

/-- `MAX_CONCURRENT_JOBS` -/
def MAX_CONCURRENT_JOBS : Int := 2

section Cache

variable {β : Type}

/-- `saliencyCache.has(key)` on a `Map` given by its entries in insertion order. -/
def cacheHas (cache : List (Int × β)) (key : Int) : Bool :=
  cache.any (fun e => e.1 == key)

/-- `saliencyCache.get(key)` -/
def cacheGet (cache : List (Int × β)) (key : Int) : Option β :=
  (cache.find? (fun e => e.1 == key)).map Prod.snd

/-- `saliencyCache.set(key, value)`: an existing key keeps its place and gets
the new value, a new key goes to the end. -/
def cacheSet (cache : List (Int × β)) (key : Int) (value : β) : List (Int × β) :=
  if cacheHas cache key then
    cache.map (fun e => if e.1 == key then (key, value) else e)
  else
    cache ++ [(key, value)]

/-- `saliencyCache.delete(key)` -/
def cacheDelete (cache : List (Int × β)) (key : Int) : List (Int × β) :=
  cache.eraseP (fun e => e.1 == key)

/-- The block `// Cache result` of `generateGradCAM`: when the cache holds
`MAX_CACHE_SIZE` entries or more, the first key of the `Map` is deleted; then
the result is stored under `cacheKey`. -/
def cacheResult (cache : List (Int × β)) (cacheKey : Int) (upscaledHeatmap : β) :
    List (Int × β) :=
  let cache1 :=
    if cache.length ≥ MAX_CACHE_SIZE then
      match cache.head? with
      | some first => cacheDelete cache first.1
      | none => cache
    else cache
  cacheSet cache1 cacheKey upscaledHeatmap

end Cache

/-- `ToInt32`: the value of a bitwise operation on an integer. -/
def toInt32 (n : Int) : Int :=
  (n + 2147483648) % 4294967296 - 2147483648

/-- The `for` loop of `generateCacheKey` with at most `fuel` tests of its
condition: `hash = ((hash << 5) - hash) + imageData[i]; hash = hash & hash`
and `i += step` while `i < imageData.length`. `none`: the loop has not ended
within `fuel` tests. -/
def cacheKeyLoop (imageData : List (Fin 256)) (step : Nat) : Nat → Nat → Int → Option Int
  | 0, _, _ => none
  | fuel + 1, i, hash =>
    if i < imageData.length then
      cacheKeyLoop imageData step fuel (i + step)
        (toInt32 (toInt32 (hash * 32) - hash + ((imageData.getD i 0 : Fin 256) : Nat)))
    else some hash

/-- `generateCacheKey(imageData)` with `step = Math.floor(imageData.length / 100)`.
A loop that ends does so within `imageData.length + 1` tests; `none` stands
for a call that does not return. -/
def generateCacheKey (imageData : List (Fin 256)) : Option Int :=
  cacheKeyLoop imageData (imageData.length / 100) (imageData.length + 1) 0 0

section Heatmap

variable {α : Type} [LinearOrderedField α] [FloorRing α]

/-- `Math.max(...arr)` of a typed array (`0` stands in for the empty array,
which does not occur: the heatmap has 196 cells). -/
def arrayMax (arr : List α) : α :=
  match arr with
  | [] => 0
  | x :: xs => xs.foldl max x

/-- `Math.min(...arr)` of a typed array (`0` stands in for the empty array). -/
def arrayMin (arr : List α) : α :=
  match arr with
  | [] => 0
  | x :: xs => xs.foldl min x

/-- Cell `i` of the simulated attention map of `generateGradCAM`:
`Math.max(0, 1 - centerDist / 10) + Math.random() * 0.2` with
`centerDist = Math.sqrt(Math.pow(x - 7, 2) + Math.pow(y - 7, 2))`. -/
def attentionAt (sqrt : α → α) (random : Nat → α) (i : Nat) : α :=
  let y : Nat := i / 14
  let x : Nat := i % 14
  let centerDist := sqrt (((x : α) - 7) ^ 2 + ((y : α) - 7) ^ 2)
  max 0 (1 - centerDist / 10) + random i * (2 / 10)

/-- The `// Normalize heatmap` block of `generateGradCAM`. -/
def normalizeHeatmap (heatmap : List α) : List α :=
  let maxVal := arrayMax heatmap
  let minVal := arrayMin heatmap
  let range := maxVal - minVal
  heatmap.map (fun v => (v - minVal) / range)

/-- `x0 = Math.floor(x * xRatio)` of `upscaleHeatmap`, with
`xRatio = srcWidth / dstWidth` (the same expression gives `y0`). -/
def srcIndex0 (α : Type) [LinearOrderedField α] [FloorRing α] (srcWidth dstWidth x : Nat) : Nat :=
  ⌊(x : α) * ((srcWidth : α) / (dstWidth : α))⌋₊

/-- `x1 = Math.min(x0 + 1, srcWidth - 1)` of `upscaleHeatmap` (the same
expression gives `y1`). -/
def srcIndex1 (α : Type) [LinearOrderedField α] [FloorRing α] (srcWidth dstWidth x : Nat) : Nat :=
  min (srcIndex0 α srcWidth dstWidth x + 1) (srcWidth - 1)

/-- The body of the two loops of `upscaleHeatmap`: the value written to
`result[y * dstWidth + x]`. A read outside `heatmap` gives `undefined` in
JavaScript and `0` here. -/
def upscaleCell (heatmap : List α) (srcWidth srcHeight dstWidth dstHeight x y : Nat) : α :=
  let xRatio : α := (srcWidth : α) / (dstWidth : α)
  let yRatio : α := (srcHeight : α) / (dstHeight : α)
  let srcX := (x : α) * xRatio
  let srcY := (y : α) * yRatio
  let x0 := srcIndex0 α srcWidth dstWidth x
  let x1 := srcIndex1 α srcWidth dstWidth x
  let y0 := srcIndex0 α srcHeight dstHeight y
  let y1 := srcIndex1 α srcHeight dstHeight y
  let xLerp := srcX - (x0 : α)
  let yLerp := srcY - (y0 : α)
  let topLeft := heatmap.getD (y0 * srcWidth + x0) 0
  let topRight := heatmap.getD (y0 * srcWidth + x1) 0
  let bottomLeft := heatmap.getD (y1 * srcWidth + x0) 0
  let bottomRight := heatmap.getD (y1 * srcWidth + x1) 0
  let top := topLeft * (1 - xLerp) + topRight * xLerp
  let bottom := bottomLeft * (1 - xLerp) + bottomRight * xLerp
  top * (1 - yLerp) + bottom * yLerp

/-- `upscaleHeatmap(heatmap, srcWidth, srcHeight, dstWidth, dstHeight)`:
`result` starts as `dstWidth * dstHeight` zeros and the two loops write one
cell per destination pixel. -/
def upscaleHeatmap (heatmap : List α) (srcWidth srcHeight dstWidth dstHeight : Nat) : List α :=
  (List.range dstHeight).foldl
    (fun result y =>
      (List.range dstWidth).foldl
        (fun result x =>
          result.set (y * dstWidth + x)
            (upscaleCell heatmap srcWidth srcHeight dstWidth dstHeight x y))
        result)
    (List.replicate (dstWidth * dstHeight) 0)

/-- A store into a `Uint8ClampedArray`: an integer is clamped to `0..255`. -/
def clampByte (n : Int) : Nat :=
  if n < 0 then 0 else if n > 255 then 255 else n.toNat

/-- The red, green and blue bytes that `heatmapToRGBA` stores for `value`. -/
def colormap (value : α) : Nat × Nat × Nat :=
  if value < 1 / 4 then
    (clampByte 0, clampByte ⌊value * 4 * 255⌋, clampByte 255)
  else if value < 1 / 2 then
    (clampByte 0, clampByte 255, clampByte ⌊(1 - (value - 1 / 4) * 4) * 255⌋)
  else if value < 3 / 4 then
    (clampByte ⌊(value - 1 / 2) * 4 * 255⌋, clampByte 255, clampByte 0)
  else
    (clampByte 255, clampByte ⌊(1 - (value - 3 / 4) * 4) * 255⌋, clampByte 0)

/-- The alpha byte that `heatmapToRGBA` stores for `value`:
`Math.floor(Math.max(0.3, value) * 255 * 0.7)`. -/
def alphaOf (value : α) : Nat :=
  clampByte ⌊max (3 / 10) value * 255 * (7 / 10)⌋

/-- `heatmapToRGBA(heatmap, width, height)`: `rgba` starts as
`width * height * 4` zeros; for every cell `i` of `heatmap` the four bytes
at `i * 4` are stored (a store beyond the end of `rgba` is ignored). -/
def heatmapToRGBA (heatmap : List α) (width height : Nat) : List Nat :=
  (List.range heatmap.length).foldl
    (fun rgba i =>
      let value := heatmap.getD i 0
      let idx := i * 4
      let rgba := rgba.set idx (colormap value).1
      let rgba := rgba.set (idx + 1) (colormap value).2.1
      let rgba := rgba.set (idx + 2) (colormap value).2.2
      rgba.set (idx + 3) (alphaOf value))
    (List.replicate (width * height * 4) 0)

/-- The part of `generateGradCAM` between the result of `session.run` and
the `// Cache result` block: the 14 x 14 attention map is filled, normalized
and upscaled to `width x height`. -/
def computeHeatmap (sqrt : α → α) (random : Nat → α) (width height : Nat) : List α :=
  let heatmap := (List.range (14 * 14)).map (attentionAt sqrt random)
  let heatmap := normalizeHeatmap heatmap
  upscaleHeatmap heatmap 14 14 width height

end Heatmap

/-- The data of a `GENERATE_SALIENCY` message. -/
structure Request where
  id : Nat
  imageData : List (Fin 256)
  width : Nat
  height : Nat
  deriving DecidableEq, Repr

/-- The messages the worker posts. -/
inductive Message where
  | INITIALIZED
  | ERROR
  | QUEUED (id : Nat)
  | SALIENCY_RESULT (id : Nat) (heatmap : List Nat) (width height : Nat)
  | SALIENCY_ERROR (id : Nat)
  deriving DecidableEq, Repr

/-- How a call of `generateGradCAM` proceeds up to its first suspension. -/
inductive Started (α : Type) where
  /-- it throws (`Model not initialized`, or preprocessing fails) -/
  | threw
  /-- `generateCacheKey` does not return -/
  | stuck
  /-- cache hit: the stored heatmap is returned -/
  | hit (heatmap : List α)
  /-- cache miss: `session.run` was called and is awaited -/
  | inference (cacheKey : Int)

/-- `new ImageData(data, width, height)` in `preprocessImage` accepts the
buffer: it is not empty and holds `4 * width * height` bytes. -/
def imageDataOk (req : Request) : Bool :=
  decide (req.imageData.length ≠ 0 ∧ req.imageData.length = 4 * req.width * req.height)

/-- `generateGradCAM(imageData, width, height)` up to `await session.run`:
the session test, the cache key, the cache lookup and `preprocessImage`.
(`get` of a key that `has` reports always finds an entry, so the inner
`none` branch is never taken.) -/
def generateGradCAMStart {α : Type} (session : Bool) (saliencyCache : List (Int × List α))
    (req : Request) : Started α :=
  if !session then Started.threw
  else
    match generateCacheKey req.imageData with
    | none => Started.stuck
    | some cacheKey =>
      if cacheHas saliencyCache cacheKey then
        match cacheGet saliencyCache cacheKey with
        | some heatmap => Started.hit heatmap
        | none => Started.threw
      else if imageDataOk req then Started.inference cacheKey
      else Started.threw

/-- The worker: its module variables, the jobs suspended at
`await session.run` (each with its request and cache key), the request at
which the worker thread is stuck in `generateCacheKey`, if any, the pending
`setTimeout` re-deliveries, and the messages posted so far. -/
structure Worker (α : Type) where
  session : Bool := false
  saliencyCache : List (Int × List α) := []
  activeJobs : Int := 0
  awaiting : List (Request × Int) := []
  stuck : Option Request := none
  retries : List Request := []
  posted : List Message := []

/-- What reaches the worker. -/
inductive WorkerEvent (α : Type) where
  /-- `initializeModel()` settles: the session exists (`true`) or creating it failed -/
  | initialized (ok : Bool)
  /-- a `GENERATE_SALIENCY` message arrives -/
  | generate (req : Request)
  /-- the `k`-th pending re-delivery timer fires: `self.onmessage(e)` -/
  | retry (k : Nat)
  /-- `session.run` of the `k`-th suspended job settles: it throws (`none`),
  or it returns and the attention map is drawn with the samples `random` -/
  | settle (k : Nat) (outcome : Option (Nat → α))

section WorkerSteps

variable {α : Type} [LinearOrderedField α] [FloorRing α]

/-- The `try` branch after `generateGradCAM` returned `heatmap`, followed by
`finally`: `SALIENCY_RESULT` is posted and `activeJobs` decremented. -/
def postResult (w : Worker α) (req : Request) (heatmap : List α) : Worker α :=
  { w with
    posted := w.posted ++
      [Message.SALIENCY_RESULT req.id (heatmapToRGBA heatmap req.width req.height)
        req.width req.height]
    activeJobs := w.activeJobs - 1 }

/-- The `catch` branch followed by `finally`: `SALIENCY_ERROR` is posted and
`activeJobs` decremented. -/
def postError (w : Worker α) (req : Request) : Worker α :=
  { w with
    posted := w.posted ++ [Message.SALIENCY_ERROR req.id]
    activeJobs := w.activeJobs - 1 }

/-- `self.onmessage` for a `GENERATE_SALIENCY` message, up to the first
suspension of the job it starts. -/
def onGenerate (w : Worker α) (req : Request) : Worker α :=
  if w.activeJobs ≥ MAX_CONCURRENT_JOBS then
    { w with
      posted := w.posted ++ [Message.QUEUED req.id]
      retries := w.retries ++ [req] }
  else
    let w1 := { w with activeJobs := w.activeJobs + 1 }
    match generateGradCAMStart w1.session w1.saliencyCache req with
    | Started.threw => postError w1 req
    | Started.stuck => { w1 with stuck := some req }
    | Started.hit heatmap => postResult w1 req heatmap
    | Started.inference cacheKey => { w1 with awaiting := w1.awaiting ++ [(req, cacheKey)] }

/-- The rest of the `k`-th suspended job once `session.run` has settled. -/
def onSettle (sqrt : α → α) (w : Worker α) (k : Nat) (outcome : Option (Nat → α)) : Worker α :=
  match w.awaiting[k]? with
  | none => w
  | some (req, cacheKey) =>
    let w1 := { w with awaiting := w.awaiting.eraseIdx k }
    match outcome with
    | none => postError w1 req
    | some random =>
      let upscaledHeatmap := computeHeatmap sqrt random req.width req.height
      let w2 := { w1 with
        saliencyCache := cacheResult w1.saliencyCache cacheKey upscaledHeatmap }
      postResult w2 req upscaledHeatmap

/-- The transition function of the worker. While the thread is stuck in
`generateCacheKey` no event is handled. -/
def workerStep (sqrt : α → α) (w : Worker α) (e : WorkerEvent α) : Worker α :=
  if w.stuck.isSome then w
  else
    match e with
    | WorkerEvent.initialized ok =>
      if ok then { w with session := true, posted := w.posted ++ [Message.INITIALIZED] }
      else { w with posted := w.posted ++ [Message.ERROR] }
    | WorkerEvent.generate req => onGenerate w req
    | WorkerEvent.retry k =>
      match w.retries[k]? with
      | none => w
      | some req => onGenerate { w with retries := w.retries.eraseIdx k } req
    | WorkerEvent.settle k outcome => onSettle sqrt w k outcome

end WorkerSteps

end Saliency

namespace Saliency

/-- The bookkeeping of a worker state is sound: the cache holds at most
`MAX_CACHE_SIZE` entries, and `activeJobs` counts the jobs that have started
and not finished (those awaiting `session.run` and the one the thread is
stuck in, if any), which are at most `MAX_CONCURRENT_JOBS`. -/
def WorkerOk {α : Type} (w : Worker α) : Prop :=
  w.saliencyCache.length ≤ MAX_CACHE_SIZE
  ∧ w.activeJobs = (w.awaiting.length : Int) + (if w.stuck.isSome then 1 else 0)
  ∧ 0 ≤ w.activeJobs
  ∧ w.activeJobs ≤ MAX_CONCURRENT_JOBS

end Saliency

/-! ## The initialization handshake of `content/detect-loader.js` -/

namespace Loader

/-- How the promise behind `ortReady` is settled. -/
inductive Settled where
  | resolved (value : Bool)
  | rejected (message : String)
  deriving DecidableEq, Repr

/-- What the handler reads of a `message` event: `event.data.type`, and
`event.data.error` for `ORT_ERROR`. -/
inductive Data where
  | ORT_READY
  | ORT_ERROR (error : String)
  | other
  deriving DecidableEq, Repr

/-- The state of the wait for initialization: the promise (`none` while
pending), whether the timer of `setTimeout` is still armed, and whether
`handler` is registered as a `message` listener of the window. -/
structure Wait where
  ortReady : Option Settled := none
  timeoutPending : Bool := false
  handlerRegistered : Bool := false
  deriving DecidableEq, Repr

/-- `resolve(value)`: settles the promise if it is pending, else does nothing. -/
def resolve (s : Wait) (value : Bool) : Wait :=
  match s.ortReady with
  | none => { s with ortReady := some (Settled.resolved value) }
  | some _ => s

/-- `reject(new Error(message))`: settles the promise if it is pending, else
does nothing. -/
def reject (s : Wait) (message : String) : Wait :=
  match s.ortReady with
  | none => { s with ortReady := some (Settled.rejected message) }
  | some _ => s

/-- The executor of the promise: `setTimeout(..., 30000)` arms the timer and
`window.addEventListener('message', handler)` registers the handler. -/
def executor : Wait :=
  { ortReady := none, timeoutPending := true, handlerRegistered := true }

/-- The listener `handler(event)`. -/
def handler (s : Wait) (event : Data) : Wait :=
  match event with
  | Data.ORT_READY =>
    resolve { s with timeoutPending := false, handlerRegistered := false } true
  | Data.ORT_ERROR error =>
    reject { s with timeoutPending := false, handlerRegistered := false } error
  | Data.other => s

/-- The callback of the timer:
`() => reject(new Error('ORT initialization timeout'))`. -/
def timeoutCallback (s : Wait) : Wait :=
  reject s "ORT initialization timeout"

/-- What happens while the wait exists: a `message` event reaches the
window, or 30 s have passed. -/
inductive LoaderEvent where
  | message (data : Data)
  | timer
  deriving DecidableEq, Repr

/-- The window delivers a message to `handler` while it is registered; the
timer runs its callback once, unless it was cleared. -/
def loaderStep (s : Wait) (e : LoaderEvent) : Wait :=
  match e with
  | LoaderEvent.message data => if s.handlerRegistered then handler s data else s
  | LoaderEvent.timer =>
    if s.timeoutPending then timeoutCallback { s with timeoutPending := false } else s

end Loader

/-! ## The blacklist editor of `options/options.js` -/

namespace Options

/-- A character class: the alternation of its characters. -/
def oneOf (cs : List Char) : RegularExpression Char :=
  cs.foldr (fun c r => RegularExpression.char c + r) 0

/-- The characters `a-z`. -/
def lower : List Char := "abcdefghijklmnopqrstuvwxyz".toList

/-- The characters `0-9`. -/
def digit : List Char := "0123456789".toList

/-- The pattern `/^([a-z0-9]+(-[a-z0-9]+)*\.)+[a-z]{2,}$/` of `addDomain`;
`x+` is written `x x*` and `x{2,}` is written `x x x*`. The anchors are
rendered by matching the whole input (`RegularExpression.rmatch`). -/
def domainRegex : RegularExpression Char :=
  let alnum := oneOf (lower ++ digit)
  let label := (alnum * RegularExpression.star alnum)
    * RegularExpression.star (RegularExpression.char '-' * (alnum * RegularExpression.star alnum))
  ((label * RegularExpression.char '.') * RegularExpression.star (label * RegularExpression.char '.'))
    * (oneOf lower * oneOf lower * RegularExpression.star (oneOf lower))

/-- The UTF-16 code units of a character. -/
def utf16 (c : Char) : List Nat :=
  if c.toNat < 65536 then [c.toNat]
  else [55296 + (c.toNat - 65536) / 1024, 56320 + (c.toNat - 65536) % 1024]

/-- The UTF-16 code units of a string. -/
def codeUnits (s : String) : List Nat :=
  s.toList.flatMap utf16

/-- `Array.prototype.sort()` without a comparator on an array of strings:
ascending in the order of the UTF-16 code units. -/
def sort (arr : List String) : List String :=
  arr.insertionSort (fun a b => codeUnits a ≤ codeUnits b)

/-- The options page: the module variable `currentBlacklist`, the domains
shown in `#blacklist-items`, the last message set by `showStatus` with its
type, the `blacklist` written to `chrome.storage.sync`, and the text of
`#domain-input`. -/
structure Page where
  currentBlacklist : List String := []
  blacklistItems : List String := []
  statusMessage : Option (String × String) := none
  stored : Option (List String) := none
  inputValue : String := ""
  deriving DecidableEq, Repr

/-- `showStatus(message, type)`. -/
def showStatus (s : Page) (message type : String) : Page :=
  { s with statusMessage := some (message, type) }

/-- `renderBlacklist()`: the empty state for an empty list; otherwise
`currentBlacklist.sort()` sorts the array in place and its domains are shown. -/
def renderBlacklist (s : Page) : Page :=
  if s.currentBlacklist.length = 0 then { s with blacklistItems := [] }
  else
    let sorted := sort s.currentBlacklist
    { s with currentBlacklist := sorted, blacklistItems := sorted }

/-- `saveBlacklist()`, with a storage write that succeeds. -/
def saveBlacklist (s : Page) : Page :=
  showStatus { s with stored := some s.currentBlacklist } "Blacklist saved" "success"

/-- `addDomain()`, where `domain` is `input.value.trim().toLowerCase()`. -/
def addDomain (s : Page) (domain : String) : Page :=
  if domain = "" then showStatus s "Please enter a domain" "error"
  else if (!domainRegex.rmatch domain.toList && !domain.toList.contains '.') then
    showStatus s "Please enter a valid domain" "error"
  else if s.currentBlacklist.contains domain then
    showStatus s "Domain already in blacklist" "error"
  else
    let s1 := { s with currentBlacklist := s.currentBlacklist ++ [domain] }
    let s2 := renderBlacklist s1
    let s3 := saveBlacklist s2
    { s3 with inputValue := "" }

end Options

/-- Image `i` is left behind: it is marked `data-ai-queued` and not
`data-ai-detected`, it is neither in `processingQueue` nor in the batch of a
cycle that is still running, and the trace holds `c` pushes and `d`
`detectAI` calls of it. -/
def Parked (i c d : Nat) (s : State) : Prop :=
  (s.imgs i).dataAiQueued = true
  ∧ (s.imgs i).dataAiDetected = false
  ∧ i ∉ s.processingQueue
  ∧ (∀ batch ∈ s.running, i ∉ batch)
  ∧ (Obs.pushes s.trace).count i = c
  ∧ (Obs.detects s.trace).count i = d

/-! ## Theorems -/

section DecodeTheorems

/-- C1: for a 1-element output `v` both `detectAI` functions decode `v` itself
when `0 ≤ v ≤ 1` and the logistic transform `1 / (1 + e^(-v))` otherwise;
`v = 0.85` gives `0.85` and `v = 12` gives `sigmoid 12`. -/
theorem C1_single_output_decoding :
    (∀ v : ℝ,
      Detect.aiProbability Real.exp [v]
        = some (if 0 ≤ v ∧ v ≤ 1 then v else 1 / (1 + Real.exp (-v)))
      ∧ DetectSimple.aiProbability Real.exp [v]
        = some (if 0 ≤ v ∧ v ≤ 1 then v else 1 / (1 + Real.exp (-v))))
    ∧ Detect.aiProbability Real.exp [(85 / 100 : ℝ)] = some (85 / 100)
    ∧ DetectSimple.aiProbability Real.exp [(85 / 100 : ℝ)] = some (85 / 100)
    ∧ Detect.aiProbability Real.exp [(12 : ℝ)] = some (1 / (1 + Real.exp (-12)))
    ∧ DetectSimple.aiProbability Real.exp [(12 : ℝ)] = some (1 / (1 + Real.exp (-12))) := by
  have key : ∀ v : ℝ, singleOutput Real.exp v
      = if 0 ≤ v ∧ v ≤ 1 then v else 1 / (1 + Real.exp (-v)) := by
    intro v
    unfold singleOutput
    by_cases h1 : v < -10 ∨ v > 10
    · have h2 : ¬ (0 ≤ v ∧ v ≤ 1) := by
        rintro ⟨h0, h1'⟩
        rcases h1 with h | h <;> linarith
      rw [if_pos h1, if_neg h2]
    · rw [if_neg h1]
      by_cases h3 : v < 0 ∨ v > 1
      · have h2 : ¬ (0 ≤ v ∧ v ≤ 1) := by
          rintro ⟨h0, h1'⟩
          rcases h3 with h | h <;> linarith
        rw [if_pos h3, if_neg h2]
      · have h2 : 0 ≤ v ∧ v ≤ 1 := by
          push_neg at h3
          exact ⟨h3.1, h3.2⟩
        rw [if_neg h3, if_pos h2]
  refine ⟨fun v => ⟨?_, ?_⟩, ?_, ?_, ?_, ?_⟩
  · simp only [Detect.aiProbability, key]
  · simp only [DetectSimple.aiProbability, key]
  · simp only [Detect.aiProbability, key]; norm_num
  · simp only [DetectSimple.aiProbability, key]; norm_num
  · simp only [Detect.aiProbability, key]; norm_num
  · simp only [DetectSimple.aiProbability, key]; norm_num

theorem softmax_pair (a b : ℝ) :
    softmax Real.exp [a, b]
      = [Real.exp (a - max a b) / (Real.exp (a - max a b) + Real.exp (b - max a b)),
         Real.exp (b - max a b) / (Real.exp (a - max a b) + Real.exp (b - max a b))] := by
  simp [softmax, mathMax]

theorem aiProbability_pair (a b : ℝ) (rest : List ℝ) :
    Detect.aiProbability Real.exp (a :: b :: rest)
      = some (Real.exp b / (Real.exp a + Real.exp b)) := by
  have hm : 0 < Real.exp (max a b) := Real.exp_pos _
  have ha : 0 < Real.exp a := Real.exp_pos _
  have hb : 0 < Real.exp b := Real.exp_pos _
  simp only [Detect.aiProbability, softmax_pair, List.getElem?_cons_succ, List.getElem?_cons_zero,
    Option.some.injEq]
  rw [Real.exp_sub, Real.exp_sub]
  field_simp

/-- The two-element `softmax` for any function in the place of `Math.exp`:
the function is applied to `a - max a b` and `b - max a b`. -/
theorem softmax_pair_generic {α : Type} [LinearOrderedField α] (exp : α → α) (a b : α) :
    softmax exp [a, b]
      = [exp (a - max a b) / (exp (a - max a b) + exp (b - max a b)),
         exp (b - max a b) / (exp (a - max a b) + exp (b - max a b))] := by
  simp [softmax, mathMax]

/-- C2: for a 2-element output `[a, b]` the probability of `detectAI` in
`detect.js` is the second entry of `softmax [a, b]`. Whatever function stands
for `Math.exp`, it is applied to `a - max a b` and `b - max a b` only, both
at most `0` and one of them `0`, and the result does not change when the same
constant is added to `a` and `b`. With the real exponential the probability
is `e^b / (e^a + e^b)`. The subtraction is visible in the result: with the
identity in the place of `Math.exp`, `[0, 1]` gives `0`, where the plain
quotient of `detect-simple.js` gives `1`. -/
theorem C2_softmax_pair_shift_invariant {α : Type} [LinearOrderedField α]
    (exp : α → α) (a b c : α) :
    softmax exp [a, b]
      = [exp (a - max a b) / (exp (a - max a b) + exp (b - max a b)),
         exp (b - max a b) / (exp (a - max a b) + exp (b - max a b))]
    ∧ Detect.aiProbability exp [a, b] = (softmax exp [a, b])[1]?
    ∧ Detect.aiProbability exp [a, b]
      = some (exp (b - max a b) / (exp (a - max a b) + exp (b - max a b)))
    ∧ (a - max a b ≤ 0 ∧ b - max a b ≤ 0 ∧ (a - max a b = 0 ∨ b - max a b = 0))
    ∧ softmax exp [a + c, b + c] = softmax exp [a, b]
    ∧ Detect.aiProbability exp [a + c, b + c] = Detect.aiProbability exp [a, b]
    ∧ (∀ x y : ℝ, Detect.aiProbability Real.exp [x, y]
        = some (Real.exp y / (Real.exp x + Real.exp y)))
    ∧ (∀ x y z : ℝ, Detect.aiProbability Real.exp [x + z, y + z]
        = some (Real.exp y / (Real.exp x + Real.exp y)))
    ∧ Detect.aiProbability (fun x : ℚ => x) [0, 1] = some 0
    ∧ DetectSimple.aiProbability (fun x : ℚ => x) [0, 1] = some 1 := by
  have hshift : softmax exp [a + c, b + c] = softmax exp [a, b] := by
    rw [softmax_pair_generic, softmax_pair_generic, max_add_add_right]
    have ea : a + c - (max a b + c) = a - max a b := by ring
    have eb : b + c - (max a b + c) = b - max a b := by ring
    rw [ea, eb]
  refine ⟨softmax_pair_generic exp a b, rfl, ?_, ?_, hshift, ?_, ?_, ?_, ?_, ?_⟩
  · simp only [Detect.aiProbability, softmax_pair_generic, List.getElem?_cons_succ,
      List.getElem?_cons_zero]
  · refine ⟨sub_nonpos.mpr (le_max_left a b), sub_nonpos.mpr (le_max_right a b), ?_⟩
    rcases max_choice a b with h | h
    · left; rw [h, sub_self]
    · right; rw [h, sub_self]
  · simp only [Detect.aiProbability, hshift]
  · intro x y
    exact aiProbability_pair x y []
  · intro x y z
    have h : Detect.aiProbability Real.exp [x + z, y + z]
        = Detect.aiProbability Real.exp [x, y] := by
      have hs : softmax Real.exp [x + z, y + z] = softmax Real.exp [x, y] := by
        rw [softmax_pair_generic, softmax_pair_generic, max_add_add_right]
        have ea : x + z - (max x y + z) = x - max x y := by ring
        have eb : y + z - (max x y + z) = y - max x y := by ring
        rw [ea, eb]
      simp only [Detect.aiProbability, hs]
    rw [h]
    exact aiProbability_pair x y []
  · norm_num [Detect.aiProbability, softmax, mathMax]
  · norm_num [DetectSimple.aiProbability]

theorem singleOutput_mem_unit (v : ℝ) :
    0 ≤ singleOutput Real.exp v ∧ singleOutput Real.exp v ≤ 1 := by
  have hs : 0 ≤ 1 / (1 + Real.exp (-v)) ∧ 1 / (1 + Real.exp (-v)) ≤ 1 := by
    have he : 0 < Real.exp (-v) := Real.exp_pos _
    constructor
    · positivity
    · rw [div_le_one (by linarith)]
      linarith
  unfold singleOutput
  split_ifs with h1 h2
  · exact hs
  · exact hs
  · push_neg at h2
    exact ⟨h2.1, h2.2⟩

/-- C3: for every model output with at least one (real) element, `detectAI`
of `detect.js` computes a probability, and it lies in `[0, 1]`. -/
theorem C3_probability_in_unit_interval (outputData : List ℝ) (h : 1 ≤ outputData.length) :
    ∃ p, Detect.aiProbability Real.exp outputData = some p ∧ 0 ≤ p ∧ p ≤ 1 := by
  match outputData, h with
  | [v], _ => exact ⟨_, rfl, singleOutput_mem_unit v⟩
  | a :: b :: rest, _ =>
    have ha : 0 < Real.exp a := Real.exp_pos _
    have hb : 0 < Real.exp b := Real.exp_pos _
    refine ⟨_, aiProbability_pair a b rest, by positivity, ?_⟩
    rw [div_le_one (by linarith)]
    linarith

theorem C3_probability_in_unit_interval_witness :
    1 ≤ [(3 : ℝ), 1, 2].length
    ∧ ∃ p, Detect.aiProbability Real.exp [(3 : ℝ), 1, 2] = some p ∧ 0 ≤ p ∧ p ≤ 1 :=
  ⟨by decide, C3_probability_in_unit_interval [3, 1, 2] (by decide)⟩

end DecodeTheorems

section ThresholdTheorems

theorem updateImageBadge_some {α : Type} [LinearOrderedField α] [FloorRing α]
    (img img' : Img) (p : α) (h : UI.updateImageBadge img p = some img') :
    img'.dataAiQueued = img.dataAiQueued ∧ img'.dataAiDetected = img.dataAiDetected
    ∧ img'.dataAiProbability = img.dataAiProbability
    ∧ img'.dataAiSaliencyReady = img.dataAiSaliencyReady := by
  simp only [UI.updateImageBadge] at h
  split_ifs at h <;> cases h <;> exact ⟨rfl, rfl, rfl, rfl⟩

/-- What `updateImageBadge` does, case by case. -/
theorem updateImageBadge_cases {α : Type} [LinearOrderedField α] [FloorRing α]
    (img : Img) (p : α) :
    (p < 7 / 10 → UI.updateImageBadge img p = some img)
    ∧ (p ≥ 7 / 10 → (img.wrapper = true ∨ img.parentNode = true) →
        UI.updateImageBadge img p
          = some { img with wrapper := true, showWhy := true,
                            badge := some (mathRound (p * 100)) })
    ∧ (p ≥ 7 / 10 → img.wrapper = false → img.parentNode = false →
        UI.updateImageBadge img p = none) := by
  refine ⟨?_, ?_, ?_⟩
  · intro h
    have h' : ¬ (7 / 10 ≤ p) := not_le.mpr h
    simp [UI.updateImageBadge, h']
  · intro h hw
    rcases hw with hw | hw <;> simp [UI.updateImageBadge, h, hw]
  · intro h hw hpn
    simp [UI.updateImageBadge, h, hw, hpn]

/-- The result of a `detectAI` run that decodes the probability `p`, in both
scripts: below `0.7` only `data-ai-detected` and `data-ai-probability` are
written; from `0.7` on the badge is placed and `data-ai-saliency-ready` set,
unless `updateImageBadge` exists and throws because the image has neither a
wrapper nor a parent, in which case `data-ai-error` is set instead. -/
theorem detectAI_decoded {α : Type} [LinearOrderedField α] [FloorRing α]
    (exp : α → α) (ui : Bool) (img : Img) (outputData : List α) (p : α)
    (hd : img.dataAiDetected = false) (r : Img)
    (hr : (Detect.aiProbability exp outputData = some p
            ∧ r = Detect.detectAI exp true ui img (some outputData))
          ∨ (DetectSimple.aiProbability exp outputData = some p
            ∧ r = DetectSimple.detectAI exp ui img (some outputData))) :
    (p < 7 / 10 →
      r = { img with dataAiDetected := true, dataAiProbability := some (toFixed3 p) })
    ∧ (p ≥ 7 / 10 → ui = false →
      r = { img with dataAiDetected := true, dataAiProbability := some (toFixed3 p),
                     dataAiSaliencyReady := true })
    ∧ (p ≥ 7 / 10 → ui = true → (img.wrapper = true ∨ img.parentNode = true) →
      r = { img with dataAiDetected := true, dataAiProbability := some (toFixed3 p),
                     wrapper := true, showWhy := true,
                     badge := some (mathRound (p * 100)), dataAiSaliencyReady := true })
    ∧ (p ≥ 7 / 10 → ui = true → img.wrapper = false → img.parentNode = false →
      r = { img with dataAiDetected := true, dataAiProbability := some (toFixed3 p),
                     dataAiError := true }) := by
  have hr' : r = (match (if ui then UI.updateImageBadge
        { img with dataAiDetected := true, dataAiProbability := some (toFixed3 p) } p
        else some { img with dataAiDetected := true, dataAiProbability := some (toFixed3 p) }) with
      | none => { img with dataAiDetected := true, dataAiProbability := some (toFixed3 p),
                           dataAiError := true }
      | some img2 => if p ≥ 7 / 10 then { img2 with dataAiSaliencyReady := true } else img2) := by
    rcases hr with ⟨hq, rfl⟩ | ⟨hq, rfl⟩
    · simp only [Detect.detectAI, hd, hq, Bool.not_true, Bool.or_self, Bool.false_eq_true,
        if_false]
    · simp only [DetectSimple.detectAI, hd, hq, Bool.false_eq_true, if_false]
  obtain ⟨c1, c2, c3⟩ := updateImageBadge_cases
    { img with dataAiDetected := true, dataAiProbability := some (toFixed3 p) } p
  refine ⟨?_, ?_, ?_, ?_⟩
  · intro h
    have h' : ¬ (p ≥ 7 / 10) := not_le.mpr h
    rw [hr']
    cases ui
    · simp [h']
    · simp only [if_true, c1 h, h', if_false]
  · intro h hu
    rw [hr', hu]
    simp [h]
  · intro h hu hw
    rw [hr', hu]
    simp only [if_true, c2 h hw, h]
  · intro h hu hw hpn
    rw [hr', hu]
    simp only [if_true, c3 h hw hpn]

/-- With `p` the decoded probability, a `detectAI` run on a fresh image sets
`data-ai-saliency-ready` exactly when `p ≥ 0.7` and `updateImageBadge`, if it
exists, does not throw. -/
theorem detectAI_saliencyReady_iff {α : Type} [LinearOrderedField α] [FloorRing α]
    (exp : α → α) (ui : Bool) (img : Img) (outputData : List α) (p : α)
    (hd : img.dataAiDetected = false) (hs : img.dataAiSaliencyReady = false) :
    (Detect.aiProbability exp outputData = some p →
      ((Detect.detectAI exp true ui img (some outputData)).dataAiSaliencyReady = true
        ↔ p ≥ 7 / 10 ∧ (ui = false ∨ img.wrapper = true ∨ img.parentNode = true)))
    ∧ (DetectSimple.aiProbability exp outputData = some p →
      ((DetectSimple.detectAI exp ui img (some outputData)).dataAiSaliencyReady = true
        ↔ p ≥ 7 / 10 ∧ (ui = false ∨ img.wrapper = true ∨ img.parentNode = true))) := by
  have key : ∀ r : Img,
      ((Detect.aiProbability exp outputData = some p
            ∧ r = Detect.detectAI exp true ui img (some outputData))
          ∨ (DetectSimple.aiProbability exp outputData = some p
            ∧ r = DetectSimple.detectAI exp ui img (some outputData))) →
      (r.dataAiSaliencyReady = true
        ↔ p ≥ 7 / 10 ∧ (ui = false ∨ img.wrapper = true ∨ img.parentNode = true)) := by
    intro r hr
    obtain ⟨d1, d2, d3, d4⟩ := detectAI_decoded exp ui img outputData p hd r hr
    by_cases h : p ≥ 7 / 10
    · by_cases hu : ui = false
      · rw [d2 h hu]
        simp [h, hu]
      · have hu' : ui = true := by simpa using hu
        by_cases hw : img.wrapper = true ∨ img.parentNode = true
        · rw [d3 h hu' hw]
          simp [h, hw]
        · have hw1 : img.wrapper = false := by
            cases hx : img.wrapper
            · rfl
            · exact absurd (Or.inl hx) hw
          have hw2 : img.parentNode = false := by
            cases hx : img.parentNode
            · rfl
            · exact absurd (Or.inr hx) hw
          rw [d4 h hu' hw1 hw2]
          simp [hs, hu', hw1, hw2]
    · rw [d1 (not_le.mp h)]
      simp [hs, h]
  exact ⟨fun hq => key _ (Or.inl ⟨hq, rfl⟩), fun hq => key _ (Or.inr ⟨hq, rfl⟩)⟩

/-- C4 (as amended): with `0.7` itself counting as AI, and for an image that
is in a wrapper or has a parent node: a `detectAI` run on a fresh image that
decodes probability `p` sets `data-ai-saliency-ready` exactly when `p ≥ 0.7`
(so it does whenever `updateImageBadge` is absent); `updateImageBadge` leaves
the image untouched below `0.7` and creates the badge from `0.7` on;
`addBadge`, for an image not yet marked `aiProcessed`, sets that mark and
nothing else below `0.7` and adds the badge from `0.7` on. The statement
also records the remaining case: for an image with neither wrapper nor
parent node and `p ≥ 0.7` both badge functions throw without a badge, and
`detectAI` ends with `data-ai-error` and without `data-ai-saliency-ready`. -/
theorem C4_threshold_decision {α : Type} [LinearOrderedField α] [FloorRing α]
    (exp : α → α) (ui : Bool) (img : Img) (outputData : List α) (p : α)
    (hfresh : img.dataAiDetected = false ∧ img.dataAiSaliencyReady = false)
    (hp : Detect.aiProbability exp outputData = some p) :
    ((Detect.detectAI exp true ui img (some outputData)).dataAiSaliencyReady = true
      ↔ p ≥ 7 / 10 ∧ (ui = false ∨ img.wrapper = true ∨ img.parentNode = true))
    ∧ (∀ q : α, DetectSimple.aiProbability exp outputData = some q →
        ((DetectSimple.detectAI exp ui img (some outputData)).dataAiSaliencyReady = true
          ↔ q ≥ 7 / 10 ∧ (ui = false ∨ img.wrapper = true ∨ img.parentNode = true)))
    ∧ (p ≥ 7 / 10 → ui = true → img.wrapper = false → img.parentNode = false →
        Detect.detectAI exp true ui img (some outputData)
          = { img with dataAiDetected := true, dataAiProbability := some (toFixed3 p),
                       dataAiError := true })
    ∧ (p < 7 / 10 → UI.updateImageBadge img p = some img)
    ∧ (p ≥ 7 / 10 → (img.wrapper = true ∨ img.parentNode = true) →
        UI.updateImageBadge img p
          = some { img with wrapper := true, showWhy := true,
                            badge := some (mathRound (p * 100)) })
    ∧ (p ≥ 7 / 10 → img.wrapper = false → img.parentNode = false →
        UI.updateImageBadge img p = none)
    ∧ (img.aiProcessed = false → p < 7 / 10 →
        ContentSimple.addBadge img p = Except.ok { img with aiProcessed := true })
    ∧ (img.aiProcessed = false → p ≥ 7 / 10 →
        (img.aiWrapper = true ∨ img.parentNode = true) →
        ContentSimple.addBadge img p
          = Except.ok { img with aiProcessed := true, aiWrapper := true,
                                 aiBadges := img.aiBadges ++ [mathRound (p * 100)] })
    ∧ (img.aiProcessed = false → p ≥ 7 / 10 → img.aiWrapper = false →
        img.parentNode = false →
        ContentSimple.addBadge img p = Except.error { img with aiProcessed := true }) := by
  obtain ⟨hd, hs⟩ := hfresh
  obtain ⟨s1, s2⟩ := detectAI_saliencyReady_iff exp ui img outputData p hd hs
  obtain ⟨c1, c2, c3⟩ := updateImageBadge_cases img p
  refine ⟨s1 hp, ?_, ?_, c1, c2, c3, ?_, ?_, ?_⟩
  · intro q hq
    exact (detectAI_saliencyReady_iff exp ui img outputData q hd hs).2 hq
  · intro h hu hw hpn
    exact (detectAI_decoded exp ui img outputData p hd _
      (Or.inl ⟨hp, rfl⟩)).2.2.2 h hu hw hpn
  · intro ha h
    have h' : ¬ (7 / 10 ≤ p) := not_le.mpr h
    simp [ContentSimple.addBadge, ha, h']
  · intro ha h hw
    rcases hw with hw | hw <;> simp [ContentSimple.addBadge, ha, h, hw]
  · intro ha h hw hpn
    simp [ContentSimple.addBadge, ha, h, hw, hpn]

theorem C4_threshold_decision_witness :
    ((Detect.detectAI (fun _ : ℚ => 1) true true ({} : Img)
        (some [7 / 10])).dataAiSaliencyReady = true
      ↔ (7 / 10 : ℚ) ≥ 7 / 10
        ∧ (true = false ∨ ({} : Img).wrapper = true ∨ ({} : Img).parentNode = true))
    ∧ UI.updateImageBadge ({} : Img) (7 / 10 : ℚ)
      = some { wrapper := true, showWhy := true,
               badge := some (mathRound ((7 / 10 : ℚ) * 100)) } :=
  have h := C4_threshold_decision (fun _ : ℚ => 1) true ({} : Img) [7 / 10] (7 / 10)
    ⟨rfl, rfl⟩ (by norm_num [Detect.aiProbability, singleOutput])
  ⟨h.1, h.2.2.2.2.1 (le_refl _) (Or.inr rfl)⟩

/-- C4, the claim as stated fails for an image without a parent node (one
that was removed from the document before its turn): at probability `9/10`,
which is at least `0.7`, `updateImageBadge` throws and creates no badge,
`detectAI` of both scripts ends with `data-ai-error` and without
`data-ai-saliency-ready`, and `addBadge` throws with no badge added. -/
theorem C4_detached_image_counterexample :
    (9 / 10 : ℚ) ≥ 7 / 10
    ∧ UI.updateImageBadge ({ parentNode := false } : Img) (9 / 10 : ℚ) = none
    ∧ Detect.detectAI (fun x : ℚ => x) true true ({ parentNode := false } : Img)
        (some [9 / 10])
      = { parentNode := false, dataAiDetected := true, dataAiProbability := some 900,
          dataAiError := true }
    ∧ DetectSimple.detectAI (fun x : ℚ => x) true ({ parentNode := false } : Img)
        (some [9 / 10])
      = { parentNode := false, dataAiDetected := true, dataAiProbability := some 900,
          dataAiError := true }
    ∧ ContentSimple.addBadge ({ parentNode := false } : Img) (9 / 10 : ℚ)
      = Except.error { parentNode := false, aiProcessed := true } := by
  have hp : Detect.aiProbability (fun x : ℚ => x) [9 / 10] = some (9 / 10) := by
    norm_num [Detect.aiProbability, singleOutput]
  have hq : DetectSimple.aiProbability (fun x : ℚ => x) [9 / 10] = some (9 / 10) := by
    norm_num [DetectSimple.aiProbability, singleOutput]
  have h9 : (9 / 10 : ℚ) ≥ 7 / 10 := by norm_num
  have ht : toFixed3 (9 / 10 : ℚ) = 900 := by
    norm_num [toFixed3]
  refine ⟨h9, ?_, ?_, ?_, ?_⟩
  · exact (updateImageBadge_cases ({ parentNode := false } : Img) (9 / 10 : ℚ)).2.2 h9 rfl rfl
  · rw [(detectAI_decoded (fun x : ℚ => x) true ({ parentNode := false } : Img) [9 / 10]
      (9 / 10) rfl _ (Or.inl ⟨hp, rfl⟩)).2.2.2 h9 rfl rfl rfl, ht]
  · rw [(detectAI_decoded (fun x : ℚ => x) true ({ parentNode := false } : Img) [9 / 10]
      (9 / 10) rfl _ (Or.inr ⟨hq, rfl⟩)).2.2.2 h9 rfl rfl rfl, ht]
  · simp [ContentSimple.addBadge]
    norm_num

end ThresholdTheorems

section SizeFilterTheorems

theorem orElse_eq (a b : Nat) : orElse a b = if a = 0 then b else a := by
  unfold orElse
  by_cases h : a = 0 <;> simp [h]

theorem isValidImageSize_eq (img : Img) :
    isValidImageSize img =
      if 150 ≤ (if img.naturalWidth = 0 then img.width else img.naturalWidth)
          ∧ (if img.naturalWidth = 0 then img.width else img.naturalWidth) ≤ 1024
          ∧ 150 ≤ (if img.naturalHeight = 0 then img.height else img.naturalHeight)
          ∧ (if img.naturalHeight = 0 then img.height else img.naturalHeight) ≤ 1024 then
        (true, img)
      else if (if img.naturalWidth = 0 then img.width else img.naturalWidth) < 150
          ∨ (if img.naturalHeight = 0 then img.height else img.naturalHeight) < 150 then
        (false, { img with dataAiSkip := some SkipReason.small })
      else
        (false, { img with dataAiSkip := some SkipReason.large }) := by
  simp only [isValidImageSize, orElse_eq, MIN_SIZE, MAX_SIZE, ge_iff_le]

/-- C5: `isValidImageSize` returns `true` exactly when
`150 ≤ width ≤ 1024` and `150 ≤ height ≤ 1024`, where each dimension is the
natural one, or the layout one when the natural one is `0`; `isValidSize` of
`content-simple.js` decides the same predicate. -/
theorem C5_isValidImageSize_iff (img : Img) :
    ((isValidImageSize img).1 = true ↔
      (150 ≤ (if img.naturalWidth = 0 then img.width else img.naturalWidth)
        ∧ (if img.naturalWidth = 0 then img.width else img.naturalWidth) ≤ 1024)
      ∧ (150 ≤ (if img.naturalHeight = 0 then img.height else img.naturalHeight)
        ∧ (if img.naturalHeight = 0 then img.height else img.naturalHeight) ≤ 1024))
    ∧ ContentSimple.isValidSize img = (isValidImageSize img).1 := by
  simp only [isValidImageSize_eq, ContentSimple.isValidSize, orElse_eq]
  generalize (if img.naturalWidth = 0 then img.width else img.naturalWidth) = w
  generalize (if img.naturalHeight = 0 then img.height else img.naturalHeight) = h
  split_ifs with h1 h2 <;> simp <;> omega

/-- C6: a rejected image gets exactly one skip reason, `small` when the width
or the height is below `150` and `large` otherwise, in which case a
dimension exceeds `1024`; an accepted image is returned unchanged. `149x300`
is skipped as small, `1025x300` as large and `300x300` is accepted. -/
theorem C6_skip_reason (img : Img) :
    ((isValidImageSize img).1 = false →
      (((if img.naturalWidth = 0 then img.width else img.naturalWidth) < 150
          ∨ (if img.naturalHeight = 0 then img.height else img.naturalHeight) < 150) →
        (isValidImageSize img).2 = { img with dataAiSkip := some SkipReason.small })
      ∧ (¬ ((if img.naturalWidth = 0 then img.width else img.naturalWidth) < 150
          ∨ (if img.naturalHeight = 0 then img.height else img.naturalHeight) < 150) →
        (isValidImageSize img).2 = { img with dataAiSkip := some SkipReason.large }
        ∧ (1024 < (if img.naturalWidth = 0 then img.width else img.naturalWidth)
          ∨ 1024 < (if img.naturalHeight = 0 then img.height else img.naturalHeight))))
    ∧ ((isValidImageSize img).1 = true → (isValidImageSize img).2 = img)
    ∧ isValidImageSize { naturalWidth := 149, naturalHeight := 300 }
        = (false, { naturalWidth := 149, naturalHeight := 300,
                    dataAiSkip := some SkipReason.small })
    ∧ isValidImageSize { naturalWidth := 1025, naturalHeight := 300 }
        = (false, { naturalWidth := 1025, naturalHeight := 300,
                    dataAiSkip := some SkipReason.large })
    ∧ isValidImageSize { naturalWidth := 300, naturalHeight := 300 }
        = (true, { naturalWidth := 300, naturalHeight := 300 }) := by
  refine ⟨?_, ?_, by decide, by decide, by decide⟩
  · simp only [isValidImageSize_eq]
    generalize (if img.naturalWidth = 0 then img.width else img.naturalWidth) = w
    generalize (if img.naturalHeight = 0 then img.height else img.naturalHeight) = h
    split_ifs with h1 h2
    · simp
    · intro _
      exact ⟨fun _ => rfl, fun hn => absurd h2 hn⟩
    · intro _
      refine ⟨fun hn => absurd hn h2, fun _ => ⟨rfl, ?_⟩⟩
      omega
  · simp only [isValidImageSize_eq]
    split_ifs with h1 h2 <;> simp

theorem C6_skip_reason_witness :
    (isValidImageSize { naturalWidth := 149, naturalHeight := 300 }).1 = false
    ∧ (isValidImageSize { naturalWidth := 149, naturalHeight := 300 }).2
        = { naturalWidth := 149, naturalHeight := 300, dataAiSkip := some SkipReason.small } :=
  ⟨by decide,
   ((C6_skip_reason { naturalWidth := 149, naturalHeight := 300 }).1 (by decide)).1
     (by decide)⟩

end SizeFilterTheorems

section EncoderTheorems

theorem set_three_get {β : Type} (data : List β) (m : Nat) (v0 v1 v2 : β) (j : Nat) :
    (((data.set (3 * m) v0).set (3 * m + 1) v1).set (3 * m + 2) v2)[j]?
      = if j / 3 = m then
          (if j < data.length then
            some (if j % 3 = 0 then v0 else if j % 3 = 1 then v1 else v2) else none)
        else data[j]? := by
  simp only [List.getElem?_set, List.length_set]
  by_cases h2 : 3 * m + 2 = j
  · have : j / 3 = m := by omega
    have hm : j % 3 = 2 := by omega
    simp [h2, this, hm]
  · by_cases h1 : 3 * m + 1 = j
    · have : j / 3 = m := by omega
      have hm : j % 3 = 1 := by omega
      simp [h2, h1, this, hm]
    · by_cases h0 : 3 * m = j
      · have : j / 3 = m := by omega
        have hm : j % 3 = 0 := by omega
        simp [h2, h1, h0, this, hm]
      · have : ¬ j / 3 = m := by omega
        simp [h2, h1, h0, this]

variable {α : Type} [LinearOrderedField α]

/-- The value both encoders store at flat index `j`: channel `j % 3` of pixel
`j / 3`, divided by 255. -/
theorem channel_select (pixels : List (Fin 256)) (m j : Nat) (hj : j / 3 = m) :
    (if j % 3 = 0 then (pixelAt pixels (m * 4 + 0) : α)
      else if j % 3 = 1 then pixelAt pixels (m * 4 + 1) else pixelAt pixels (m * 4 + 2))
      = pixelAt pixels ((j / 3) * 4 + j % 3) := by
  have h3 : j % 3 = 0 ∨ j % 3 = 1 ∨ j % 3 = 2 := by omega
  rcases h3 with h | h | h <;> simp [h, hj]

theorem writePixel_get (size : Nat) (pixels : List (Fin 256)) (h w : Nat) (data : List α)
    (j : Nat) :
    (writePixel size pixels h w data)[j]?
      = if j / 3 = h * size + w then
          (if j < data.length then some (pixelAt pixels ((j / 3) * 4 + j % 3)) else none)
        else data[j]? := by
  have hr : List.range 3 = [0, 1, 2] := by decide
  have e0 : h * size * 3 + w * 3 + 0 = 3 * (h * size + w) := by ring
  have e1 : h * size * 3 + w * 3 + 1 = 3 * (h * size + w) + 1 := by ring
  have e2 : h * size * 3 + w * 3 + 2 = 3 * (h * size + w) + 2 := by ring
  simp only [writePixel, hr, List.foldl_cons, List.foldl_nil, e0, e1, e2]
  rw [set_three_get]
  by_cases hj : j / 3 = h * size + w
  · rw [if_pos hj, if_pos hj, channel_select pixels _ j hj]
  · rw [if_neg hj, if_neg hj]

theorem writePixel_length (size : Nat) (pixels : List (Fin 256)) (h w : Nat) (data : List α) :
    (writePixel size pixels h w data).length = data.length := by
  have hr : List.range 3 = [0, 1, 2] := by decide
  simp [writePixel, hr]

/-- The first `n` pixels of row `h`. -/
theorem row_invariant (size : Nat) (pixels : List (Fin 256)) (h : Nat) (data : List α)
    (n : Nat) :
    ((List.range n).foldl (fun d w => writePixel size pixels h w d) data).length = data.length
    ∧ ∀ j, ((List.range n).foldl (fun d w => writePixel size pixels h w d) data)[j]?
      = if h * size ≤ j / 3 ∧ j / 3 < h * size + n then
          (if j < data.length then some (pixelAt pixels ((j / 3) * 4 + j % 3)) else none)
        else data[j]? := by
  induction n with
  | zero =>
    refine ⟨by simp, fun j => ?_⟩
    have : ¬ (h * size ≤ j / 3 ∧ j / 3 < h * size) := by omega
    simp [this]
  | succ n ih =>
    obtain ⟨ihl, ihg⟩ := ih
    simp only [List.range_succ, List.foldl_append, List.foldl_cons, List.foldl_nil]
    refine ⟨by rw [writePixel_length, ihl], fun j => ?_⟩
    rw [writePixel_get, ihl, ihg]
    by_cases h1 : j / 3 = h * size + n
    · have h2 : h * size ≤ j / 3 ∧ j / 3 < h * size + (n + 1) := by omega
      rw [if_pos h1, if_pos h2]
    · rw [if_neg h1]
      by_cases h3 : h * size ≤ j / 3 ∧ j / 3 < h * size + n
      · have h2 : h * size ≤ j / 3 ∧ j / 3 < h * size + (n + 1) := by omega
        rw [if_pos h3, if_pos h2]
      · have h2 : ¬ (h * size ≤ j / 3 ∧ j / 3 < h * size + (n + 1)) := by omega
        rw [if_neg h3, if_neg h2]

/-- The first `n` rows. -/
theorem rows_invariant (size : Nat) (pixels : List (Fin 256)) (data : List α) (n : Nat) :
    ((List.range n).foldl
        (fun d h => (List.range size).foldl (fun d w => writePixel size pixels h w d) d)
        data).length = data.length
    ∧ ∀ j, ((List.range n).foldl
        (fun d h => (List.range size).foldl (fun d w => writePixel size pixels h w d) d)
        data)[j]?
      = if j / 3 < n * size then
          (if j < data.length then some (pixelAt pixels ((j / 3) * 4 + j % 3)) else none)
        else data[j]? := by
  induction n with
  | zero =>
    refine ⟨by simp, fun j => ?_⟩
    simp
  | succ n ih =>
    obtain ⟨ihl, ihg⟩ := ih
    simp only [List.range_succ, List.foldl_append, List.foldl_cons, List.foldl_nil]
    refine ⟨by rw [(row_invariant size pixels n _ size).1, ihl], fun j => ?_⟩
    rw [(row_invariant size pixels n _ size).2, ihl, ihg]
    have e : (n + 1) * size = n * size + size := by ring
    rw [e]
    by_cases h1 : n * size ≤ j / 3 ∧ j / 3 < n * size + size
    · have h2 : j / 3 < n * size + size := h1.2
      rw [if_pos h1, if_pos h2]
    · rw [if_neg h1]
      by_cases h3 : j / 3 < n * size
      · have h2 : j / 3 < n * size + size := by omega
        rw [if_pos h3, if_pos h2]
      · have h2 : ¬ j / 3 < n * size + size := by omega
        rw [if_neg h3, if_neg h2]

theorem fillHWC_get (size : Nat) (pixels : List (Fin 256)) :
    (Detect.fillHWC size pixels : List α).length = size * size * 3
    ∧ ∀ j, (Detect.fillHWC size pixels : List α)[j]?
      = if j < size * size * 3 then some (pixelAt pixels ((j / 3) * 4 + j % 3)) else none := by
  have h := rows_invariant size pixels (List.replicate (size * size * 3) (0 : α)) size
  have hdef : (Detect.fillHWC size pixels : List α)
      = (List.range size).foldl
        (fun d h => (List.range size).foldl (fun d w => writePixel size pixels h w d) d)
        (List.replicate (size * size * 3) (0 : α)) := rfl
  rw [hdef]
  refine ⟨by rw [h.1, List.length_replicate], fun j => ?_⟩
  rw [h.2, List.length_replicate]
  by_cases hj : j < size * size * 3
  · have h1 : j / 3 < size * size := by omega
    rw [if_pos h1, if_pos hj]
  · have h1 : ¬ j / 3 < size * size := by omega
    rw [if_neg h1, if_neg hj]
    simp only [List.getElem?_replicate, if_neg hj]

/-- The first `n` rounds of the flat loop of `saliency.js`. -/
theorem flat_invariant (pixels : List (Fin 256)) (data : List α) (n : Nat) :
    (((List.range n).foldl
        (fun (st : List α × Nat) k =>
          (((st.1.set st.2 (pixelAt pixels (4 * k))).set (st.2 + 1)
              (pixelAt pixels (4 * k + 1))).set (st.2 + 1 + 1) (pixelAt pixels (4 * k + 2)),
            st.2 + 1 + 1 + 1))
        (data, 0)).2 = 3 * n)
    ∧ (((List.range n).foldl
        (fun (st : List α × Nat) k =>
          (((st.1.set st.2 (pixelAt pixels (4 * k))).set (st.2 + 1)
              (pixelAt pixels (4 * k + 1))).set (st.2 + 1 + 1) (pixelAt pixels (4 * k + 2)),
            st.2 + 1 + 1 + 1))
        (data, 0)).1.length = data.length)
    ∧ ∀ j, ((List.range n).foldl
        (fun (st : List α × Nat) k =>
          (((st.1.set st.2 (pixelAt pixels (4 * k))).set (st.2 + 1)
              (pixelAt pixels (4 * k + 1))).set (st.2 + 1 + 1) (pixelAt pixels (4 * k + 2)),
            st.2 + 1 + 1 + 1))
        (data, 0)).1[j]?
      = if j / 3 < n then
          (if j < data.length then some (pixelAt pixels ((j / 3) * 4 + j % 3)) else none)
        else data[j]? := by
  induction n with
  | zero => simp
  | succ n ih =>
    obtain ⟨ihi, ihl, ihg⟩ := ih
    simp only [List.range_succ, List.foldl_append, List.foldl_cons, List.foldl_nil]
    rw [ihi]
    refine ⟨by ring, by simp only [List.length_set, ihl], fun j => ?_⟩
    have e1 : 3 * n + 1 + 1 = 3 * n + 2 := by ring
    have e4 : 4 * n = n * 4 + 0 := by ring
    have e5 : 4 * n + 1 = n * 4 + 1 := by ring
    have e6 : 4 * n + 2 = n * 4 + 2 := by ring
    rw [e1, e6, e5, e4, set_three_get, ihl, ihg]
    by_cases h1 : j / 3 = n
    · have h2 : j / 3 < n + 1 := by omega
      rw [if_pos h1, if_pos h2, channel_select pixels _ j h1]
    · rw [if_neg h1]
      by_cases h3 : j / 3 < n
      · have h2 : j / 3 < n + 1 := by omega
        rw [if_pos h3, if_pos h2]
      · have h2 : ¬ j / 3 < n + 1 := by omega
        rw [if_neg h3, if_neg h2]

theorem fillFlat_get (size : Nat) (pixels : List (Fin 256))
    (hlen : pixels.length = size * size * 4) :
    (Saliency.fillFlat size pixels : List α).length = size * size * 3
    ∧ ∀ j, (Saliency.fillFlat size pixels : List α)[j]?
      = if j < size * size * 3 then some (pixelAt pixels ((j / 3) * 4 + j % 3)) else none := by
  have h := flat_invariant pixels (List.replicate (size * size * 3) (0 : α))
    ((pixels.length + 3) / 4)
  have hn : (pixels.length + 3) / 4 = size * size := by omega
  have hdef : (Saliency.fillFlat size pixels : List α)
      = ((List.range ((pixels.length + 3) / 4)).foldl
        (fun (st : List α × Nat) k =>
          (((st.1.set st.2 (pixelAt pixels (4 * k))).set (st.2 + 1)
              (pixelAt pixels (4 * k + 1))).set (st.2 + 1 + 1) (pixelAt pixels (4 * k + 2)),
            st.2 + 1 + 1 + 1))
        (List.replicate (size * size * 3) (0 : α), 0)).1 := rfl
  rw [hdef]
  refine ⟨by rw [h.2.1, List.length_replicate], fun j => ?_⟩
  rw [h.2.2, List.length_replicate, hn]
  by_cases hj : j < size * size * 3
  · have h1 : j / 3 < size * size := by omega
    rw [if_pos h1, if_pos hj]
  · have h1 : ¬ j / 3 < size * size := by omega
    rw [if_neg h1, if_neg hj]
    simp only [List.getElem?_replicate, if_neg hj]

theorem pixelAt_mem_unit (pixels : List (Fin 256)) (i : Nat) :
    0 ≤ (pixelAt pixels i : α) ∧ (pixelAt pixels i : α) ≤ 1 := by
  unfold pixelAt
  have hb : ((pixels.getD i 0 : Fin 256) : Nat) ≤ 255 := by
    have := (pixels.getD i 0).isLt
    omega
  have hc : (((pixels.getD i 0 : Fin 256) : Nat) : α) ≤ 255 := by exact_mod_cast hb
  constructor
  · positivity
  · rw [div_le_one (by norm_num)]
    exact hc

/-- C7: for an RGBA buffer of a `size x size` image (`256` in `detect.js`,
`224` in `saliency.js`) the encoded tensor has exactly `size * size * 3`
elements, the element at `(h * size + w) * 3 + c` is
`pixels[(h * size + w) * 4 + c] / 255` for `c < 3` (the alpha byte is
dropped), every element lies in `[0, 1]`, and the flat loop of `saliency.js`
builds the same list as the triple loop of `detect.js`. -/
theorem C7_encoder_layout (size : Nat) (pixels : List (Fin 256))
    (hlen : pixels.length = size * size * 4) :
    (Detect.fillHWC size pixels : List α).length = size * size * 3
    ∧ (∀ h w c, h < size → w < size → c < 3 →
        (Detect.fillHWC size pixels : List α)[(h * size + w) * 3 + c]?
          = some ((((pixels.getD ((h * size + w) * 4 + c) 0 : Fin 256) : Nat) : α) / 255))
    ∧ (∀ x ∈ (Detect.fillHWC size pixels : List α), 0 ≤ x ∧ x ≤ 1)
    ∧ (Saliency.fillFlat size pixels : List α) = Detect.fillHWC size pixels
    ∧ (size = 256 → (Detect.preprocessImage pixels : List α) = Detect.fillHWC size pixels)
    ∧ (size = 224 → (Saliency.preprocessImage pixels : List α)
        = Saliency.fillFlat size pixels) := by
  have hH := fillHWC_get (α := α) size pixels
  have hF := fillFlat_get (α := α) size pixels hlen
  refine ⟨hH.1, ?_, ?_, ?_, ?_, ?_⟩
  · intro h w c hh hw hc
    have hlt : (h * size + w) * 3 + c < size * size * 3 := by
      have : h * size + w < size * size := by
        calc h * size + w < h * size + size := by omega
          _ = (h + 1) * size := by ring
          _ ≤ size * size := Nat.mul_le_mul_right size (by omega)
      omega
    have hd : ((h * size + w) * 3 + c) / 3 = h * size + w := by omega
    have hm : ((h * size + w) * 3 + c) % 3 = c := by omega
    rw [hH.2, if_pos hlt, hd, hm]
    rfl
  · intro x hx
    obtain ⟨j, hj, rfl⟩ := List.getElem_of_mem hx
    have hj' : j < size * size * 3 := by rw [← hH.1]; exact hj
    have := hH.2 j
    rw [if_pos hj', List.getElem?_eq_getElem hj] at this
    rw [Option.some.inj this]
    exact pixelAt_mem_unit pixels _
  · apply List.ext_getElem?
    intro j
    rw [hH.2, hF.2]
  · rintro rfl
    rfl
  · rintro rfl
    rfl

theorem C7_encoder_layout_witness :
    ([10, 20, 30, 255] : List (Fin 256)).length = 1 * 1 * 4
    ∧ (Detect.fillHWC 1 [10, 20, 30, 255] : List ℚ).length = 1 * 1 * 3
    ∧ (Saliency.fillFlat 1 [10, 20, 30, 255] : List ℚ) = Detect.fillHWC 1 [10, 20, 30, 255] :=
  have h := C7_encoder_layout (α := ℚ) 1 [10, 20, 30, 255] rfl
  ⟨rfl, h.1, h.2.2.2.1⟩

end EncoderTheorems

section SchedulerTheorems

variable {α : Type} [LinearOrderedField α] [FloorRing α]

theorem queueImage_fresh (s : State) (i : Nat)
    (h : (s.imgs i).dataAiDetected = false ∧ (s.imgs i).dataAiSkip = none
      ∧ (s.imgs i).dataAiQueued = false) :
    queueImage s i =
      { s with
        imgs := Function.update s.imgs i { s.imgs i with dataAiQueued := true }
        processingQueue := s.processingQueue ++ [i]
        batchTimer := true
        trace := s.trace ++ [Obs.push i] } := by
  obtain ⟨h1, h2, h3⟩ := h
  unfold queueImage
  cases hb : s.batchTimer <;> simp [h1, h2, h3, hb]

theorem queueImage_marked (s : State) (i : Nat)
    (h : (s.imgs i).dataAiDetected = true ∨ (s.imgs i).dataAiSkip ≠ none
      ∨ (s.imgs i).dataAiQueued = true) :
    queueImage s i = s := by
  unfold queueImage
  rcases h with h | h | h
  · simp [h]
  · have : (s.imgs i).dataAiSkip.isSome = true := by
      cases hs : (s.imgs i).dataAiSkip with
      | none => exact absurd hs h
      | some r => rfl
    simp [this]
  · simp [h]

/-- Queueing fresh, pairwise distinct images appends them to the queue in order. -/
theorem enqueue_all (ids : List Nat) :
    ∀ s : State, ids.Nodup →
      (∀ i ∈ ids, (s.imgs i).dataAiDetected = false ∧ (s.imgs i).dataAiSkip = none
        ∧ (s.imgs i).dataAiQueued = false) →
      (ids.foldl queueImage s).processingQueue = s.processingQueue ++ ids
      ∧ (ids.foldl queueImage s).trace = s.trace ++ ids.map Obs.push
      ∧ (ids.foldl queueImage s).batchTimer = (s.batchTimer || !ids.isEmpty)
      ∧ (ids.foldl queueImage s).isProcessing = s.isProcessing
      ∧ (ids.foldl queueImage s).running = s.running
      ∧ (ids.foldl queueImage s).nextTimers = s.nextTimers := by
  induction ids with
  | nil => intro s _ _; simp
  | cons i rest ih =>
    intro s hnd hfresh
    have hi := hfresh i (List.mem_cons_self _ _)
    rw [List.nodup_cons] at hnd
    have hrest : ∀ j ∈ rest, ((queueImage s i).imgs j).dataAiDetected = false
        ∧ ((queueImage s i).imgs j).dataAiSkip = none
        ∧ ((queueImage s i).imgs j).dataAiQueued = false := by
      intro j hj
      have hne : j ≠ i := fun e => hnd.1 (e ▸ hj)
      rw [queueImage_fresh s i hi]
      simp only [Function.update_noteq hne]
      exact hfresh j (List.mem_cons_of_mem _ hj)
    obtain ⟨h1, h2, h3, h4, h5, h6⟩ := ih (queueImage s i) hnd.2 hrest
    simp only [List.foldl_cons]
    rw [h1, h2, h3, h4, h5, h6, queueImage_fresh s i hi]
    simp


theorem cycles_append (t u : List Obs) : Obs.cycles (t ++ u) = Obs.cycles t ++ Obs.cycles u := by
  simp [Obs.cycles, List.filterMap_append]

theorem detects_append (t u : List Obs) :
    Obs.detects (t ++ u) = Obs.detects t ++ Obs.detects u := by
  simp [Obs.detects, List.filterMap_append]

theorem pushes_append (t u : List Obs) : Obs.pushes (t ++ u) = Obs.pushes t ++ Obs.pushes u := by
  simp [Obs.pushes, List.filterMap_append]

theorem cycles_cycle (c : List Nat) (t : List Obs) :
    Obs.cycles (Obs.cycle c :: t) = c :: Obs.cycles t := rfl

theorem detects_cycle (c : List Nat) (t : List Obs) :
    Obs.detects (Obs.cycle c :: t) = Obs.detects t := rfl

theorem pushes_cycle (c : List Nat) (t : List Obs) :
    Obs.pushes (Obs.cycle c :: t) = Obs.pushes t := rfl

theorem cycles_detect (i : Nat) (t : List Obs) :
    Obs.cycles (Obs.detect i :: t) = Obs.cycles t := rfl

theorem detects_detect (i : Nat) (t : List Obs) :
    Obs.detects (Obs.detect i :: t) = i :: Obs.detects t := rfl

theorem pushes_detect (i : Nat) (t : List Obs) :
    Obs.pushes (Obs.detect i :: t) = Obs.pushes t := rfl

theorem cycles_push (i : Nat) (t : List Obs) :
    Obs.cycles (Obs.push i :: t) = Obs.cycles t := rfl

theorem detects_push (i : Nat) (t : List Obs) :
    Obs.detects (Obs.push i :: t) = Obs.detects t := rfl

theorem pushes_push (i : Nat) (t : List Obs) :
    Obs.pushes (Obs.push i :: t) = i :: Obs.pushes t := rfl

theorem cycles_map_detect (b : List Nat) : Obs.cycles (b.map Obs.detect) = [] := by
  induction b with
  | nil => rfl
  | cons i rest ih => rw [List.map_cons, cycles_detect, ih]

theorem cycles_map_push (b : List Nat) : Obs.cycles (b.map Obs.push) = [] := by
  induction b with
  | nil => rfl
  | cons i rest ih => rw [List.map_cons, cycles_push, ih]

theorem detects_map_detect (b : List Nat) : Obs.detects (b.map Obs.detect) = b := by
  induction b with
  | nil => rfl
  | cons i rest ih => rw [List.map_cons, detects_detect, ih]

theorem detects_map_push (b : List Nat) : Obs.detects (b.map Obs.push) = [] := by
  induction b with
  | nil => rfl
  | cons i rest ih => rw [List.map_cons, detects_push, ih]

theorem pushes_map_detect (b : List Nat) : Obs.pushes (b.map Obs.detect) = [] := by
  induction b with
  | nil => rfl
  | cons i rest ih => rw [List.map_cons, pushes_detect, ih]

theorem pushes_map_push (b : List Nat) : Obs.pushes (b.map Obs.push) = b := by
  induction b with
  | nil => rfl
  | cons i rest ih => rw [List.map_cons, pushes_push, ih]

/-- Cutting a queue into batches of eight: the first batch and the batches
of the rest. -/
theorem batches_cons (q : List Nat) (cs : List (List Nat)) (hq : q ≠ [])
    (hlen : (q.drop 8 = [] ∧ cs = [])
      ∨ (q.drop 8 ≠ [] ∧ cs.length = ((q.drop 8).length + 7) / 8))
    (hget : ∀ k, k < cs.length → cs[k]? = some (((q.drop 8).drop (8 * k)).take 8)) :
    (q.take 8 :: cs).length = (q.length + 7) / 8
    ∧ ∀ k, k < (q.take 8 :: cs).length →
        (q.take 8 :: cs)[k]? = some ((q.drop (8 * k)).take 8) := by
  have hpos : 0 < q.length := List.length_pos.mpr hq
  constructor
  · rcases hlen with ⟨h1, h2⟩ | ⟨h1, h2⟩
    · have : q.length ≤ 8 := by
        have := congrArg List.length h1
        simp only [List.length_drop, List.length_nil] at this
        omega
      rw [h2]
      simp only [List.length_singleton]
      omega
    · have : 8 < q.length := by
        have := List.length_pos.mpr h1
        simp only [List.length_drop] at this
        omega
      simp only [List.length_cons, h2, List.length_drop]
      omega
  · intro k hk
    cases k with
    | zero => simp
    | succ k =>
      simp only [List.length_cons, Nat.add_lt_add_iff_right] at hk
      rw [List.getElem?_cons_succ, hget k hk, List.drop_drop]
      have : 8 * k + 8 = 8 * (k + 1) := by ring
      rw [Nat.add_comm 8 (8 * k), this]

namespace DetectSimple

theorem simple_runAlone_quiescent (exp : α → α) (infer : Nat → Option (List α)) (fuel : Nat)
    (s : State) (h : nextInternal infer s = none) : runAlone exp infer fuel s = s := by
  cases fuel with
  | zero => rfl
  | succ f => simp [runAlone, h]

/-- The `for` loop of one cycle, run without interference. -/
theorem simple_runAlone_items (exp : α → α) (infer : Nat → Option (List α)) (b : List Nat) :
    ∀ (s : State) (fuel : Nat), s.running = [b] →
      ∃ s' : State, runAlone exp infer (b.length + fuel) s = runAlone exp infer fuel s'
        ∧ s'.running = [[]]
        ∧ s'.trace = s.trace ++ b.map Obs.detect
        ∧ s'.processingQueue = s.processingQueue
        ∧ s'.isProcessing = s.isProcessing
        ∧ s'.batchTimer = s.batchTimer
        ∧ s'.nextTimers = s.nextTimers := by
  induction b with
  | nil =>
    intro s fuel hr
    exact ⟨s, by simp, hr, by simp, rfl, rfl, rfl, rfl⟩
  | cons i rest ih =>
    intro s fuel hr
    have hf : (i :: rest).length + fuel = (rest.length + fuel) + 1 := by
      simp only [List.length_cons]; omega
    have hn : nextInternal infer s = some (Event.processNext 0 (infer i)) := by
      simp [nextInternal, hr]
    obtain ⟨s', h1, h2, h3, h4, h5, h6, h7⟩ :=
      ih (processNext exp s 0 (infer i)) fuel (by simp [processNext, hr])
    refine ⟨s', ?_, h2, ?_, ?_, ?_, ?_, ?_⟩
    · rw [hf, runAlone, hn]
      simpa [step] using h1
    · rw [h3]; simp [processNext, hr]
    · rw [h4]; simp [processNext, hr]
    · rw [h5]; simp [processNext, hr]
    · rw [h6]; simp [processNext, hr]
    · rw [h7]; simp [processNext, hr]

/-- The end of the `for` loop of a cycle. -/
theorem simple_processNext_finish (exp : α → α) (s : State) (r : Option (List α))
    (h : s.running = [[]]) :
    (processNext exp s 0 r).trace = s.trace
    ∧ (processNext exp s 0 r).processingQueue = s.processingQueue
    ∧ (processNext exp s 0 r).running = []
    ∧ (processNext exp s 0 r).isProcessing = false
    ∧ (processNext exp s 0 r).batchTimer = s.batchTimer
    ∧ (processNext exp s 0 r).nextTimers
        = if s.processingQueue = [] then s.nextTimers else s.nextTimers + 1 := by
  by_cases hq : s.processingQueue = []
  · simp [processNext, h, hq]
  · have hpos : 0 < s.processingQueue.length := List.length_pos.mpr hq
    simp [processNext, h, hq, hpos]

/-- The scheduler of `detect-simple.js` left alone with a non-empty queue and
a pending trigger (the debounce timer, or the 100 ms timer of the previous
cycle) drains the queue in batches of eight. -/
theorem simple_runAlone_drain (exp : α → α) (infer : Nat → Option (List α)) (n : Nat) :
    ∀ (q : List Nat) (s : State) (fuel : Nat), q.length ≤ n → q ≠ [] →
      s.processingQueue = q → s.running = [] → s.isProcessing = false →
      ((s.batchTimer = true ∧ s.nextTimers = 0) ∨ (s.batchTimer = false ∧ s.nextTimers = 1)) →
      3 * q.length ≤ fuel →
      (runAlone exp infer fuel s).processingQueue = []
      ∧ (runAlone exp infer fuel s).running = []
      ∧ (runAlone exp infer fuel s).isProcessing = false
      ∧ (runAlone exp infer fuel s).batchTimer = false
      ∧ (runAlone exp infer fuel s).nextTimers = 0
      ∧ Obs.detects (runAlone exp infer fuel s).trace = Obs.detects s.trace ++ q
      ∧ Obs.pushes (runAlone exp infer fuel s).trace = Obs.pushes s.trace
      ∧ ∃ cs : List (List Nat),
          Obs.cycles (runAlone exp infer fuel s).trace = Obs.cycles s.trace ++ cs
          ∧ cs.length = (q.length + 7) / 8
          ∧ ∀ k, k < cs.length → cs[k]? = some ((q.drop (8 * k)).take 8) := by
  induction n with
  | zero =>
    intro q s fuel hn hq
    exact absurd (List.length_eq_zero.mp (Nat.le_zero.mp hn)) hq
  | succ n ih =>
    intro q s fuel hn hq hqueue hrun hproc htrig hfuel
    have hpos : 0 < q.length := List.length_pos.mpr hq
    -- the trigger fires and `processBatch` starts a cycle
    obtain ⟨f1, rfl⟩ : ∃ f1, fuel = f1 + 1 := ⟨fuel - 1, by omega⟩
    obtain ⟨s1, hs1, hq1, hr1, hp1, hb1, hn1, ht1⟩ : ∃ s1 : State,
        runAlone exp infer (f1 + 1) s = runAlone exp infer f1 s1
        ∧ s1.processingQueue = q.drop 8 ∧ s1.running = [q.take 8]
        ∧ s1.isProcessing = true ∧ s1.batchTimer = false ∧ s1.nextTimers = 0
        ∧ s1.trace = s.trace ++ [Obs.cycle (q.take 8)] := by
      have hlen : ¬ (q.length = 0) := by omega
      rcases htrig with ⟨hb, ht⟩ | ⟨hb, ht⟩
      · refine ⟨processBatch { s with batchTimer := false }, ?_, ?_, ?_, ?_, ?_, ?_, ?_⟩
        · simp [runAlone, nextInternal, hrun, hb, step]
        all_goals simp [processBatch, hproc, hqueue, hlen, hrun, ht, MAX_BATCH_SIZE]
      · refine ⟨processBatch { s with nextTimers := s.nextTimers - 1 }, ?_, ?_, ?_, ?_, ?_, ?_, ?_⟩
        · simp [runAlone, nextInternal, hrun, hb, ht, step]
        all_goals simp [processBatch, hproc, hqueue, hlen, hrun, hb, ht, MAX_BATCH_SIZE]
    -- the images of the batch
    have htake : (q.take 8).length ≤ 8 := by simp [List.length_take]
    have htake' : (q.take 8).length ≤ q.length := by simp [List.length_take]
    obtain ⟨f2, rfl⟩ : ∃ f2, f1 = (q.take 8).length + f2 :=
      ⟨f1 - (q.take 8).length, by omega⟩
    obtain ⟨s2, hs2, hr2, ht2, hq2, hp2, hb2, hn2⟩ := simple_runAlone_items exp infer (q.take 8) s1 f2 hr1
    -- the loop ends
    obtain ⟨f3, rfl⟩ : ∃ f3, f2 = f3 + 1 := ⟨f2 - 1, by omega⟩
    have hs3 : runAlone exp infer (f3 + 1) s2
        = runAlone exp infer f3 (processNext exp s2 0 none) := by
      simp [runAlone, nextInternal, hr2, step]
    rw [hs1, hs2, hs3]
    obtain ⟨e1, e2, e3, e4, e5, e6⟩ := simple_processNext_finish exp s2 none hr2
    have htr : (processNext exp s2 0 none).trace
        = s.trace ++ [Obs.cycle (q.take 8)] ++ (q.take 8).map Obs.detect := by
      rw [e1, ht2, ht1]
    have hdet : Obs.detects (processNext exp s2 0 none).trace
        = Obs.detects s.trace ++ q.take 8 := by
      rw [htr, detects_append, detects_append, detects_cycle, detects_map_detect]
      simp [Obs.detects]
    have hpush : Obs.pushes (processNext exp s2 0 none).trace = Obs.pushes s.trace := by
      rw [htr, pushes_append, pushes_append, pushes_cycle, pushes_map_detect]
      simp [Obs.pushes]
    have hcyc : Obs.cycles (processNext exp s2 0 none).trace
        = Obs.cycles s.trace ++ [q.take 8] := by
      rw [htr, cycles_append, cycles_append, cycles_cycle, cycles_map_detect]
      simp [Obs.cycles]
    rw [hq2, hq1] at e2 e6
    rw [hb2, hb1] at e5
    rw [hn2, hn1] at e6
    by_cases hrest : q.drop 8 = []
    · rw [if_pos hrest] at e6
      have hquiet : nextInternal infer (processNext exp s2 0 none) = none := by
        simp [nextInternal, e3, e5, e6]
      rw [simple_runAlone_quiescent exp infer f3 _ hquiet]
      have hall : q.take 8 = q := by
        have h := List.take_append_drop 8 q
        rw [hrest, List.append_nil] at h
        exact h
      refine ⟨by rw [e2, hrest], e3, e4, e5, e6, ?_, hpush, [q.take 8], hcyc, ?_, ?_⟩
      · rw [hdet, hall]
      · exact (batches_cons q [] hq (Or.inl ⟨hrest, rfl⟩) (by simp)).1
      · exact (batches_cons q [] hq (Or.inl ⟨hrest, rfl⟩) (by simp)).2
    · rw [if_neg hrest] at e6
      have hrpos : 0 < (q.drop 8).length := List.length_pos.mpr hrest
      have hdl : (q.drop 8).length = q.length - 8 := List.length_drop 8 q
      have ht8 : (q.take 8).length = 8 := by
        rw [List.length_take]; omega
      obtain ⟨g1, g2, g3, g4, g5, g6, g7, cs, g8, g9, g10⟩ :=
        ih (q.drop 8) (processNext exp s2 0 none) f3 (by omega) hrest
          e2 e3 e4 (Or.inr ⟨e5, e6⟩) (by omega)
      refine ⟨g1, g2, g3, g4, g5, ?_, ?_, q.take 8 :: cs, ?_, ?_, ?_⟩
      · rw [g6, hdet, List.append_assoc, List.take_append_drop]
      · rw [g7, hpush]
      · rw [g8, hcyc, List.append_assoc, List.singleton_append]
      · exact (batches_cons q cs hq (Or.inr ⟨hrest, g9⟩) g10).1
      · exact (batches_cons q cs hq (Or.inr ⟨hrest, g9⟩) g10).2

theorem simple_run_queueImage (exp : α → α) (ids : List Nat) (s : State) :
    run (step exp) s (ids.map Event.queueImage) = ids.foldl queueImage s := by
  induction ids generalizing s with
  | nil => rfl
  | cons i rest ih =>
    simp only [run, List.map_cons, List.foldl_cons] at ih ⊢
    exact ih (queueImage s i)

end DetectSimple

/-- C8: in the scheduler of `detect-simple.js`, `n ≥ 1` images queued before
the first cycle are processed, without any further event from outside, in
exactly `⌈n / 8⌉` cycles; the `k`-th cycle takes the next `min 8 remaining`
images from the front of the queue; `detectAI` is called on the images in
their queueing order; afterwards the scheduler is at rest with an empty
queue. With `n = 20` the cycles have sizes 8, 8, 4. -/
theorem C8_detect_simple_batches (exp : α → α) (infer : Nat → Option (List α))
    (s0 : State) (ids : List Nat) (fuel : Nat)
    (hn : 1 ≤ ids.length) (hnd : ids.Nodup)
    (hfresh : ∀ i ∈ ids, (s0.imgs i).dataAiDetected = false ∧ (s0.imgs i).dataAiSkip = none
      ∧ (s0.imgs i).dataAiQueued = false)
    (hidle : s0.processingQueue = [] ∧ s0.running = [] ∧ s0.isProcessing = false
      ∧ s0.batchTimer = false ∧ s0.nextTimers = 0 ∧ s0.trace = [])
    (hfuel : 3 * ids.length ≤ fuel) :
    (run (DetectSimple.step exp) s0 (ids.map Event.queueImage)).processingQueue = ids
    ∧ (Obs.cycles (DetectSimple.runAlone exp infer fuel
        (run (DetectSimple.step exp) s0 (ids.map Event.queueImage))).trace).length
        = (ids.length + 7) / 8
    ∧ (∀ k, k < (ids.length + 7) / 8 →
        (Obs.cycles (DetectSimple.runAlone exp infer fuel
          (run (DetectSimple.step exp) s0 (ids.map Event.queueImage))).trace)[k]?
          = some ((ids.drop (8 * k)).take 8)
        ∧ ((ids.drop (8 * k)).take 8).length = min 8 (ids.length - 8 * k))
    ∧ Obs.detects (DetectSimple.runAlone exp infer fuel
        (run (DetectSimple.step exp) s0 (ids.map Event.queueImage))).trace = ids
    ∧ (DetectSimple.runAlone exp infer fuel
        (run (DetectSimple.step exp) s0 (ids.map Event.queueImage))).processingQueue = []
    ∧ DetectSimple.nextInternal infer (DetectSimple.runAlone exp infer fuel
        (run (DetectSimple.step exp) s0 (ids.map Event.queueImage))) = none
    ∧ (ids.length = 20 →
        (Obs.cycles (DetectSimple.runAlone exp infer fuel
          (run (DetectSimple.step exp) s0 (ids.map Event.queueImage))).trace).map List.length
          = [8, 8, 4]) := by
  obtain ⟨i1, i2, i3, i4, i5, i6⟩ := hidle
  have hne : ids ≠ [] := by
    intro h; rw [h] at hn; simp at hn
  obtain ⟨q1, q2, q3, q4, q5, q6⟩ := enqueue_all ids s0 hnd hfresh
  rw [DetectSimple.simple_run_queueImage]
  rw [i1, List.nil_append] at q1
  rw [i6, List.nil_append] at q2
  have hbt : (ids.foldl queueImage s0).batchTimer = true := by
    rw [q3, i4]
    cases ids with
    | nil => exact absurd rfl hne
    | cons a l => rfl
  obtain ⟨g1, g2, g3, g4, g5, g6, g7, cs, g8, g9, g10⟩ :=
    DetectSimple.simple_runAlone_drain exp infer ids.length ids (ids.foldl queueImage s0) fuel
      (le_refl _) hne q1 (q5.trans i2) (q4.trans i3) (Or.inl ⟨hbt, q6.trans i5⟩) hfuel
  rw [q2, cycles_map_push, List.nil_append] at g8
  rw [q2, detects_map_push, List.nil_append] at g6
  rw [g8]
  refine ⟨q1, g9, ?_, g6, g1, ?_, ?_⟩
  · intro k hk
    refine ⟨g10 k (by rw [g9]; exact hk), ?_⟩
    rw [List.length_take, List.length_drop]
  · simp [DetectSimple.nextInternal, g2, g4, g5]
  · intro h20
    rw [h20] at g9
    have h0 := g10 0 (by rw [g9]; decide)
    have h1 := g10 1 (by rw [g9]; decide)
    have h2 := g10 2 (by rw [g9]; decide)
    match cs, g9, h0, h1, h2 with
    | [c0, c1, c2], _, h0, h1, h2 =>
      simp only [List.getElem?_cons_zero, List.getElem?_cons_succ, Option.some.injEq] at h0 h1 h2
      rw [h0, h1, h2]
      simp only [List.map_cons, List.map_nil, List.length_take, List.length_drop, h20]
      rfl

theorem C8_detect_simple_batches_witness :
    Obs.cycles (DetectSimple.runAlone (fun x : ℚ => x) (fun _ => none) 27
        (run (DetectSimple.step (fun x : ℚ => x)) { imgs := fun _ => {} }
          ([0, 1, 2, 3, 4, 5, 6, 7, 8].map Event.queueImage))).trace
      = [[0, 1, 2, 3, 4, 5, 6, 7], [8]] := by
  have h := C8_detect_simple_batches (fun x : ℚ => x) (fun _ => none) { imgs := fun _ => {} }
    [0, 1, 2, 3, 4, 5, 6, 7, 8] 27 (by decide) (by decide)
    (fun _ _ => ⟨rfl, rfl, rfl⟩) ⟨rfl, rfl, rfl, rfl, rfl, rfl⟩ (by decide)
  have hlen := h.2.1
  have h0 := (h.2.2.1 0 (by decide)).1
  have h1 := (h.2.2.1 1 (by decide)).1
  revert hlen h0 h1
  generalize Obs.cycles (DetectSimple.runAlone (fun x : ℚ => x) (fun _ => none) 27
        (run (DetectSimple.step (fun x : ℚ => x)) { imgs := fun _ => {} }
          ([0, 1, 2, 3, 4, 5, 6, 7, 8].map Event.queueImage))).trace = cs
  intro hlen h0 h1
  match cs, hlen, h0, h1 with
  | [c0, c1], _, h0, h1 =>
    simp only [List.getElem?_cons_zero, List.getElem?_cons_succ, Option.some.injEq] at h0 h1
    rw [h0, h1]
    rfl

end SchedulerTheorems

section DetectSchedulerTheorems

variable {α : Type} [LinearOrderedField α] [FloorRing α]

namespace Detect

theorem detect_runAlone_quiescent (exp : α → α) (infer : Nat → Option (List α)) (fuel : Nat)
    (s : State) (h : nextInternal infer s = none) : runAlone exp infer fuel s = s := by
  cases fuel with
  | zero => rfl
  | succ f => simp [runAlone, h]

/-- The `processNext` chain of one cycle, run without interference. -/
theorem detect_runAlone_items (exp : α → α) (infer : Nat → Option (List α)) (b : List Nat) :
    ∀ (s : State) (fuel : Nat), s.running = [b] →
      ∃ s' : State, runAlone exp infer (b.length + fuel) s = runAlone exp infer fuel s'
        ∧ s'.running = [[]]
        ∧ s'.trace = s.trace ++ b.map Obs.detect
        ∧ s'.processingQueue = s.processingQueue
        ∧ s'.isProcessing = s.isProcessing
        ∧ s'.batchTimer = s.batchTimer := by
  induction b with
  | nil =>
    intro s fuel hr
    exact ⟨s, by simp, hr, by simp, rfl, rfl, rfl⟩
  | cons i rest ih =>
    intro s fuel hr
    have hf : (i :: rest).length + fuel = (rest.length + fuel) + 1 := by
      simp only [List.length_cons]; omega
    have hn : nextInternal infer s = some (Event.processNext 0 (infer i)) := by
      simp [nextInternal, hr]
    obtain ⟨s', h1, h2, h3, h4, h5, h6⟩ :=
      ih (processNext exp s 0 (infer i)) fuel (by simp [processNext, hr])
    refine ⟨s', ?_, h2, ?_, ?_, ?_, ?_⟩
    · rw [hf, runAlone, hn]
      simpa [step] using h1
    · rw [h3]; simp [processNext, hr]
    · rw [h4]; simp [processNext, hr]
    · rw [h5]; simp [processNext, hr]
    · rw [h6]; simp [processNext, hr]

/-- The scheduler of `detect.js` left alone with a non-empty queue and the
debounce timer pending runs one cycle and then stops, whatever is left in
the queue. -/
theorem detect_runAlone_one_cycle (exp : α → α) (infer : Nat → Option (List α))
    (q : List Nat) (s : State) (fuel : Nat) (hq : q ≠ [])
    (hqueue : s.processingQueue = q) (hrun : s.running = []) (hproc : s.isProcessing = false)
    (htimer : s.batchTimer = true) (hfuel : (q.take 8).length + 2 ≤ fuel) :
    (runAlone exp infer fuel s).processingQueue = q.drop 8
    ∧ (runAlone exp infer fuel s).running = []
    ∧ (runAlone exp infer fuel s).isProcessing = false
    ∧ (runAlone exp infer fuel s).batchTimer = false
    ∧ (runAlone exp infer fuel s).trace
        = s.trace ++ [Obs.cycle (q.take 8)] ++ (q.take 8).map Obs.detect
    ∧ nextInternal infer (runAlone exp infer fuel s) = none := by
  have hpos : 0 < q.length := List.length_pos.mpr hq
  have hlen : ¬ (q.length = 0) := by omega
  obtain ⟨f1, rfl⟩ : ∃ f1, fuel = f1 + 1 := ⟨fuel - 1, by omega⟩
  have hs1 : runAlone exp infer (f1 + 1) s
      = runAlone exp infer f1 (processBatch { s with batchTimer := false }) := by
    simp [runAlone, nextInternal, hrun, htimer, step]
  obtain ⟨f2, rfl⟩ : ∃ f2, f1 = (q.take 8).length + f2 :=
    ⟨f1 - (q.take 8).length, by omega⟩
  obtain ⟨s2, hs2, hr2, ht2, hq2, hp2, hb2⟩ :=
    detect_runAlone_items exp infer (q.take 8) (processBatch { s with batchTimer := false }) f2
      (by simp [processBatch, hproc, hqueue, hlen, hrun, MAX_BATCH_SIZE])
  obtain ⟨f3, rfl⟩ : ∃ f3, f2 = f3 + 1 := ⟨f2 - 1, by omega⟩
  have hs3 : runAlone exp infer (f3 + 1) s2
      = runAlone exp infer f3 (processNext exp s2 0 none) := by
    simp [runAlone, nextInternal, hr2, step]
  have hb3 : s2.batchTimer = false := by
    rw [hb2]; simp [processBatch, hproc, hqueue, hlen]
  have hquiet : nextInternal infer (processNext exp s2 0 none) = none := by
    simp [nextInternal, processNext, hr2, hb3]
  rw [hs1, hs2, hs3, detect_runAlone_quiescent exp infer f3 _ hquiet]
  refine ⟨?_, ?_, ?_, ?_, ?_, hquiet⟩
  · simp [processNext, hr2, hq2, processBatch, hproc, hqueue, hlen, MAX_BATCH_SIZE]
  · simp [processNext, hr2]
  · simp [processNext, hr2]
  · simp [processNext, hr2, hb3]
  · simp [processNext, hr2, ht2, processBatch, hproc, hqueue, hlen, MAX_BATCH_SIZE]

theorem detect_run_queueImage (exp : α → α) (ids : List Nat) (s : State) :
    run (step exp) s (ids.map Event.queueImage) = ids.foldl queueImage s := by
  induction ids generalizing s with
  | nil => rfl
  | cons i rest ih =>
    simp only [run, List.map_cons, List.foldl_cons] at ih ⊢
    exact ih (queueImage s i)

end Detect

/-- C9, the code at the failing input: in `detect.js`, after 20 fresh images
are queued and the page is left alone (for any number `extra + 10` of
events), exactly one cycle has run, on the first 8 images; the other 12 are
still in the queue, and no timer, callback or running cycle is left that
could start another cycle. -/
theorem C9_detect_js_stops_after_one_cycle (exp : α → α) (infer : Nat → Option (List α))
    (extra : Nat) :
    Obs.cycles (Detect.runAlone exp infer (extra + 10)
        (run (Detect.step exp) { imgs := fun _ => {} }
          ((List.range 20).map Event.queueImage))).trace
      = [[0, 1, 2, 3, 4, 5, 6, 7]]
    ∧ Obs.detects (Detect.runAlone exp infer (extra + 10)
        (run (Detect.step exp) { imgs := fun _ => {} }
          ((List.range 20).map Event.queueImage))).trace
      = [0, 1, 2, 3, 4, 5, 6, 7]
    ∧ (Detect.runAlone exp infer (extra + 10)
        (run (Detect.step exp) { imgs := fun _ => {} }
          ((List.range 20).map Event.queueImage))).processingQueue
      = [8, 9, 10, 11, 12, 13, 14, 15, 16, 17, 18, 19]
    ∧ (Detect.runAlone exp infer (extra + 10)
        (run (Detect.step exp) { imgs := fun _ => {} }
          ((List.range 20).map Event.queueImage))).isProcessing = false
    ∧ (Detect.runAlone exp infer (extra + 10)
        (run (Detect.step exp) { imgs := fun _ => {} }
          ((List.range 20).map Event.queueImage))).batchTimer = false
    ∧ (Detect.runAlone exp infer (extra + 10)
        (run (Detect.step exp) { imgs := fun _ => {} }
          ((List.range 20).map Event.queueImage))).running = []
    ∧ Detect.nextInternal infer (Detect.runAlone exp infer (extra + 10)
        (run (Detect.step exp) { imgs := fun _ => {} }
          ((List.range 20).map Event.queueImage))) = none := by
  have hnd : (List.range 20).Nodup := List.nodup_range 20
  obtain ⟨q1, q2, q3, q4, q5, _⟩ := enqueue_all (List.range 20) { imgs := fun _ => {} } hnd
    (fun _ _ => ⟨rfl, rfl, rfl⟩)
  rw [Detect.detect_run_queueImage]
  have hr : List.range 20
      = [0, 1, 2, 3, 4, 5, 6, 7, 8, 9, 10, 11, 12, 13, 14, 15, 16, 17, 18, 19] := by decide
  obtain ⟨g1, g2, g3, g4, g5, g6⟩ :=
    Detect.detect_runAlone_one_cycle exp infer (List.range 20)
      ((List.range 20).foldl queueImage { imgs := fun _ => {} }) (extra + 10)
      (by rw [hr]; simp) (by rw [q1]; rfl) q5 q4 (by rw [q3, hr]; rfl)
      (by rw [hr]; simp)
  rw [g5, q2]
  refine ⟨?_, ?_, ?_, g3, g4, g2, g6⟩
  · rw [cycles_append, cycles_append, cycles_map_detect, cycles_append, cycles_map_push, hr]
    rfl
  · rw [detects_append, detects_append, detects_map_detect, detects_append, detects_map_push, hr]
    rfl
  · rw [g1, hr]
    rfl

end DetectSchedulerTheorems

section QueueOnceTheorems

variable {α : Type} [LinearOrderedField α] [FloorRing α]

theorem pushes_filter (i : Nat) (t : List Obs) :
    Obs.pushes (Obs.filter i :: t) = Obs.pushes t := rfl

theorem isValidImageSize_queued (img : Img) :
    (isValidImageSize img).2.dataAiQueued = img.dataAiQueued := by
  unfold isValidImageSize
  simp only
  split_ifs <;> rfl

theorem detectAI_queued (exp : α → α) (session ui : Bool) (img : Img)
    (result : Option (List α)) :
    (Detect.detectAI exp session ui img result).dataAiQueued = img.dataAiQueued := by
  unfold Detect.detectAI
  by_cases h1 : (!session || img.dataAiDetected) = true
  · rw [if_pos h1]
  · rw [if_neg h1]
    cases result with
    | none => rfl
    | some outputData =>
      simp only
      cases Detect.aiProbability exp outputData with
      | none => rfl
      | some p =>
        simp only
        cases ui
        · simp only [Bool.false_eq_true, if_false]
          split_ifs <;> rfl
        · simp only [if_true]
          cases hu : UI.updateImageBadge
              { img with dataAiDetected := true, dataAiProbability := some (toFixed3 p) } p with
          | none => rfl
          | some img2 =>
            have hq := (updateImageBadge_some _ img2 p hu).1
            simp only
            split_ifs
            · exact hq
            · exact hq

/-- A step that pushes nothing, keeps every queued mark and only removes
images from the queue keeps `PushedOnce`. -/
theorem pushedOnce_of_quiet {s s' : State} (h : PushedOnce s)
    (hp : Obs.pushes s'.trace = Obs.pushes s.trace)
    (hi : ∀ i, (s.imgs i).dataAiQueued = true → (s'.imgs i).dataAiQueued = true)
    (hq : s'.processingQueue.Sublist s.processingQueue) : PushedOnce s' := by
  obtain ⟨h1, h2, h3, h4⟩ := h
  refine ⟨by rw [hp]; exact h1, ?_, hq.nodup h3, ?_⟩
  · intro i hmem
    rw [hp] at hmem
    exact hi i (h2 i hmem)
  · intro i hmem
    rw [hp]
    exact h4 i (hq.subset hmem)

theorem pushedOnce_queueImage {s : State} (h : PushedOnce s) (i : Nat) :
    PushedOnce (queueImage s i) := by
  by_cases hm : (s.imgs i).dataAiDetected = true ∨ (s.imgs i).dataAiSkip ≠ none
      ∨ (s.imgs i).dataAiQueued = true
  · rw [queueImage_marked s i hm]
    exact h
  · have hf : (s.imgs i).dataAiDetected = false ∧ (s.imgs i).dataAiSkip = none
        ∧ (s.imgs i).dataAiQueued = false := by
      push_neg at hm
      refine ⟨by simpa using hm.1, hm.2.1, by simpa using hm.2.2⟩
    obtain ⟨h1, h2, h3, h4⟩ := h
    have hnp : i ∉ Obs.pushes s.trace := by
      intro hmem
      have := h2 i hmem
      rw [hf.2.2] at this
      exact absurd this (by decide)
    have hnq : i ∉ s.processingQueue := fun hmem => hnp (h4 i hmem)
    rw [queueImage_fresh s i hf]
    refine ⟨?_, ?_, ?_, ?_⟩
    · simp only [pushes_append]
      have : Obs.pushes [Obs.push i] = [i] := rfl
      rw [this]
      exact List.Nodup.append h1 (List.nodup_singleton i) (by simpa using hnp)
    · intro j hj
      simp only [pushes_append] at hj
      have hs : Obs.pushes [Obs.push i] = [i] := rfl
      rw [hs, List.mem_append, List.mem_singleton] at hj
      by_cases hji : j = i
      · subst hji
        simp
      · simp only [Function.update_noteq hji]
        rcases hj with hj | hj
        · exact h2 j hj
        · exact absurd hj hji
    · exact List.Nodup.append h3 (List.nodup_singleton i) (by simpa using hnq)
    · intro j hj
      simp only [pushes_append]
      have hs : Obs.pushes [Obs.push i] = [i] := rfl
      rw [hs]
      rw [List.mem_append, List.mem_singleton] at hj ⊢
      rcases hj with hj | hj
      · exact Or.inl (h4 j hj)
      · exact Or.inr hj

theorem pushedOnce_checkAndQueue {s : State} (h : PushedOnce s) (i : Nat) :
    PushedOnce (checkAndQueue s i) := by
  have h1 : PushedOnce { s with
      imgs := Function.update s.imgs i (isValidImageSize (s.imgs i)).2
      trace := s.trace ++ [Obs.filter i] } := by
    apply pushedOnce_of_quiet h
    · simp only [pushes_append]
      have : Obs.pushes [Obs.filter i] = [] := rfl
      rw [this, List.append_nil]
    · intro j hj
      by_cases hji : j = i
      · subst hji
        simp only [Function.update_same]
        rw [isValidImageSize_queued]
        exact hj
      · simp only [Function.update_noteq hji]
        exact hj
    · exact List.Sublist.refl _
  unfold checkAndQueue
  simp only
  split_ifs
  · exact pushedOnce_queueImage h1 i
  · exact h1

theorem pushedOnce_processImages (doc : List Nat) :
    ∀ {s : State}, PushedOnce s → PushedOnce (processImages s doc) := by
  induction doc with
  | nil => intro s h; exact h
  | cons i rest ih =>
    intro s h
    unfold processImages
    rw [List.foldl_cons]
    apply ih
    simp only
    split_ifs
    · exact h
    · exact pushedOnce_checkAndQueue h i
    · exact pushedOnce_of_quiet h rfl (fun _ hj => hj) (List.Sublist.refl _)

theorem pushedOnce_iterate_checkAndQueue (i n : Nat) :
    ∀ {s : State}, PushedOnce s → PushedOnce ((fun s => checkAndQueue s i)^[n] s) := by
  induction n with
  | zero => intro s h; exact h
  | succ n ih =>
    intro s h
    rw [Function.iterate_succ_apply]
    exact ih (pushedOnce_checkAndQueue h i)

theorem pushedOnce_load {s : State} (h : PushedOnce s) (i w ht : Nat) :
    PushedOnce (load s i w ht) := by
  unfold load
  apply pushedOnce_iterate_checkAndQueue
  refine pushedOnce_of_quiet h ?_ ?_ ?_
  · rfl
  · intro j hj
    by_cases hji : j = i
    · subst hji
      simp only [Function.update_same]
      exact hj
    · simp only [Function.update_noteq hji]
      exact hj
  · exact List.Sublist.refl _

theorem pushedOnce_processBatch {s : State} (h : PushedOnce s) :
    PushedOnce (Detect.processBatch s) := by
  unfold Detect.processBatch
  split_ifs
  · exact h
  · apply pushedOnce_of_quiet h
    · simp only [pushes_append]
      have : ∀ c, Obs.pushes [Obs.cycle c] = [] := fun _ => rfl
      rw [this, List.append_nil]
    · exact fun _ hj => hj
    · exact List.drop_sublist _ _

theorem pushedOnce_processNext (exp : α → α) {s : State} (h : PushedOnce s) (k : Nat)
    (result : Option (List α)) : PushedOnce (Detect.processNext exp s k result) := by
  unfold Detect.processNext
  split
  · exact h
  · exact pushedOnce_of_quiet h rfl (fun _ hj => hj) (List.Sublist.refl _)
  · rename_i i rest _
    apply pushedOnce_of_quiet h
    · simp only [pushes_append]
      have : Obs.pushes [Obs.detect i] = [] := rfl
      rw [this, List.append_nil]
    · intro j hj
      by_cases hji : j = i
      · subst hji
        simp only [Function.update_same]
        rw [detectAI_queued]
        exact hj
      · simp only [Function.update_noteq hji]
        exact hj
    · exact List.Sublist.refl _

/-- Every event of the `detect.js` page other than `stopDetection` keeps
`PushedOnce`. -/
theorem pushedOnce_step (exp : α → α) {s : State} (h : PushedOnce s) (e : Event α)
    (he : e.isStop = false) : PushedOnce (Detect.step exp s e) := by
  cases e with
  | queueImage i => exact pushedOnce_queueImage h i
  | processImages doc => exact pushedOnce_processImages doc h
  | load i w ht => exact pushedOnce_load h i w ht
  | mutation doc =>
    simp only [Detect.step, mutation]
    split_ifs
    · exact pushedOnce_processImages doc h
    · exact h
  | startDetection doc =>
    simp only [Detect.step, startDetection]
    split_ifs
    · exact h
    · exact pushedOnce_of_quiet (pushedOnce_processImages doc h) rfl (fun _ hj => hj)
        (List.Sublist.refl _)
  | stopDetection doc => exact absurd he (by simp [Event.isStop])
  | timer =>
    simp only [Detect.step]
    split_ifs
    · exact pushedOnce_processBatch
        (pushedOnce_of_quiet h rfl (fun _ hj => hj) (List.Sublist.refl _))
    · exact h
  | nextTimer => exact h
  | processBatch => exact pushedOnce_processBatch h
  | processNext k result => exact pushedOnce_processNext exp h k result

theorem pushedOnce_run (exp : α → α) (events : List (Event α)) :
    ∀ {s : State}, PushedOnce s → (∀ e ∈ events, e.isStop = false) →
      PushedOnce (run (Detect.step exp) s events) := by
  induction events with
  | nil => intro s h _; exact h
  | cons e rest ih =>
    intro s h hall
    simp only [run, List.foldl_cons]
    exact ih (pushedOnce_step exp h e (hall e (List.mem_cons_self _ _)))
      (fun e' he' => hall e' (List.mem_cons_of_mem _ he'))

/-- C10: on the `detect.js` page, `queueImage` changes nothing for an image
already marked queued, detected or skipped; the scan of `processImages`
passes over an image marked detected or skipped; and along every sequence of
events other than `stopDetection`, started with an empty queue, no image is
pushed onto `processingQueue` more than once and the queue never holds an
image twice. -/
theorem C10_enqueued_at_most_once (exp : α → α) (s0 : State) (events : List (Event α))
    (hinit : s0.processingQueue = [] ∧ s0.trace = [])
    (hev : ∀ e ∈ events, e.isStop = false) :
    (∀ (s : State) (i : Nat),
        ((s.imgs i).dataAiQueued = true ∨ (s.imgs i).dataAiDetected = true
          ∨ (s.imgs i).dataAiSkip ≠ none) →
        Detect.step exp s (Event.queueImage i) = s)
    ∧ (∀ (s : State) (i : Nat) (doc : List Nat),
        ((s.imgs i).dataAiDetected = true ∨ (s.imgs i).dataAiSkip ≠ none) →
        processImages s (i :: doc) = processImages s doc)
    ∧ (∀ i, (Obs.pushes (run (Detect.step exp) s0 events).trace).count i ≤ 1)
    ∧ (run (Detect.step exp) s0 events).processingQueue.Nodup := by
  have h0 : PushedOnce s0 := by
    obtain ⟨hq, ht⟩ := hinit
    refine ⟨?_, ?_, ?_, ?_⟩
    · rw [ht]; exact List.nodup_nil
    · intro i hi; rw [ht] at hi; exact absurd hi (List.not_mem_nil _)
    · rw [hq]; exact List.nodup_nil
    · intro i hi; rw [hq] at hi; exact absurd hi (List.not_mem_nil _)
  obtain ⟨h1, _, h3, _⟩ := pushedOnce_run exp events h0 hev
  refine ⟨?_, ?_, ?_, h3⟩
  · intro s i hm
    apply queueImage_marked
    rcases hm with hm | hm | hm
    · exact Or.inr (Or.inr hm)
    · exact Or.inl hm
    · exact Or.inr (Or.inl hm)
  · intro s i doc hm
    have hc : ((s.imgs i).dataAiDetected || (s.imgs i).dataAiSkip.isSome) = true := by
      rcases hm with hm | hm
      · simp [hm]
      · cases hs : (s.imgs i).dataAiSkip with
        | none => exact absurd hs hm
        | some r => simp
    unfold processImages
    rw [List.foldl_cons]
    simp only [hc, if_true]
  · intro i
    exact List.nodup_iff_count_le_one.mp h1 i

theorem C10_enqueued_at_most_once_witness :
    (Obs.pushes (run (Detect.step (fun x : ℚ => x)) { imgs := fun _ => {} }
      [Event.queueImage 0, Event.queueImage 0, Event.timer, Event.queueImage 0]).trace).count 0
      ≤ 1 :=
  (C10_enqueued_at_most_once (fun x : ℚ => x) { imgs := fun _ => {} }
    [Event.queueImage 0, Event.queueImage 0, Event.timer, Event.queueImage 0]
    ⟨rfl, rfl⟩ (by simp [Event.isStop])).2.2.1 0

end QueueOnceTheorems



section SingleCycleTheorems

variable {α : Type} [LinearOrderedField α] [FloorRing α]

/-- C11, the code at the failing input: two images are queued, the debounce
timer starts a cycle on both, the first is processed, `stopDetection` runs
while the second is still to come, then a third image is queued and its
debounce timer fires. In `detect-simple.js` and in `detect.js` alike the
`processBatch` call of that timer finds `isProcessing` cleared, takes the
third image off the queue and starts a second cycle although the first still
holds an unprocessed image. -/
theorem C11_stopDetection_lets_second_cycle_start (exp : α → α) (r : Option (List α)) :
    ((run (DetectSimple.step exp) { imgs := fun _ => {} }
        [Event.queueImage 0, Event.queueImage 1, Event.timer, Event.processNext 0 r,
          Event.stopDetection [0, 1], Event.queueImage 2]).running = [[1]]
      ∧ (run (DetectSimple.step exp) { imgs := fun _ => {} }
        [Event.queueImage 0, Event.queueImage 1, Event.timer, Event.processNext 0 r,
          Event.stopDetection [0, 1], Event.queueImage 2]).processingQueue = [2]
      ∧ (run (DetectSimple.step exp) { imgs := fun _ => {} }
        [Event.queueImage 0, Event.queueImage 1, Event.timer, Event.processNext 0 r,
          Event.stopDetection [0, 1], Event.queueImage 2, Event.timer]).running = [[1], [2]]
      ∧ (run (DetectSimple.step exp) { imgs := fun _ => {} }
        [Event.queueImage 0, Event.queueImage 1, Event.timer, Event.processNext 0 r,
          Event.stopDetection [0, 1], Event.queueImage 2, Event.timer]).processingQueue = [])
    ∧ ((run (Detect.step exp) { imgs := fun _ => {} }
        [Event.queueImage 0, Event.queueImage 1, Event.timer, Event.processNext 0 r,
          Event.stopDetection [0, 1], Event.queueImage 2]).running = [[1]]
      ∧ (run (Detect.step exp) { imgs := fun _ => {} }
        [Event.queueImage 0, Event.queueImage 1, Event.timer, Event.processNext 0 r,
          Event.stopDetection [0, 1], Event.queueImage 2]).processingQueue = [2]
      ∧ (run (Detect.step exp) { imgs := fun _ => {} }
        [Event.queueImage 0, Event.queueImage 1, Event.timer, Event.processNext 0 r,
          Event.stopDetection [0, 1], Event.queueImage 2, Event.timer]).running = [[1], [2]]
      ∧ (run (Detect.step exp) { imgs := fun _ => {} }
        [Event.queueImage 0, Event.queueImage 1, Event.timer, Event.processNext 0 r,
          Event.stopDetection [0, 1], Event.queueImage 2, Event.timer]).processingQueue = []) := by
  refine ⟨⟨?_, ?_, ?_, ?_⟩, ⟨?_, ?_, ?_, ?_⟩⟩ <;> rfl

end SingleCycleTheorems

section FailureIsolationTheorems

variable {α : Type} [LinearOrderedField α] [FloorRing α]

namespace DetectSimple

/-- The state after the `for` loop of a cycle has handled the images `b`. -/
theorem simple_items_fold (exp : α → α) (infer : Nat → Option (List α)) (b : List Nat) :
    ∀ (s : State) (fuel : Nat), s.running = [b] →
      runAlone exp infer (b.length + fuel) s
        = runAlone exp infer fuel (b.foldl (fun s i => processNext exp s 0 (infer i)) s) := by
  induction b with
  | nil =>
    intro s fuel _
    simp
  | cons i rest ih =>
    intro s fuel hr
    have hf : (i :: rest).length + fuel = (rest.length + fuel) + 1 := by
      simp only [List.length_cons]; omega
    have hn : nextInternal infer s = some (Event.processNext 0 (infer i)) := by
      simp [nextInternal, hr]
    rw [hf, runAlone, hn, List.foldl_cons]
    simp only [step]
    exact ih (processNext exp s 0 (infer i)) fuel (by simp [processNext, hr])

/-- What the `for` loop of a cycle does to the page. -/
theorem simple_items_effect (exp : α → α) (infer : Nat → Option (List α)) (b : List Nat) :
    ∀ (s : State), s.running = [b] → b.Nodup →
      (b.foldl (fun s i => processNext exp s 0 (infer i)) s).running = [[]]
      ∧ (b.foldl (fun s i => processNext exp s 0 (infer i)) s).trace
          = s.trace ++ b.map Obs.detect
      ∧ (∀ i ∈ b, (b.foldl (fun s i => processNext exp s 0 (infer i)) s).imgs i
          = detectAI exp s.ui (s.imgs i) (infer i))
      ∧ (∀ j, j ∉ b → (b.foldl (fun s i => processNext exp s 0 (infer i)) s).imgs j
          = s.imgs j) := by
  induction b with
  | nil =>
    intro s hr _
    exact ⟨hr, by simp, fun i hi => absurd hi (List.not_mem_nil _), fun _ _ => rfl⟩
  | cons i rest ih =>
    intro s hr hnd
    rw [List.nodup_cons] at hnd
    have hs1r : (processNext exp s 0 (infer i)).running = [rest] := by
      simp [processNext, hr]
    have hs1t : (processNext exp s 0 (infer i)).trace = s.trace ++ [Obs.detect i] := by
      simp [processNext, hr]
    have hs1u : (processNext exp s 0 (infer i)).ui = s.ui := by
      simp [processNext, hr]
    have hs1i : (processNext exp s 0 (infer i)).imgs
        = Function.update s.imgs i (detectAI exp s.ui (s.imgs i) (infer i)) := by
      simp [processNext, hr]
    obtain ⟨h1, h2, h3, h4⟩ := ih (processNext exp s 0 (infer i)) hs1r hnd.2
    rw [List.foldl_cons]
    refine ⟨h1, ?_, ?_, ?_⟩
    · rw [h2, hs1t, List.map_cons, List.append_assoc, List.singleton_append]
    · intro j hj
      rcases List.mem_cons.mp hj with hji | hjr
      · subst hji
        rw [h4 j hnd.1, hs1i, Function.update_same]
      · have hne : j ≠ i := fun e => hnd.1 (e ▸ hjr)
        rw [h3 j hjr, hs1u, hs1i, Function.update_noteq hne]
    · intro j hj
      have hne : j ≠ i := fun e => hj (e ▸ List.mem_cons_self _ _)
      have hnr : j ∉ rest := fun e => hj (List.mem_cons_of_mem _ e)
      rw [h4 j hnr, hs1i, Function.update_noteq hne]

end DetectSimple

theorem detectAI_failure (exp : α → α) (ui : Bool) (img : Img)
    (h : img.dataAiDetected = false) :
    DetectSimple.detectAI exp ui img none = { img with dataAiError := true }
    ∧ Detect.detectAI exp true ui img none = { img with dataAiError := true } := by
  constructor
  · simp [DetectSimple.detectAI, h]
  · simp [Detect.detectAI, h]

theorem detectAI_success (exp : α → α) (ui : Bool) (img : Img) (out : List α) (p : α)
    (h : img.dataAiDetected = false) (hp : DetectSimple.aiProbability exp out = some p) :
    (DetectSimple.detectAI exp ui img (some out)).dataAiDetected = true
    ∧ (DetectSimple.detectAI exp ui img (some out)).dataAiProbability = some (toFixed3 p) := by
  simp only [DetectSimple.detectAI, h, hp, Bool.false_eq_true, if_false]
  cases ui
  · simp only [Bool.false_eq_true, if_false]
    split_ifs <;> exact ⟨rfl, rfl⟩
  · simp only [if_true]
    cases hu : UI.updateImageBadge
        { img with dataAiDetected := true, dataAiProbability := some (toFixed3 p) } p with
    | none => exact ⟨rfl, rfl⟩
    | some img2 =>
      obtain ⟨_, hd2, hp2, _⟩ := updateImageBadge_some _ img2 p hu
      simp only
      split_ifs
      · exact ⟨hd2, hp2⟩
      · exact ⟨hd2, hp2⟩

theorem detect_detectAI_probability (exp : α → α) (ui : Bool) (img : Img) (out : List α)
    (p : α) (h : img.dataAiDetected = false) (hp : Detect.aiProbability exp out = some p) :
    (Detect.detectAI exp true ui img (some out)).dataAiProbability = some (toFixed3 p) := by
  simp only [Detect.detectAI, h, hp, Bool.not_true, Bool.or_self, Bool.false_eq_true, if_false]
  cases ui
  · simp only [Bool.false_eq_true, if_false]
    split_ifs <;> rfl
  · simp only [if_true]
    cases hu : UI.updateImageBadge
        { img with dataAiDetected := true, dataAiProbability := some (toFixed3 p) } p with
    | none => rfl
    | some img2 =>
      obtain ⟨_, _, hp2, _⟩ := updateImageBadge_some _ img2 p hu
      simp only
      split_ifs
      · exact hp2
      · exact hp2

/-- C12: a failing preprocessing or inference (`result = none`) makes
`detectAI`, in both scripts, return normally with `data-ai-error` set and
`data-ai-detected` not set; and in a cycle of `detect-simple.js` over any
batch, whatever images fail, `detectAI` is called on every image of the
batch in order, the failing ones end errored and not detected, the others
end detected, and the cycle then finishes. -/
theorem C12_failures_are_isolated (exp : α → α) (infer : Nat → Option (List α))
    (s : State) (b : List Nat)
    (hrun : s.running = [b]) (hnd : b.Nodup)
    (hfresh : ∀ i ∈ b, (s.imgs i).dataAiDetected = false) :
    (∀ (img : Img) (ui : Bool), img.dataAiDetected = false →
        DetectSimple.detectAI exp ui img none = { img with dataAiError := true }
        ∧ Detect.detectAI exp true ui img none = { img with dataAiError := true })
    ∧ (DetectSimple.runAlone exp infer b.length s).trace = s.trace ++ b.map Obs.detect
    ∧ (∀ i ∈ b, infer i = none →
        ((DetectSimple.runAlone exp infer b.length s).imgs i).dataAiError = true
        ∧ ((DetectSimple.runAlone exp infer b.length s).imgs i).dataAiDetected = false)
    ∧ (∀ i ∈ b, ∀ out p, infer i = some out → DetectSimple.aiProbability exp out = some p →
        ((DetectSimple.runAlone exp infer b.length s).imgs i).dataAiDetected = true
        ∧ ((DetectSimple.runAlone exp infer b.length s).imgs i).dataAiProbability
            = some (toFixed3 p))
    ∧ (DetectSimple.runAlone exp infer (b.length + 1) s).running = []
    ∧ (DetectSimple.runAlone exp infer (b.length + 1) s).isProcessing = false := by
  have hfold := DetectSimple.simple_items_fold exp infer b s 0 hrun
  have hfold1 := DetectSimple.simple_items_fold exp infer b s 1 hrun
  obtain ⟨e1, e2, e3, _⟩ := DetectSimple.simple_items_effect exp infer b s hrun hnd
  rw [Nat.add_zero] at hfold
  have h0 : ∀ t : State, DetectSimple.runAlone exp infer 0 t = t := fun _ => rfl
  rw [h0] at hfold
  rw [hfold, hfold1]
  refine ⟨fun img ui h => detectAI_failure exp ui img h, e2, ?_, ?_, ?_, ?_⟩
  · intro i hi hnone
    rw [e3 i hi, hnone, (detectAI_failure exp s.ui (s.imgs i) (hfresh i hi)).1]
    exact ⟨rfl, hfresh i hi⟩
  · intro i hi out p hout hp
    rw [e3 i hi, hout]
    exact detectAI_success exp s.ui (s.imgs i) out p (hfresh i hi) hp
  · have hn : DetectSimple.nextInternal infer
        (b.foldl (fun s i => DetectSimple.processNext exp s 0 (infer i)) s)
        = some (Event.processNext 0 none) := by
      simp [DetectSimple.nextInternal, e1]
    simp only [DetectSimple.runAlone, hn, DetectSimple.step]
    exact (DetectSimple.simple_processNext_finish exp _ none e1).2.2.1
  · have hn : DetectSimple.nextInternal infer
        (b.foldl (fun s i => DetectSimple.processNext exp s 0 (infer i)) s)
        = some (Event.processNext 0 none) := by
      simp [DetectSimple.nextInternal, e1]
    simp only [DetectSimple.runAlone, hn, DetectSimple.step]
    exact (DetectSimple.simple_processNext_finish exp _ none e1).2.2.2.1

theorem C12_failures_are_isolated_witness :
    (DetectSimple.runAlone (fun x : ℚ => x)
        (fun i => if i = 1 then none else some [9 / 10]) 3
        { imgs := fun _ => {}, running := [[0, 1, 2]] }).trace
      = [Obs.detect 0, Obs.detect 1, Obs.detect 2] :=
  (C12_failures_are_isolated (fun x : ℚ => x)
    (fun i => if i = 1 then none else some [9 / 10])
    { imgs := fun _ => {}, running := [[0, 1, 2]] } [0, 1, 2] rfl (by decide)
    (fun _ _ => rfl)).2.1

end FailureIsolationTheorems

section CacheTheorems

namespace Saliency

variable {β : Type}

theorem cacheHas_iff (cache : List (Int × β)) (key : Int) :
    cacheHas cache key = true ↔ key ∈ cache.map Prod.fst := by
  simp only [cacheHas, List.any_eq_true, List.mem_map, beq_iff_eq]

theorem cacheSet_length_le (cache : List (Int × β)) (key : Int) (v : β) :
    (cacheSet cache key v).length ≤ cache.length + 1 := by
  unfold cacheSet
  split_ifs <;> simp

theorem cacheSet_new (cache : List (Int × β)) (key : Int) (v : β)
    (h : cacheHas cache key = false) : cacheSet cache key v = cache ++ [(key, v)] := by
  simp [cacheSet, h]

theorem cacheDelete_first (e : Int × β) (rest : List (Int × β)) :
    cacheDelete (e :: rest) e.1 = rest := by
  simp [cacheDelete, List.eraseP_cons]

theorem cacheResult_length_le (cache : List (Int × β)) (key : Int) (v : β)
    (h : cache.length ≤ MAX_CACHE_SIZE) : (cacheResult cache key v).length ≤ MAX_CACHE_SIZE := by
  unfold cacheResult
  by_cases hfull : cache.length ≥ MAX_CACHE_SIZE
  · cases cache with
    | nil => simp [MAX_CACHE_SIZE] at hfull
    | cons e rest =>
      simp only [hfull, if_true, List.head?_cons, cacheDelete_first]
      have := cacheSet_length_le rest key v
      simp only [List.length_cons] at h
      omega
  · simp only [hfull, if_false]
    have := cacheSet_length_le cache key v
    omega

theorem cacheResult_not_full (cache : List (Int × β)) (key : Int) (v : β)
    (hlen : cache.length < MAX_CACHE_SIZE) (hnew : cacheHas cache key = false) :
    cacheResult cache key v = cache ++ [(key, v)] := by
  have : ¬ cache.length ≥ MAX_CACHE_SIZE := by omega
  simp only [cacheResult, this, if_false]
  exact cacheSet_new cache key v hnew

theorem cacheHas_tail (cache : List (Int × β)) (key : Int)
    (hnew : cacheHas cache key = false) : cacheHas cache.tail key = false := by
  cases cache with
  | nil => rfl
  | cons e rest =>
    simp only [cacheHas, List.any_cons, Bool.or_eq_false_iff] at hnew
    exact hnew.2

theorem cacheResult_full (cache : List (Int × β)) (key : Int) (v : β)
    (hlen : cache.length = MAX_CACHE_SIZE) (hnew : cacheHas cache key = false) :
    cacheResult cache key v = cache.tail ++ [(key, v)] := by
  have hge : cache.length ≥ MAX_CACHE_SIZE := by omega
  cases cache with
  | nil => simp [MAX_CACHE_SIZE] at hlen
  | cons e rest =>
    simp only [cacheResult, hge, if_true, List.head?_cons, cacheDelete_first, List.tail_cons]
    exact cacheSet_new rest key v (cacheHas_tail (e :: rest) key hnew)

theorem cacheGet_cacheResult (cache : List (Int × β)) (key : Int) (v : β) :
    cacheGet (cacheResult cache key v) key = some v := by
  have hset : ∀ c : List (Int × β), cacheGet (cacheSet c key v) key = some v := by
    intro c
    unfold cacheSet
    by_cases hh : cacheHas c key = true
    · rw [if_pos hh]
      induction c with
      | nil => simp [cacheHas] at hh
      | cons e rest ih =>
        by_cases he : e.1 = key
        · simp [cacheGet, he]
        · have hr : cacheHas rest key = true := by
            simp only [cacheHas, List.any_cons, Bool.or_eq_true, beq_iff_eq] at hh
            rcases hh with hh | hh
            · exact absurd hh he
            · exact hh
          have := ih hr
          simp only [cacheGet, List.map_cons, he, beq_iff_eq, if_false] at this ⊢
          rw [List.find?_cons_of_neg _ (by simpa using he)]
          exact this
    · rw [if_neg hh]
      have hnot : ∀ x ∈ c, ¬ (x.1 == key) = true := by
        intro x hx hxk
        apply hh
        simp only [cacheHas, List.any_eq_true]
        exact ⟨x, hx, hxk⟩
      simp only [cacheGet, List.find?_append]
      rw [List.find?_eq_none.mpr hnot]
      simp
  unfold cacheResult
  exact hset _

/-- Storing pairwise distinct keys into a cache that stays within its
capacity appends them in order; the store that finds the cache full drops
the oldest entry. -/
theorem cacheResult_fold (kvs : List (Int × β)) :
    ∀ cache : List (Int × β), ((cache ++ kvs).map Prod.fst).Nodup →
      cache.length ≤ MAX_CACHE_SIZE → (cache ++ kvs).length = MAX_CACHE_SIZE + 1 →
      kvs.foldl (fun c e => cacheResult c e.1 e.2) cache = (cache ++ kvs).tail := by
  induction kvs with
  | nil =>
    intro cache _ hle hlen
    simp only [List.append_nil] at hlen
    omega
  | cons e rest ih =>
    intro cache hnd hle hlen
    have hnew : cacheHas cache e.1 = false := by
      rw [Bool.eq_false_iff, Ne, cacheHas_iff]
      intro hmem
      rw [List.map_append, List.map_cons] at hnd
      have := List.disjoint_of_nodup_append hnd hmem
      exact this (List.mem_cons_self _ _)
    rw [List.foldl_cons]
    by_cases hfull : cache.length = MAX_CACHE_SIZE
    · have hrest : rest = [] := by
        simp only [List.length_append, List.length_cons] at hlen
        have : rest.length = 0 := by omega
        exact List.length_eq_zero.mp this
      subst hrest
      rw [cacheResult_full cache e.1 e.2 hfull hnew, List.foldl_nil]
      cases cache with
      | nil => simp [MAX_CACHE_SIZE] at hfull
      | cons c cs => rfl
    · have hlt : cache.length < MAX_CACHE_SIZE := by omega
      rw [cacheResult_not_full cache e.1 e.2 hlt hnew]
      have h1 : (cache ++ [(e.1, e.2)]) ++ rest = cache ++ e :: rest := by simp
      have := ih (cache ++ [(e.1, e.2)]) (by rw [h1]; exact hnd)
        (by simp only [List.length_append, List.length_singleton]; omega)
        (by rw [h1]; exact hlen)
      rw [this, h1]

end Saliency

end CacheTheorems
section WorkerTheorems

namespace Saliency

variable {α : Type} [LinearOrderedField α] [FloorRing α]

theorem workerOk_onGenerate (w : Worker α) (req : Request) (hs : w.stuck = none)
    (h : WorkerOk w) : WorkerOk (onGenerate w req) := by
  obtain ⟨h1, h2, h3, h4⟩ := h
  simp only [hs, Option.isSome_none, Bool.false_eq_true, if_false, add_zero] at h2
  unfold onGenerate
  by_cases hfull : w.activeJobs ≥ MAX_CONCURRENT_JOBS
  · rw [if_pos hfull]
    exact ⟨h1, by simp [hs, h2], h3, h4⟩
  · rw [if_neg hfull]
    simp only [MAX_CONCURRENT_JOBS] at hfull h4 ⊢
    cases generateGradCAMStart w.session w.saliencyCache req with
    | threw =>
      refine ⟨h1, ?_, ?_, ?_⟩ <;> simp [postError, hs, MAX_CONCURRENT_JOBS] <;> omega
    | stuck =>
      refine ⟨h1, ?_, ?_, ?_⟩ <;> simp [MAX_CONCURRENT_JOBS] <;> omega
    | hit heatmap =>
      refine ⟨h1, ?_, ?_, ?_⟩ <;> simp [postResult, hs, MAX_CONCURRENT_JOBS] <;> omega
    | inference cacheKey =>
      refine ⟨h1, ?_, ?_, ?_⟩ <;> simp [hs, MAX_CONCURRENT_JOBS] <;> omega

theorem workerOk_onSettle (sqrt : α → α) (w : Worker α) (k : Nat) (outcome : Option (Nat → α))
    (hs : w.stuck = none) (h : WorkerOk w) : WorkerOk (onSettle sqrt w k outcome) := by
  obtain ⟨h1, h2, h3, h4⟩ := h
  simp only [hs, Option.isSome_none, Bool.false_eq_true, if_false, add_zero] at h2
  unfold onSettle
  cases hk : w.awaiting[k]? with
  | none => exact ⟨h1, by simp [hs, h2], h3, h4⟩
  | some job =>
    obtain ⟨req, cacheKey⟩ := job
    have hlt : k < w.awaiting.length := by
      rcases List.getElem?_eq_some_iff.mp hk with ⟨hlt, _⟩
      exact hlt
    have hlen : (w.awaiting.eraseIdx k).length = w.awaiting.length - 1 :=
      List.length_eraseIdx_of_lt hlt
    simp only [MAX_CONCURRENT_JOBS] at h4 ⊢
    cases outcome with
    | none =>
      refine ⟨h1, ?_, ?_, ?_⟩ <;> simp [postError, hs, hlen, MAX_CONCURRENT_JOBS] <;> omega
    | some random =>
      refine ⟨?_, ?_, ?_, ?_⟩
      · exact cacheResult_length_le _ _ _ h1
      all_goals (simp [postResult, hs, hlen, MAX_CONCURRENT_JOBS]; omega)

theorem workerOk_step (sqrt : α → α) (w : Worker α) (e : WorkerEvent α) (h : WorkerOk w) :
    WorkerOk (workerStep sqrt w e) := by
  unfold workerStep
  by_cases hs : w.stuck.isSome = true
  · rw [if_pos hs]
    exact h
  · rw [if_neg hs]
    have hn : w.stuck = none := by
      cases hw : w.stuck with
      | none => rfl
      | some r => simp [hw] at hs
    cases e with
    | initialized ok =>
      obtain ⟨h1, h2, h3, h4⟩ := h
      cases ok
      · exact ⟨h1, h2, h3, h4⟩
      · exact ⟨h1, h2, h3, h4⟩
    | generate req => exact workerOk_onGenerate w req hn h
    | retry k =>
      dsimp only
      cases w.retries[k]? with
      | none => exact h
      | some req => exact workerOk_onGenerate _ req hn h
    | settle k outcome => exact workerOk_onSettle sqrt w k outcome hn h

theorem workerOk_run (sqrt : α → α) (events : List (WorkerEvent α)) :
    ∀ w : Worker α, WorkerOk w → WorkerOk (run (workerStep sqrt) w events) := by
  induction events with
  | nil => intro w h; exact h
  | cons e rest ih =>
    intro w h
    simp only [run, List.foldl_cons]
    exact ih _ (workerOk_step sqrt w e h)

theorem cacheHas_of_cacheGet {β : Type} (cache : List (Int × β)) (key : Int) (v : β)
    (h : cacheGet cache key = some v) : cacheHas cache key = true := by
  simp only [cacheGet, Option.map_eq_some'] at h
  obtain ⟨e, he, _⟩ := h
  simp only [cacheHas, List.any_eq_true]
  have hp : (e.1 == key) = true := by
    have := List.find?_some he
    simpa using this
  exact ⟨e, List.mem_of_find?_eq_some he, hp⟩

theorem generateGradCAMStart_hit {γ : Type} (cache : List (Int × List γ)) (req : Request)
    (key : Int) (heatmap : List γ) (hkey : generateCacheKey req.imageData = some key)
    (hget : cacheGet cache key = some heatmap) :
    generateGradCAMStart true cache req = Started.hit heatmap := by
  simp [generateGradCAMStart, hkey, cacheHas_of_cacheGet cache key heatmap hget, hget]

theorem onGenerate_hit (w : Worker α) (req : Request) (key : Int) (heatmap : List α)
    (hsess : w.session = true) (hjobs : w.activeJobs < MAX_CONCURRENT_JOBS)
    (hkey : generateCacheKey req.imageData = some key)
    (hget : cacheGet w.saliencyCache key = some heatmap) :
    onGenerate w req =
      { w with
        posted := w.posted ++
          [Message.SALIENCY_RESULT req.id (heatmapToRGBA heatmap req.width req.height)
            req.width req.height] } := by
  have hn : ¬ w.activeJobs ≥ MAX_CONCURRENT_JOBS := not_le.mpr hjobs
  simp only [onGenerate, hn, if_false, hsess, generateGradCAMStart_hit _ req key heatmap hkey hget,
    postResult, add_sub_cancel_right]

theorem onGenerate_full (w : Worker α) (req : Request)
    (hjobs : w.activeJobs ≥ MAX_CONCURRENT_JOBS) :
    onGenerate w req =
      { w with
        posted := w.posted ++ [Message.QUEUED req.id]
        retries := w.retries ++ [req] } := by
  simp only [onGenerate, hjobs, if_true]

theorem workerStep_generate (sqrt : α → α) (w : Worker α) (req : Request)
    (hs : w.stuck = none) : workerStep sqrt w (WorkerEvent.generate req) = onGenerate w req := by
  simp [workerStep, hs]

/-- C13: in every reachable state of the worker the cache holds at most 50
entries; storing a new key into a cache of 50 entries removes exactly the
oldest entry and keeps the other 49, in order, followed by the new one; after
51 pairwise distinct keys were stored into the empty cache only the first is
absent, and a request with that key is a cache miss: it goes on to `session.run`. -/
theorem C13_cache_eviction (sqrt : α → α) (events : List (WorkerEvent α)) :
    (run (workerStep sqrt) ({} : Worker α) events).saliencyCache.length ≤ 50
    ∧ (∀ (cache : List (Int × List α)) (key : Int) (v : List α),
        cache.length = 50 → cacheHas cache key = false →
        cacheResult cache key v = cache.tail ++ [(key, v)]
        ∧ (cacheResult cache key v).length = 50)
    ∧ (∀ (first : Int × List α) (rest : List (Int × List α)),
        rest.length = 50 → ((first :: rest).map Prod.fst).Nodup →
        (first :: rest).foldl (fun c e => cacheResult c e.1 e.2) [] = rest
        ∧ cacheHas rest first.1 = false
        ∧ ∀ req : Request, generateCacheKey req.imageData = some first.1 →
            imageDataOk req = true →
            generateGradCAMStart true
              ((first :: rest).foldl (fun c e => cacheResult c e.1 e.2) []) req
              = Started.inference first.1) := by
  refine ⟨?_, ?_, ?_⟩
  · have h0 : WorkerOk ({} : Worker α) := by
      refine ⟨?_, ?_, ?_, ?_⟩ <;> simp [MAX_CACHE_SIZE, MAX_CONCURRENT_JOBS]
    exact (workerOk_run sqrt events _ h0).1
  · intro cache key v hlen hnew
    have h := cacheResult_full cache key v hlen hnew
    refine ⟨h, ?_⟩
    rw [h]
    cases cache with
    | nil => simp at hlen
    | cons e rest =>
      simp only [List.length_cons] at hlen
      simp only [List.tail_cons, List.length_append, List.length_singleton]
      omega
  · intro first rest hlen hnd
    have hfold := cacheResult_fold (first :: rest) [] (by simpa using hnd)
      (by simp [MAX_CACHE_SIZE]) (by simp [MAX_CACHE_SIZE, hlen])
    have hfold' : (first :: rest).foldl (fun c e => cacheResult c e.1 e.2) [] = rest := by
      rw [hfold]; rfl
    have habs : cacheHas rest first.1 = false := by
      rw [Bool.eq_false_iff, Ne, cacheHas_iff]
      rw [List.map_cons, List.nodup_cons] at hnd
      exact hnd.1
    refine ⟨hfold', habs, ?_⟩
    intro req hkey hok
    rw [hfold']
    simp [generateGradCAMStart, hkey, habs, hok]

theorem C13_cache_eviction_witness :
    cacheResult ((List.range 50).map (fun i => (Int.ofNat i, ([] : List ℚ)))) 50 [1]
      = ((List.range 50).map (fun i => (Int.ofNat i, ([] : List ℚ)))).tail ++ [(50, [1])] :=
  ((C13_cache_eviction (fun x : ℚ => x) []).2.1
    ((List.range 50).map (fun i => (Int.ofNat i, ([] : List ℚ)))) 50 [1]
    (by rw [List.length_map, List.length_range]) (by decide)).1

/-- C14: in every reachable state of the worker `activeJobs` is the number of
jobs that have started and not finished (those awaiting `session.run`, plus
the one the thread is stuck in, if any); it lies between `0` and
`MAX_CONCURRENT_JOBS = 2`; and it is `0` when no job is unfinished. -/
theorem C14_activeJobs_counts_running_jobs (sqrt : α → α) (events : List (WorkerEvent α)) :
    (run (workerStep sqrt) ({} : Worker α) events).activeJobs
      = ((run (workerStep sqrt) ({} : Worker α) events).awaiting.length : Int)
        + (if (run (workerStep sqrt) ({} : Worker α) events).stuck.isSome then 1 else 0)
    ∧ 0 ≤ (run (workerStep sqrt) ({} : Worker α) events).activeJobs
    ∧ (run (workerStep sqrt) ({} : Worker α) events).activeJobs ≤ MAX_CONCURRENT_JOBS
    ∧ MAX_CONCURRENT_JOBS = 2
    ∧ ((run (workerStep sqrt) ({} : Worker α) events).awaiting = []
        ∧ (run (workerStep sqrt) ({} : Worker α) events).stuck = none →
        (run (workerStep sqrt) ({} : Worker α) events).activeJobs = 0) := by
  have h0 : WorkerOk ({} : Worker α) := by
    refine ⟨?_, ?_, ?_, ?_⟩ <;> simp [MAX_CACHE_SIZE, MAX_CONCURRENT_JOBS]
  obtain ⟨_, h2, h3, h4⟩ := workerOk_run sqrt events _ h0
  refine ⟨h2, h3, h4, rfl, ?_⟩
  rintro ⟨ha, hs⟩
  rw [h2, ha, hs]
  simp

theorem C14_activeJobs_counts_running_jobs_witness :
    (run (workerStep (fun x : ℚ => x)) ({} : Worker ℚ)
      [WorkerEvent.initialized true,
        WorkerEvent.generate { id := 1, imageData := [], width := 0, height := 0 }]).activeJobs
      = 0 :=
  (C14_activeJobs_counts_running_jobs (fun x : ℚ => x)
    [WorkerEvent.initialized true,
      WorkerEvent.generate { id := 1, imageData := [], width := 0, height := 0 }]).2.2.2.2
    ⟨rfl, rfl⟩

/-- C15: a `GENERATE_SALIENCY` request that arrives while
`activeJobs ≥ MAX_CONCURRENT_JOBS` only posts `QUEUED` and schedules the same
request for re-delivery: no `SALIENCY_ERROR` is posted, and `activeJobs`, the
cache and the suspended jobs are unchanged; when its timer fires the request
is handled like a request that arrives then. -/
theorem C15_full_worker_requeues (sqrt : α → α) (w : Worker α) (req : Request)
    (hs : w.stuck = none) (hjobs : w.activeJobs ≥ MAX_CONCURRENT_JOBS) :
    workerStep sqrt w (WorkerEvent.generate req)
      = { w with
          posted := w.posted ++ [Message.QUEUED req.id]
          retries := w.retries ++ [req] }
    ∧ workerStep sqrt (workerStep sqrt w (WorkerEvent.generate req))
        (WorkerEvent.retry w.retries.length)
      = workerStep sqrt { w with posted := w.posted ++ [Message.QUEUED req.id] }
        (WorkerEvent.generate req) := by
  have h1 : workerStep sqrt w (WorkerEvent.generate req)
      = { w with
          posted := w.posted ++ [Message.QUEUED req.id]
          retries := w.retries ++ [req] } := by
    rw [workerStep_generate sqrt w req hs, onGenerate_full w req hjobs]
  refine ⟨h1, ?_⟩
  rw [h1]
  simp [workerStep, hs, List.eraseIdx_append_of_length_le]

theorem C15_full_worker_requeues_witness :
    (workerStep (fun x : ℚ => x) ({ activeJobs := 2 } : Worker ℚ)
      (WorkerEvent.generate { id := 5, imageData := [], width := 0, height := 0 })).posted
      = [Message.QUEUED 5] := by
  rw [(C15_full_worker_requeues (fun x : ℚ => x) ({ activeJobs := 2 } : Worker ℚ)
    { id := 5, imageData := [], width := 0, height := 0 } rfl (by decide)).1]
  rfl

end Saliency

end WorkerTheorems
section CacheHitTheorems

namespace Saliency

theorem cacheKeyLoop_zeros (n step : Nat) (hstep : 0 < step) :
    ∀ fuel i : Nat, n ≤ i + fuel →
      cacheKeyLoop (List.replicate n 0) step (fuel + 1) i 0 = some 0 := by
  intro fuel
  induction fuel with
  | zero =>
    intro i h
    have : ¬ i < n := by omega
    simp [cacheKeyLoop, this]
  | succ fuel ih =>
    intro i h
    rw [cacheKeyLoop]
    by_cases hi : i < n
    · have hz : toInt32 (toInt32 (0 * 32) - 0
          + ((((List.replicate n (0 : Fin 256)).getD i 0 : Fin 256) : Nat) : Int)) = 0 := by
        have hg : (List.replicate n (0 : Fin 256)).getD i 0 = 0 := by
          simp [List.getD_eq_getElem?_getD, List.getElem?_replicate, hi]
        rw [hg]
        decide
      simp only [List.length_replicate, hi, if_true, hz]
      exact ih (i + step) (by omega)
    · simp [hi]

/-- The key of an all-zero buffer of at least 100 bytes is the hash `0`. -/
theorem generateCacheKey_zeros (n : Nat) (hn : 100 ≤ n) :
    generateCacheKey (List.replicate n 0) = some 0 := by
  unfold generateCacheKey
  rw [List.length_replicate]
  exact cacheKeyLoop_zeros n (n / 100) (Nat.div_pos hn (by decide)) n 0 (by omega)


variable {α : Type} [LinearOrderedField α] [FloorRing α]

/-- C16 (as amended): with the model initialized, a request whose fingerprint
is in the cache makes `generateGradCAM` return the stored heatmap before any
inference; the worker answers it with the overlay of that heatmap and leaves
the cache and the suspended jobs as they were. Hence a request for the same
image data and size that arrives once a job has stored its heatmap gets the
same overlay as that job, whatever random samples the job drew. -/
theorem C16_cached_request_is_idempotent (sqrt : α → α) (w : Worker α) (req : Request)
    (key : Int) (hs : w.stuck = none) (hsess : w.session = true)
    (hkey : generateCacheKey req.imageData = some key) :
    (∀ heatmap : List α, cacheGet w.saliencyCache key = some heatmap →
        generateGradCAMStart true w.saliencyCache req = Started.hit heatmap
        ∧ (w.activeJobs < MAX_CONCURRENT_JOBS →
            workerStep sqrt w (WorkerEvent.generate req)
              = { w with
                  posted := w.posted ++
                    [Message.SALIENCY_RESULT req.id
                      (heatmapToRGBA heatmap req.width req.height) req.width req.height] }))
    ∧ (∀ (k : Nat) (random : Nat → α) (req2 : Request),
        w.awaiting[k]? = some (req, key) → w.activeJobs ≤ MAX_CONCURRENT_JOBS →
        req2.imageData = req.imageData → req2.width = req.width → req2.height = req.height →
        ∃ overlay : List Nat,
          (workerStep sqrt w (WorkerEvent.settle k (some random))).posted
            = w.posted ++ [Message.SALIENCY_RESULT req.id overlay req.width req.height]
          ∧ workerStep sqrt (workerStep sqrt w (WorkerEvent.settle k (some random)))
              (WorkerEvent.generate req2)
            = { workerStep sqrt w (WorkerEvent.settle k (some random)) with
                posted := w.posted
                  ++ [Message.SALIENCY_RESULT req.id overlay req.width req.height]
                  ++ [Message.SALIENCY_RESULT req2.id overlay req.width req.height] }) := by
  refine ⟨?_, ?_⟩
  · intro heatmap hget
    refine ⟨generateGradCAMStart_hit _ req key heatmap hkey hget, fun hjobs => ?_⟩
    rw [workerStep_generate sqrt w req hs, onGenerate_hit w req key heatmap hsess hjobs hkey hget]
  · intro k random req2 hk hjobs hd hw hh
    have hstep : workerStep sqrt w (WorkerEvent.settle k (some random))
        = postResult { w with
            awaiting := w.awaiting.eraseIdx k
            saliencyCache := cacheResult w.saliencyCache key
              (computeHeatmap sqrt random req.width req.height) }
          req (computeHeatmap sqrt random req.width req.height) := by
      simp [workerStep, hs, onSettle, hk]
    refine ⟨heatmapToRGBA (computeHeatmap sqrt random req.width req.height) req.width req.height,
      ?_, ?_⟩
    · rw [hstep]
      rfl
    · have hs1 : (workerStep sqrt w (WorkerEvent.settle k (some random))).stuck = none := by
        rw [hstep]; exact hs
      have hsess1 : (workerStep sqrt w (WorkerEvent.settle k (some random))).session = true := by
        rw [hstep]; exact hsess
      have hjobs1 : (workerStep sqrt w (WorkerEvent.settle k (some random))).activeJobs
          < MAX_CONCURRENT_JOBS := by
        rw [hstep]
        simp only [postResult]
        omega
      have hget1 : cacheGet (workerStep sqrt w (WorkerEvent.settle k (some random))).saliencyCache
          key = some (computeHeatmap sqrt random req.width req.height) := by
        rw [hstep]
        exact cacheGet_cacheResult _ _ _
      have hkey2 : generateCacheKey req2.imageData = some key := by rw [hd]; exact hkey
      rw [workerStep_generate sqrt _ req2 hs1,
        onGenerate_hit _ req2 key _ hsess1 hjobs1 hkey2 hget1, hw, hh]
      rw [hstep]
      rfl

theorem C16_cached_request_is_idempotent_witness :
    generateGradCAMStart true [((0 : Int), [(1 / 2 : ℚ)])]
        { id := 3, imageData := List.replicate 400 0, width := 10, height := 10 }
      = Started.hit [1 / 2] :=
  ((C16_cached_request_is_idempotent (fun x : ℚ => x)
    { session := true, saliencyCache := [((0 : Int), [(1 / 2 : ℚ)])] }
    { id := 3, imageData := List.replicate 400 0, width := 10, height := 10 } 0
    rfl rfl (generateCacheKey_zeros 400 (by decide))).1 [1 / 2] rfl).1

/-- C17 (as amended): a request whose fingerprint is cached is answered from
the cache without inference only if it passes the job-slot admission first:
below `MAX_CONCURRENT_JOBS` it takes a slot, posts `SALIENCY_RESULT` with the
overlay of the stored heatmap and gives the slot back; at
`MAX_CONCURRENT_JOBS` it is re-queued like every other request. -/
theorem C17_cache_hit_after_admission (sqrt : α → α) (w : Worker α) (req : Request)
    (key : Int) (heatmap : List α) (hs : w.stuck = none) (hsess : w.session = true)
    (hkey : generateCacheKey req.imageData = some key)
    (hget : cacheGet w.saliencyCache key = some heatmap) :
    (w.activeJobs < MAX_CONCURRENT_JOBS →
      workerStep sqrt w (WorkerEvent.generate req)
        = { w with
            posted := w.posted ++
              [Message.SALIENCY_RESULT req.id
                (heatmapToRGBA heatmap req.width req.height) req.width req.height] })
    ∧ (w.activeJobs ≥ MAX_CONCURRENT_JOBS →
      workerStep sqrt w (WorkerEvent.generate req)
        = { w with
            posted := w.posted ++ [Message.QUEUED req.id]
            retries := w.retries ++ [req] }) := by
  refine ⟨fun hjobs => ?_, fun hjobs => ?_⟩
  · rw [workerStep_generate sqrt w req hs, onGenerate_hit w req key heatmap hsess hjobs hkey hget]
  · rw [workerStep_generate sqrt w req hs, onGenerate_full w req hjobs]

theorem C17_cache_hit_after_admission_witness :
    workerStep (fun x : ℚ => x)
        { session := true, saliencyCache := [((0 : Int), [(1 / 2 : ℚ)])], activeJobs := 1 }
        (WorkerEvent.generate
          { id := 3, imageData := List.replicate 400 0, width := 10, height := 10 })
      = { session := true, saliencyCache := [((0 : Int), [(1 / 2 : ℚ)])], activeJobs := 1,
          posted := [Message.SALIENCY_RESULT 3 (heatmapToRGBA [(1 / 2 : ℚ)] 10 10) 10 10] } :=
  (C17_cache_hit_after_admission (fun x : ℚ => x)
    { session := true, saliencyCache := [((0 : Int), [(1 / 2 : ℚ)])], activeJobs := 1 }
    { id := 3, imageData := List.replicate 400 0, width := 10, height := 10 } 0 [1 / 2]
    rfl rfl (generateCacheKey_zeros 400 (by decide)) rfl).1 (by decide)

/-- C17, the claim as stated fails: with two jobs running
(`activeJobs = MAX_CONCURRENT_JOBS`) a request whose fingerprint `0` is in
the cache is not answered from the cache; the worker posts `QUEUED` and
schedules a re-delivery. -/
theorem C17_cache_hit_is_requeued_counterexample :
    generateCacheKey (List.replicate 400 0) = some 0
    ∧ cacheGet [((0 : Int), [(1 / 2 : ℚ)])] 0 = some [1 / 2]
    ∧ (workerStep (fun x : ℚ => x)
        { session := true, saliencyCache := [((0 : Int), [(1 / 2 : ℚ)])], activeJobs := 2,
          awaiting := [({ id := 1, imageData := [], width := 0, height := 0 }, 7),
            ({ id := 2, imageData := [], width := 0, height := 0 }, 8)] }
        (WorkerEvent.generate
          { id := 3, imageData := List.replicate 400 0, width := 10, height := 10 })).posted
      = [Message.QUEUED 3]
    ∧ (workerStep (fun x : ℚ => x)
        { session := true, saliencyCache := [((0 : Int), [(1 / 2 : ℚ)])], activeJobs := 2,
          awaiting := [({ id := 1, imageData := [], width := 0, height := 0 }, 7),
            ({ id := 2, imageData := [], width := 0, height := 0 }, 8)] }
        (WorkerEvent.generate
          { id := 3, imageData := List.replicate 400 0, width := 10, height := 10 })).retries
      = [{ id := 3, imageData := List.replicate 400 0, width := 10, height := 10 }] := by
  refine ⟨generateCacheKey_zeros 400 (by decide), rfl, rfl, rfl⟩

end Saliency

end CacheHitTheorems

section UpscaleTheorems

/-- A loop that stores `f k` at `base + k` for `k < n`. -/
theorem fold_set_range {β : Type} (f : Nat → β) (base : Nat) (data : List β) (n : Nat) :
    ((List.range n).foldl (fun d k => d.set (base + k) (f k)) data).length = data.length
    ∧ ∀ j, ((List.range n).foldl (fun d k => d.set (base + k) (f k)) data)[j]?
      = if base ≤ j ∧ j < base + n then
          (if j < data.length then some (f (j - base)) else none)
        else data[j]? := by
  induction n with
  | zero =>
    refine ⟨by simp, fun j => ?_⟩
    have : ¬ (base ≤ j ∧ j < base + 0) := by omega
    rw [if_neg this]
    rfl
  | succ n ih =>
    obtain ⟨ihl, ihg⟩ := ih
    simp only [List.range_succ, List.foldl_append, List.foldl_cons, List.foldl_nil]
    refine ⟨by rw [List.length_set, ihl], fun j => ?_⟩
    rw [List.getElem?_set, ihl, ihg]
    by_cases h1 : base + n = j
    · subst h1
      have h2 : base ≤ base + n ∧ base + n < base + (n + 1) := by omega
      have h3 : base + n - base = n := by omega
      rw [if_pos rfl, if_pos h2, h3]
    · rw [if_neg h1]
      by_cases h3 : base ≤ j ∧ j < base + n
      · have h2 : base ≤ j ∧ j < base + (n + 1) := by omega
        rw [if_pos h3, if_pos h2]
      · have h2 : ¬ (base ≤ j ∧ j < base + (n + 1)) := by omega
        rw [if_neg h3, if_neg h2]

/-- Rows `0 .. n - 1` of a loop nest that stores `cell x y` at `y * width + x`. -/
theorem fold_set_rows {β : Type} (cell : Nat → Nat → β) (width : Nat) (data : List β) (n : Nat) :
    ((List.range n).foldl
        (fun d y => (List.range width).foldl (fun d x => d.set (y * width + x) (cell x y)) d)
        data).length = data.length
    ∧ ∀ j, ((List.range n).foldl
        (fun d y => (List.range width).foldl (fun d x => d.set (y * width + x) (cell x y)) d)
        data)[j]?
      = if j < n * width then
          (if j < data.length then some (cell (j % width) (j / width)) else none)
        else data[j]? := by
  induction n with
  | zero =>
    refine ⟨by simp, fun j => ?_⟩
    simp
  | succ n ih =>
    obtain ⟨ihl, ihg⟩ := ih
    simp only [List.range_succ, List.foldl_append, List.foldl_cons, List.foldl_nil]
    have hrow := fold_set_range (fun x => cell x n) (n * width)
      ((List.range n).foldl
        (fun d y => (List.range width).foldl (fun d x => d.set (y * width + x) (cell x y)) d)
        data) width
    refine ⟨by rw [hrow.1, ihl], fun j => ?_⟩
    rw [hrow.2, ihl, ihg]
    have e : (n + 1) * width = n * width + width := by ring
    rw [e]
    by_cases h1 : n * width ≤ j ∧ j < n * width + width
    · have h2 : j < n * width + width := h1.2
      have hw : 0 < width := by
        rcases Nat.eq_zero_or_pos width with h0 | h0
        · rw [h0] at h1; omega
        · exact h0
      have hd : j / width = n := by
        apply Nat.div_eq_of_lt_le
        · exact h1.1
        · rw [Nat.succ_mul]; exact h1.2
      have hm : j % width = j - n * width := by
        have := Nat.div_add_mod j width
        rw [hd, Nat.mul_comm] at this
        omega
      rw [if_pos h1, if_pos h2, hd, hm]
    · rw [if_neg h1]
      by_cases h3 : j < n * width
      · have h2 : j < n * width + width := by omega
        rw [if_pos h3, if_pos h2]
      · have h2 : ¬ j < n * width + width := by omega
        rw [if_neg h3, if_neg h2]

namespace Saliency

variable {α : Type} [LinearOrderedField α] [FloorRing α]

/-- Every cell of the result of `upscaleHeatmap` is the value of the loop body
at its pixel. -/
theorem upscaleHeatmap_get (heatmap : List α) (srcWidth srcHeight dstWidth dstHeight : Nat) :
    (upscaleHeatmap heatmap srcWidth srcHeight dstWidth dstHeight).length
      = dstWidth * dstHeight
    ∧ ∀ j, (upscaleHeatmap heatmap srcWidth srcHeight dstWidth dstHeight)[j]?
      = if j < dstWidth * dstHeight then
          some (upscaleCell heatmap srcWidth srcHeight dstWidth dstHeight
            (j % dstWidth) (j / dstWidth))
        else none := by
  have h := fold_set_rows
    (fun x y => upscaleCell heatmap srcWidth srcHeight dstWidth dstHeight x y) dstWidth
    (List.replicate (dstWidth * dstHeight) (0 : α)) dstHeight
  unfold upscaleHeatmap
  refine ⟨by rw [h.1, List.length_replicate], fun j => ?_⟩
  rw [h.2, List.length_replicate, Nat.mul_comm dstHeight dstWidth]
  by_cases hj : j < dstWidth * dstHeight
  · rw [if_pos hj, if_pos hj]
  · rw [if_neg hj, if_neg hj]
    simp only [List.getElem?_replicate, if_neg hj]

/-- `Math.floor(x * (src / dst))` is below `src` for `x < dst`. -/
theorem srcIndex0_lt (src dst x : Nat) (hsrc : 1 ≤ src) (hx : x < dst) :
    srcIndex0 α src dst x < src := by
  unfold srcIndex0
  have hdst : (0 : α) < (dst : α) := by
    have : 0 < dst := by omega
    exact_mod_cast this
  have hsrc' : (0 : α) < (src : α) := by
    have : 0 < src := by omega
    exact_mod_cast this
  have hxd : (x : α) < (dst : α) := by exact_mod_cast hx
  have hnn : (0 : α) ≤ (x : α) * ((src : α) / (dst : α)) := by positivity
  rw [Nat.floor_lt hnn]
  calc (x : α) * ((src : α) / (dst : α)) = (x : α) / (dst : α) * (src : α) := by ring
    _ < 1 * (src : α) := by
        apply mul_lt_mul_of_pos_right _ hsrc'
        rw [div_lt_one hdst]
        exact hxd
    _ = (src : α) := one_mul _

theorem srcIndex1_lt (src dst x : Nat) (hsrc : 1 ≤ src) :
    srcIndex1 α src dst x < src := by
  unfold srcIndex1
  have : min (srcIndex0 α src dst x + 1) (src - 1) ≤ src - 1 := Nat.min_le_right _ _
  omega

theorem grid_index_lt (srcWidth srcHeight a b : Nat) (ha : a < srcHeight) (hb : b < srcWidth) :
    a * srcWidth + b < srcWidth * srcHeight := by
  calc a * srcWidth + b < a * srcWidth + srcWidth := by omega
    _ = (a + 1) * srcWidth := by ring
    _ ≤ srcHeight * srcWidth := Nat.mul_le_mul_right srcWidth (by omega)
    _ = srcWidth * srcHeight := Nat.mul_comm _ _

/-- C19: for source and target sizes of at least `1 x 1` and every
destination pixel `(x, y)`, the four source indices that `upscaleHeatmap`
reads lie inside `[0, srcWidth * srcHeight)`, and the neighbour indices `x1`,
`y1` are at most `srcWidth - 1`, `srcHeight - 1`; no relation between the
source and the target size is assumed. -/
theorem C19_upscale_reads_in_bounds (srcWidth srcHeight dstWidth dstHeight x y : Nat)
    (hsw : 1 ≤ srcWidth) (hsh : 1 ≤ srcHeight) (hx : x < dstWidth) (hy : y < dstHeight) :
    srcIndex0 α srcHeight dstHeight y * srcWidth + srcIndex0 α srcWidth dstWidth x
      < srcWidth * srcHeight
    ∧ srcIndex0 α srcHeight dstHeight y * srcWidth + srcIndex1 α srcWidth dstWidth x
      < srcWidth * srcHeight
    ∧ srcIndex1 α srcHeight dstHeight y * srcWidth + srcIndex0 α srcWidth dstWidth x
      < srcWidth * srcHeight
    ∧ srcIndex1 α srcHeight dstHeight y * srcWidth + srcIndex1 α srcWidth dstWidth x
      < srcWidth * srcHeight
    ∧ srcIndex1 α srcWidth dstWidth x ≤ srcWidth - 1
    ∧ srcIndex1 α srcHeight dstHeight y ≤ srcHeight - 1 := by
  have hx0 := srcIndex0_lt (α := α) srcWidth dstWidth x hsw hx
  have hy0 := srcIndex0_lt (α := α) srcHeight dstHeight y hsh hy
  have hx1 := srcIndex1_lt (α := α) srcWidth dstWidth x hsw
  have hy1 := srcIndex1_lt (α := α) srcHeight dstHeight y hsh
  refine ⟨grid_index_lt _ _ _ _ hy0 hx0, grid_index_lt _ _ _ _ hy0 hx1,
    grid_index_lt _ _ _ _ hy1 hx0, grid_index_lt _ _ _ _ hy1 hx1, ?_, ?_⟩
  · omega
  · omega

theorem C19_upscale_reads_in_bounds_witness :
    srcIndex1 ℚ 14 3 2 * 14 + srcIndex1 ℚ 14 300 299 < 14 * 14 :=
  (C19_upscale_reads_in_bounds (α := ℚ) 14 14 300 3 299 2
    (by decide) (by decide) (by decide) (by decide)).2.2.2.1

/-- The loop body of `upscaleHeatmap` on a grid of equal cells. -/
theorem upscaleCell_const (c : α) (srcWidth srcHeight dstWidth dstHeight x y : Nat)
    (hsw : 1 ≤ srcWidth) (hsh : 1 ≤ srcHeight) (hx : x < dstWidth) (hy : y < dstHeight) :
    upscaleCell (List.replicate (srcWidth * srcHeight) c) srcWidth srcHeight dstWidth dstHeight
      x y = c := by
  have hx0 := srcIndex0_lt (α := α) srcWidth dstWidth x hsw hx
  have hy0 := srcIndex0_lt (α := α) srcHeight dstHeight y hsh hy
  have hx1 := srcIndex1_lt (α := α) srcWidth dstWidth x hsw
  have hy1 := srcIndex1_lt (α := α) srcHeight dstHeight y hsh
  have h1 := grid_index_lt _ _ _ _ hy0 hx0
  have h2 := grid_index_lt _ _ _ _ hy0 hx1
  have h3 := grid_index_lt _ _ _ _ hy1 hx0
  have h4 := grid_index_lt _ _ _ _ hy1 hx1
  have hget : ∀ i, i < srcWidth * srcHeight →
      (List.replicate (srcWidth * srcHeight) c).getD i 0 = c := by
    intro i hi
    simp [List.getD_eq_getElem?_getD, List.getElem?_replicate, hi]
  simp only [upscaleCell, hget _ h1, hget _ h2, hget _ h3, hget _ h4]
  ring

/-- C18: a source grid of `srcWidth * srcHeight` equal cells `c`, with source
and target sizes of at least `1 x 1`, is upscaled to a grid of exactly
`dstWidth * dstHeight` cells, each equal to `c`, for every target size. -/
theorem C18_upscale_constant_grid (c : α) (srcWidth srcHeight dstWidth dstHeight : Nat)
    (hsw : 1 ≤ srcWidth) (hsh : 1 ≤ srcHeight) :
    upscaleHeatmap (List.replicate (srcWidth * srcHeight) c) srcWidth srcHeight dstWidth dstHeight
      = List.replicate (dstWidth * dstHeight) c := by
  obtain ⟨hlen, hget⟩ := upscaleHeatmap_get (List.replicate (srcWidth * srcHeight) c)
    srcWidth srcHeight dstWidth dstHeight
  apply List.ext_getElem?
  intro j
  rw [hget, List.getElem?_replicate]
  by_cases hj : j < dstWidth * dstHeight
  · rw [if_pos hj, if_pos hj]
    have hdw : 0 < dstWidth := by
      rcases Nat.eq_zero_or_pos dstWidth with h0 | h0
      · rw [h0, Nat.zero_mul] at hj; omega
      · exact h0
    have hx : j % dstWidth < dstWidth := Nat.mod_lt _ hdw
    have hy : j / dstWidth < dstHeight := Nat.div_lt_of_lt_mul hj
    rw [upscaleCell_const c srcWidth srcHeight dstWidth dstHeight _ _ hsw hsh hx hy]
  · rw [if_neg hj, if_neg hj]

theorem C18_upscale_constant_grid_witness :
    upscaleHeatmap (List.replicate (14 * 14) (1 / 3 : ℚ)) 14 14 300 200
      = List.replicate (300 * 200) (1 / 3) :=
  C18_upscale_constant_grid (1 / 3 : ℚ) 14 14 300 200 (by decide) (by decide)

end Saliency

end UpscaleTheorems
section ColormapTheorems

theorem set_four_get {β : Type} (data : List β) (m : Nat) (v0 v1 v2 v3 : β) (j : Nat) :
    ((((data.set (m * 4) v0).set (m * 4 + 1) v1).set (m * 4 + 2) v2).set (m * 4 + 3) v3)[j]?
      = if j / 4 = m then
          (if j < data.length then
            some (if j % 4 = 0 then v0 else if j % 4 = 1 then v1
              else if j % 4 = 2 then v2 else v3) else none)
        else data[j]? := by
  simp only [List.getElem?_set, List.length_set]
  by_cases h3 : m * 4 + 3 = j
  · have : j / 4 = m := by omega
    have hm : j % 4 = 3 := by omega
    simp [h3, this, hm]
  · by_cases h2 : m * 4 + 2 = j
    · have : j / 4 = m := by omega
      have hm : j % 4 = 2 := by omega
      simp [h3, h2, this, hm]
    · by_cases h1 : m * 4 + 1 = j
      · have : j / 4 = m := by omega
        have hm : j % 4 = 1 := by omega
        simp [h3, h2, h1, this, hm]
      · by_cases h0 : m * 4 = j
        · have : j / 4 = m := by omega
          have hm : j % 4 = 0 := by omega
          simp [h3, h2, h1, h0, this, hm]
        · have : ¬ j / 4 = m := by omega
          simp [h3, h2, h1, h0, this]

namespace Saliency

variable {α : Type} [LinearOrderedField α] [FloorRing α]

/-- The bytes of `rgba` after the first `n` cells of the heatmap were handled. -/
theorem rgba_invariant (heatmap : List α) (data : List Nat) (n : Nat) :
    ((List.range n).foldl
        (fun rgba i =>
          (((rgba.set (i * 4) (colormap (heatmap.getD i 0)).1).set (i * 4 + 1)
            (colormap (heatmap.getD i 0)).2.1).set (i * 4 + 2)
            (colormap (heatmap.getD i 0)).2.2).set (i * 4 + 3) (alphaOf (heatmap.getD i 0)))
        data).length = data.length
    ∧ ∀ j, ((List.range n).foldl
        (fun rgba i =>
          (((rgba.set (i * 4) (colormap (heatmap.getD i 0)).1).set (i * 4 + 1)
            (colormap (heatmap.getD i 0)).2.1).set (i * 4 + 2)
            (colormap (heatmap.getD i 0)).2.2).set (i * 4 + 3) (alphaOf (heatmap.getD i 0)))
        data)[j]?
      = if j / 4 < n then
          (if j < data.length then
            some (if j % 4 = 0 then (colormap (heatmap.getD (j / 4) 0)).1
              else if j % 4 = 1 then (colormap (heatmap.getD (j / 4) 0)).2.1
              else if j % 4 = 2 then (colormap (heatmap.getD (j / 4) 0)).2.2
              else alphaOf (heatmap.getD (j / 4) 0)) else none)
        else data[j]? := by
  induction n with
  | zero => simp
  | succ n ih =>
    obtain ⟨ihl, ihg⟩ := ih
    simp only [List.range_succ, List.foldl_append, List.foldl_cons, List.foldl_nil]
    refine ⟨by simp only [List.length_set, ihl], fun j => ?_⟩
    rw [set_four_get, ihl, ihg]
    by_cases h1 : j / 4 = n
    · have h2 : j / 4 < n + 1 := by omega
      rw [if_pos h1, if_pos h2, h1]
    · rw [if_neg h1]
      by_cases h3 : j / 4 < n
      · have h2 : j / 4 < n + 1 := by omega
        rw [if_pos h3, if_pos h2]
      · have h2 : ¬ j / 4 < n + 1 := by omega
        rw [if_neg h3, if_neg h2]

/-- Every byte of the result of `heatmapToRGBA`. -/
theorem heatmapToRGBA_get (heatmap : List α) (width height : Nat) :
    (heatmapToRGBA heatmap width height).length = width * height * 4
    ∧ ∀ j, (heatmapToRGBA heatmap width height)[j]?
      = if j < width * height * 4 then
          (if j / 4 < heatmap.length then
            some (if j % 4 = 0 then (colormap (heatmap.getD (j / 4) 0)).1
              else if j % 4 = 1 then (colormap (heatmap.getD (j / 4) 0)).2.1
              else if j % 4 = 2 then (colormap (heatmap.getD (j / 4) 0)).2.2
              else alphaOf (heatmap.getD (j / 4) 0))
          else some 0)
        else none := by
  have h := rgba_invariant heatmap (List.replicate (width * height * 4) 0) heatmap.length
  have hdef : heatmapToRGBA heatmap width height
      = (List.range heatmap.length).foldl
        (fun rgba i =>
          (((rgba.set (i * 4) (colormap (heatmap.getD i 0)).1).set (i * 4 + 1)
            (colormap (heatmap.getD i 0)).2.1).set (i * 4 + 2)
            (colormap (heatmap.getD i 0)).2.2).set (i * 4 + 3) (alphaOf (heatmap.getD i 0)))
        (List.replicate (width * height * 4) 0) := rfl
  rw [hdef]
  refine ⟨by rw [h.1, List.length_replicate], fun j => ?_⟩
  rw [h.2, List.length_replicate, List.getElem?_replicate]
  by_cases hj : j < width * height * 4 <;> by_cases hc : j / 4 < heatmap.length <;>
    simp [hj, hc]

theorem clampByte_of_mem (n : Int) (h0 : 0 ≤ n) (h1 : n ≤ 255) : clampByte n = n.toNat := by
  unfold clampByte
  have a : ¬ n < 0 := by omega
  have b : ¬ n > 255 := by omega
  rw [if_neg a, if_neg b]

/-- The floor of a number in `[0, 255]` is a byte. -/
theorem floor_byte (x : α) (h0 : 0 ≤ x) (h1 : x ≤ 255) :
    0 ≤ ⌊x⌋ ∧ ⌊x⌋ ≤ 255 ∧ clampByte ⌊x⌋ = ⌊x⌋.toNat := by
  have a : 0 ≤ ⌊x⌋ := Int.floor_nonneg.mpr h0
  have b : ⌊x⌋ ≤ 255 := by
    have : ⌊x⌋ < 256 := by
      rw [Int.floor_lt]
      have : x < 256 := by linarith
      exact_mod_cast this
    omega
  exact ⟨a, b, clampByte_of_mem _ a b⟩

/-- C20: `heatmapToRGBA` stores, for every cell, the colour of the four-band
colormap. `0` maps to blue, `0.25` to cyan, `0.5` to green, `0.75` to yellow
and `1` to red; for a value in `[0, 1]` two channels are constant inside its
band and the third is the floor of a linear ramp between `0` and `255`,
which is an integer in `0..255` (no clamping takes place). -/
theorem C20_four_band_colormap (value : α) (h0 : 0 ≤ value) (h1 : value ≤ 1) :
    (colormap (0 : α) = (0, 0, 255) ∧ colormap (1 / 4 : α) = (0, 255, 255)
      ∧ colormap (1 / 2 : α) = (0, 255, 0) ∧ colormap (3 / 4 : α) = (255, 255, 0)
      ∧ colormap (1 : α) = (255, 0, 0))
    ∧ (value < 1 / 4 →
        colormap value = (0, ⌊value * 4 * 255⌋.toNat, 255)
        ∧ 0 ≤ ⌊value * 4 * 255⌋ ∧ ⌊value * 4 * 255⌋ ≤ 255)
    ∧ (1 / 4 ≤ value → value < 1 / 2 →
        colormap value = (0, 255, ⌊(1 - (value - 1 / 4) * 4) * 255⌋.toNat)
        ∧ 0 ≤ ⌊(1 - (value - 1 / 4) * 4) * 255⌋ ∧ ⌊(1 - (value - 1 / 4) * 4) * 255⌋ ≤ 255)
    ∧ (1 / 2 ≤ value → value < 3 / 4 →
        colormap value = (⌊(value - 1 / 2) * 4 * 255⌋.toNat, 255, 0)
        ∧ 0 ≤ ⌊(value - 1 / 2) * 4 * 255⌋ ∧ ⌊(value - 1 / 2) * 4 * 255⌋ ≤ 255)
    ∧ (3 / 4 ≤ value →
        colormap value = (255, ⌊(1 - (value - 3 / 4) * 4) * 255⌋.toNat, 0)
        ∧ 0 ≤ ⌊(1 - (value - 3 / 4) * 4) * 255⌋ ∧ ⌊(1 - (value - 3 / 4) * 4) * 255⌋ ≤ 255)
    ∧ ((colormap value).1 ≤ 255 ∧ (colormap value).2.1 ≤ 255 ∧ (colormap value).2.2 ≤ 255)
    ∧ (∀ (heatmap : List α) (width height i : Nat),
        i < heatmap.length → i < width * height → heatmap.getD i 0 = value →
        (heatmapToRGBA heatmap width height)[i * 4]? = some (colormap value).1
        ∧ (heatmapToRGBA heatmap width height)[i * 4 + 1]? = some (colormap value).2.1
        ∧ (heatmapToRGBA heatmap width height)[i * 4 + 2]? = some (colormap value).2.2) := by
  have c0 : clampByte 0 = 0 := rfl
  have c255 : clampByte 255 = 255 := rfl
  have b1 : value < 1 / 4 →
      colormap value = (0, ⌊value * 4 * 255⌋.toNat, 255)
      ∧ 0 ≤ ⌊value * 4 * 255⌋ ∧ ⌊value * 4 * 255⌋ ≤ 255 := by
    intro h
    obtain ⟨a, b, c⟩ := floor_byte (value * 4 * 255) (by positivity) (by linarith)
    refine ⟨?_, a, b⟩
    simp only [colormap, if_pos h, c0, c255, c]
  have b2 : 1 / 4 ≤ value → value < 1 / 2 →
      colormap value = (0, 255, ⌊(1 - (value - 1 / 4) * 4) * 255⌋.toNat)
      ∧ 0 ≤ ⌊(1 - (value - 1 / 4) * 4) * 255⌋ ∧ ⌊(1 - (value - 1 / 4) * 4) * 255⌋ ≤ 255 := by
    intro hl hu
    obtain ⟨a, b, c⟩ := floor_byte ((1 - (value - 1 / 4) * 4) * 255)
      (by nlinarith) (by nlinarith)
    refine ⟨?_, a, b⟩
    simp only [colormap, if_neg (not_lt.mpr hl), if_pos hu, c0, c255, c]
  have b3 : 1 / 2 ≤ value → value < 3 / 4 →
      colormap value = (⌊(value - 1 / 2) * 4 * 255⌋.toNat, 255, 0)
      ∧ 0 ≤ ⌊(value - 1 / 2) * 4 * 255⌋ ∧ ⌊(value - 1 / 2) * 4 * 255⌋ ≤ 255 := by
    intro hl hu
    obtain ⟨a, b, c⟩ := floor_byte ((value - 1 / 2) * 4 * 255) (by nlinarith) (by nlinarith)
    have n1 : ¬ value < 1 / 4 := by linarith
    refine ⟨?_, a, b⟩
    simp only [colormap, if_neg n1, if_neg (not_lt.mpr hl), if_pos hu, c0, c255, c]
  have b4 : 3 / 4 ≤ value →
      colormap value = (255, ⌊(1 - (value - 3 / 4) * 4) * 255⌋.toNat, 0)
      ∧ 0 ≤ ⌊(1 - (value - 3 / 4) * 4) * 255⌋ ∧ ⌊(1 - (value - 3 / 4) * 4) * 255⌋ ≤ 255 := by
    intro hl
    obtain ⟨a, b, c⟩ := floor_byte ((1 - (value - 3 / 4) * 4) * 255)
      (by nlinarith) (by nlinarith)
    have n1 : ¬ value < 1 / 4 := by linarith
    have n2 : ¬ value < 1 / 2 := by linarith
    refine ⟨?_, a, b⟩
    simp only [colormap, if_neg n1, if_neg n2, if_neg (not_lt.mpr hl), c0, c255, c]
  refine ⟨?_, b1, b2, b3, b4, ?_, ?_⟩
  · refine ⟨?_, ?_, ?_, ?_, ?_⟩
    · simp [colormap, c0, c255]
    · norm_num [colormap, c0, c255]
    · norm_num [colormap, c0, c255]
    · norm_num [colormap, c0, c255]
    · norm_num [colormap, c0, c255]
  · by_cases h14 : value < 1 / 4
    · obtain ⟨e, a, b⟩ := b1 h14
      rw [e]
      exact ⟨by norm_num, by dsimp only; omega, by norm_num⟩
    · by_cases h12 : value < 1 / 2
      · obtain ⟨e, a, b⟩ := b2 (not_lt.mp h14) h12
        rw [e]
        exact ⟨by norm_num, by norm_num, by dsimp only; omega⟩
      · by_cases h34 : value < 3 / 4
        · obtain ⟨e, a, b⟩ := b3 (not_lt.mp h12) h34
          rw [e]
          exact ⟨by dsimp only; omega, by norm_num, by norm_num⟩
        · obtain ⟨e, a, b⟩ := b4 (not_lt.mp h34)
          rw [e]
          exact ⟨by norm_num, by dsimp only; omega, by norm_num⟩
  · intro heatmap width height i hi hwh hv
    obtain ⟨_, hget⟩ := heatmapToRGBA_get heatmap width height
    have d0 : (i * 4) / 4 = i := by omega
    have d1 : (i * 4 + 1) / 4 = i := by omega
    have d2 : (i * 4 + 2) / 4 = i := by omega
    have m0 : (i * 4) % 4 = 0 := by omega
    have m1 : (i * 4 + 1) % 4 = 1 := by omega
    have m2 : (i * 4 + 2) % 4 = 2 := by omega
    have l0 : i * 4 < width * height * 4 := by omega
    have l1 : i * 4 + 1 < width * height * 4 := by omega
    have l2 : i * 4 + 2 < width * height * 4 := by omega
    refine ⟨?_, ?_, ?_⟩
    · rw [hget, if_pos l0, d0, if_pos hi, m0, hv]
      simp
    · rw [hget, if_pos l1, d1, if_pos hi, m1, hv]
      simp
    · rw [hget, if_pos l2, d2, if_pos hi, m2, hv]
      simp

theorem C20_four_band_colormap_witness :
    colormap (3 / 10 : ℚ) = (0, 255, ⌊(1 - ((3 / 10 : ℚ) - 1 / 4) * 4) * 255⌋.toNat) :=
  ((C20_four_band_colormap (3 / 10 : ℚ) (by norm_num) (by norm_num)).2.2.1
    (by norm_num) (by norm_num)).1

end Saliency

end ColormapTheorems

section AlphaTheorems

namespace Saliency

variable {α : Type} [LinearOrderedField α] [FloorRing α]

/-- The alpha byte is the floor itself for a value up to `1`, and lies in `53..178`. -/
theorem alphaOf_eq (v : α) (h1 : v ≤ 1) :
    alphaOf v = ⌊max (3 / 10) v * 255 * (7 / 10)⌋.toNat
    ∧ 53 ≤ ⌊max (3 / 10) v * 255 * (7 / 10)⌋ ∧ ⌊max (3 / 10) v * 255 * (7 / 10)⌋ ≤ 178 := by
  have hm0 : (3 / 10 : α) ≤ max (3 / 10) v := le_max_left _ _
  have hm1 : max (3 / 10) v ≤ 1 := max_le (by norm_num) h1
  have lo : (53 : Int) ≤ ⌊max (3 / 10) v * 255 * (7 / 10)⌋ := by
    rw [Int.le_floor]
    push_cast
    nlinarith
  have hi : ⌊max (3 / 10) v * 255 * (7 / 10)⌋ ≤ 178 := by
    have : ⌊max (3 / 10) v * 255 * (7 / 10)⌋ < 179 := by
      rw [Int.floor_lt]
      push_cast
      nlinarith
    omega
  refine ⟨?_, lo, hi⟩
  unfold alphaOf
  exact clampByte_of_mem _ (by omega) (by omega)

/-- A pixel beyond the length of the heatmap keeps the alpha `0` of the fresh
`Uint8ClampedArray`. -/
theorem heatmapToRGBA_alpha_beyond (heatmap : List α) (width height i : Nat)
    (hwh : i < width * height) (hge : heatmap.length ≤ i) :
    (heatmapToRGBA heatmap width height)[i * 4 + 3]? = some 0 := by
  obtain ⟨_, hget⟩ := heatmapToRGBA_get heatmap width height
  have l3 : i * 4 + 3 < width * height * 4 := by omega
  have h2 : ¬ (i * 4 + 3) / 4 < heatmap.length := by omega
  rw [hget, if_pos l3, if_neg h2]

/-- C21 (as amended): for a heatmap value `v ≤ 1`, in particular for `v` in
`[0, 1]`, the alpha byte stored by `heatmapToRGBA` is
`floor(max(0.3, v) * 255 * 0.7)`; it is `53` for `v ≤ 0.3`, does not decrease
when `v` grows, is at most `178` and at least `53`, hence never `0`. So every
pixel of the overlay that has a heatmap cell, whatever the length of the
heatmap, has an alpha between `53` and `178`; a pixel beyond the length of
the heatmap is not written and keeps alpha `0`. -/
theorem C21_alpha_channel (v : α) (h1 : v ≤ 1) :
    alphaOf v = ⌊max (3 / 10) v * 255 * (7 / 10)⌋.toNat
    ∧ (v ≤ 3 / 10 → alphaOf v = 53)
    ∧ (∀ u : α, u ≤ v → alphaOf u ≤ alphaOf v)
    ∧ alphaOf v ≤ 178
    ∧ 53 ≤ alphaOf v
    ∧ alphaOf v ≠ 0
    ∧ (∀ (heatmap : List α) (width height i : Nat),
        i < heatmap.length → i < width * height → heatmap.getD i 0 = v →
        (heatmapToRGBA heatmap width height)[i * 4 + 3]? = some (alphaOf v))
    ∧ (∀ (heatmap : List α) (width height i : Nat),
        (∀ x ∈ heatmap, x ≤ 1) → i < width * height →
        (i < heatmap.length →
          ∃ a, (heatmapToRGBA heatmap width height)[i * 4 + 3]? = some a
            ∧ a ≠ 0 ∧ 53 ≤ a ∧ a ≤ 178)
        ∧ (heatmap.length ≤ i →
          (heatmapToRGBA heatmap width height)[i * 4 + 3]? = some 0)) := by
  obtain ⟨e, lo, hi⟩ := alphaOf_eq v h1
  have hget4 : ∀ (heatmap : List α) (width height i : Nat),
      i < heatmap.length → i < width * height →
      (heatmapToRGBA heatmap width height)[i * 4 + 3]? = some (alphaOf (heatmap.getD i 0)) := by
    intro heatmap width height i hi' hwh
    obtain ⟨_, hget⟩ := heatmapToRGBA_get heatmap width height
    have d3 : (i * 4 + 3) / 4 = i := by omega
    have m3 : (i * 4 + 3) % 4 = 3 := by omega
    have l3 : i * 4 + 3 < width * height * 4 := by omega
    rw [hget, if_pos l3, d3, if_pos hi', m3]
    simp
  refine ⟨e, ?_, ?_, ?_, ?_, ?_, ?_, ?_⟩
  · intro hv
    rw [e, max_eq_left hv]
    have : ⌊(3 / 10 : α) * 255 * (7 / 10)⌋ = 53 := by
      rw [Int.floor_eq_iff]
      constructor <;> norm_num
    rw [this]
    rfl
  · intro u huv
    obtain ⟨eu, lou, _⟩ := alphaOf_eq u (le_trans huv h1)
    rw [eu, e]
    apply Int.toNat_le_toNat
    apply Int.floor_mono
    have : max (3 / 10) u ≤ max (3 / 10) v := max_le_max (le_refl _) huv
    nlinarith
  · rw [e]; omega
  · rw [e]; omega
  · rw [e]; omega
  · intro heatmap width height i hi' hwh hv
    rw [hget4 heatmap width height i hi' hwh, hv]
  · intro heatmap width height i hall hwh
    constructor
    · intro hi'
      refine ⟨_, hget4 heatmap width height i hi' hwh, ?_⟩
      have hmem : heatmap.getD i 0 ∈ heatmap := by
        rw [List.getD_eq_getElem _ _ hi']
        exact List.getElem_mem _
      have a1 := hall _ hmem
      obtain ⟨e', lo', hi''⟩ := alphaOf_eq (heatmap.getD i 0) a1
      rw [e']
      omega
    · intro hge
      exact heatmapToRGBA_alpha_beyond heatmap width height i hwh hge

theorem C21_alpha_channel_witness :
    alphaOf (1 / 5 : ℚ) = 53 :=
  (C21_alpha_channel (1 / 5 : ℚ) (by norm_num)).2.1 (by norm_num)

end Saliency

end AlphaTheorems

section DecisionTheorems

theorem sigmoid_ge_iff (v : ℝ) (h : v < 0 ∨ v > 1) :
    (1 / (1 + Real.exp (-v)) ≥ 7 / 10 ↔ v ≥ 7 / 10) := by
  have hpos : 0 < Real.exp (-v) := Real.exp_pos _
  rcases h with h | h
  · have h1 : 1 < Real.exp (-v) := by
      rw [← Real.exp_zero]
      exact Real.exp_lt_exp.mpr (by linarith)
    constructor
    · intro hs
      rw [ge_iff_le, le_div_iff₀ (by linarith)] at hs
      linarith
    · intro hv
      linarith
  · have he : Real.exp (-v) < 3 / 7 := by
      have h1 : Real.exp (-v) < Real.exp (-1) := Real.exp_lt_exp.mpr (by linarith)
      have h2 : Real.exp (-1) = 1 / Real.exp 1 := by
        rw [Real.exp_neg, one_div]
      have h3 : (2.7182818283 : ℝ) < Real.exp 1 := Real.exp_one_gt_d9
      have h4 : 1 / Real.exp 1 < 3 / 7 := by
        rw [div_lt_div_iff₀ (Real.exp_pos 1) (by norm_num)]
        linarith
      linarith
    constructor
    · intro _
      linarith
    · intro _
      rw [ge_iff_le, le_div_iff₀ (by linarith)]
      linarith

theorem singleOutput_ge_iff (v : ℝ) : (singleOutput Real.exp v ≥ 7 / 10 ↔ v ≥ 7 / 10) := by
  unfold singleOutput
  by_cases h1 : v < -10 ∨ v > 10
  · rw [if_pos h1]
    apply sigmoid_ge_iff
    rcases h1 with h | h
    · exact Or.inl (by linarith)
    · exact Or.inr (by linarith)
  · rw [if_neg h1]
    by_cases h2 : v < 0 ∨ v > 1
    · rw [if_pos h2]
      exact sigmoid_ge_iff v h2
    · rw [if_neg h2]

/-- C26: for a 1-element output `v` the decoded probability of both scripts
is `singleOutput v`, and it is at least `0.7`, the test by which `detectAI`
and `updateImageBadge` take the image for AI, exactly when `v ≥ 0.7`; so a
`detectAI` run on a fresh image stores that probability and sets
`data-ai-saliency-ready` exactly when `v ≥ 0.7` and the badge call does not
throw (`updateImageBadge` is absent, or the image is wrapped or has a
parent node). Yet the decoded probability is not monotone in `v`: `1`
decodes to `1` and `2` to a value below `1`. -/
theorem C26_single_output_decision_monotone (v : ℝ) :
    Detect.aiProbability Real.exp [v] = some (singleOutput Real.exp v)
    ∧ DetectSimple.aiProbability Real.exp [v] = some (singleOutput Real.exp v)
    ∧ (singleOutput Real.exp v ≥ 7 / 10 ↔ v ≥ 7 / 10)
    ∧ (∀ u : ℝ, v ≤ u → singleOutput Real.exp v ≥ 7 / 10 → singleOutput Real.exp u ≥ 7 / 10)
    ∧ (∀ (img : Img) (ui : Bool),
        img.dataAiDetected = false → img.dataAiSaliencyReady = false →
        ((Detect.detectAI Real.exp true ui img (some [v])).dataAiSaliencyReady = true
          ↔ v ≥ 7 / 10 ∧ (ui = false ∨ img.wrapper = true ∨ img.parentNode = true))
        ∧ ((DetectSimple.detectAI Real.exp ui img (some [v])).dataAiSaliencyReady = true
          ↔ v ≥ 7 / 10 ∧ (ui = false ∨ img.wrapper = true ∨ img.parentNode = true))
        ∧ (Detect.detectAI Real.exp true ui img (some [v])).dataAiProbability
            = some (toFixed3 (singleOutput Real.exp v))
        ∧ (DetectSimple.detectAI Real.exp ui img (some [v])).dataAiProbability
            = some (toFixed3 (singleOutput Real.exp v)))
    ∧ singleOutput Real.exp 1 = 1
    ∧ singleOutput Real.exp 2 < 1 := by
  refine ⟨rfl, rfl, singleOutput_ge_iff v, ?_, ?_, ?_, ?_⟩
  · intro u hvu hv
    exact (singleOutput_ge_iff u).mpr (le_trans ((singleOutput_ge_iff v).mp hv) hvu)
  · intro img ui hd hs
    obtain ⟨h1, h2⟩ := detectAI_saliencyReady_iff Real.exp ui img [v]
      (singleOutput Real.exp v) hd hs
    have e : ∀ P : Prop, (singleOutput Real.exp v ≥ 7 / 10 ∧ P ↔ v ≥ 7 / 10 ∧ P) :=
      fun P => and_congr_left (fun _ => singleOutput_ge_iff v)
    refine ⟨(h1 rfl).trans (e _), (h2 rfl).trans (e _), ?_, ?_⟩
    · exact (detect_detectAI_probability Real.exp ui img [v] (singleOutput Real.exp v) hd rfl)
    · exact (detectAI_success Real.exp ui img [v] (singleOutput Real.exp v) hd rfl).2
  · norm_num [singleOutput]
  · have hpos : 0 < Real.exp (-2) := Real.exp_pos _
    have : singleOutput Real.exp 2 = 1 / (1 + Real.exp (-2)) := by
      norm_num [singleOutput]
    rw [this, div_lt_one (by linarith)]
    linarith

theorem C26_single_output_decision_monotone_witness :
    ((Detect.detectAI Real.exp true true ({} : Img) (some [2])).dataAiSaliencyReady = true
      ↔ (2 : ℝ) ≥ 7 / 10
        ∧ (true = false ∨ ({} : Img).wrapper = true ∨ ({} : Img).parentNode = true)) :=
  ((C26_single_output_decision_monotone 2).2.2.2.2.1 {} true rfl rfl).1

end DecisionTheorems

section CacheKeyTheorems

namespace Saliency

/-- The loop of `generateCacheKey` ends within `fuel` tests of its condition
exactly when the index reaches the length at one of them. -/
theorem cacheKeyLoop_isSome (imageData : List (Fin 256)) (step : Nat) :
    ∀ (fuel i : Nat) (hash : Int),
      ((cacheKeyLoop imageData step fuel i hash).isSome = true
        ↔ 1 ≤ fuel ∧ imageData.length ≤ i + (fuel - 1) * step) := by
  intro fuel
  induction fuel with
  | zero =>
    intro i hash
    simp [cacheKeyLoop]
  | succ fuel ih =>
    intro i hash
    rw [cacheKeyLoop]
    by_cases hi : i < imageData.length
    · rw [if_pos hi, ih]
      cases fuel with
      | zero =>
        simp only [Nat.zero_add, Nat.sub_self, Nat.zero_mul, Nat.add_zero]
        constructor
        · intro h; omega
        · intro h; omega
      | succ k =>
        have e1 : k + 1 - 1 = k := by omega
        have e2 : k + 1 + 1 - 1 = k + 1 := by omega
        rw [e1, e2, Nat.succ_mul]
        constructor
        · intro h; exact ⟨by omega, by omega⟩
        · intro h; exact ⟨by omega, by omega⟩
    · rw [if_neg hi]
      simp only [Option.isSome_some, true_iff]
      have : imageData.length ≤ i := by omega
      exact ⟨by omega, Nat.le_trans this (Nat.le_add_right _ _)⟩

theorem cacheKeyLoop_none_iff (imageData : List (Fin 256)) (step fuel i : Nat) (hash : Int) :
    cacheKeyLoop imageData step fuel i hash = none
      ↔ ¬ (1 ≤ fuel ∧ imageData.length ≤ i + (fuel - 1) * step) := by
  rw [← cacheKeyLoop_isSome imageData step fuel i hash]
  cases cacheKeyLoop imageData step fuel i hash <;> simp

/-- C27: with `step = floor(length / 100)`, for a buffer of at least 100 bytes
the loop of `generateCacheKey` runs exactly `ceil(length / step)` times (it
ends at test number `n + 1` of its condition and not before), and that
number is between 100 and 199; for the empty buffer the first test ends it;
for a length from 1 to 99 the stride is 0 and no number of tests ends the
loop. So `generateCacheKey` returns exactly when the length is 0 or at least
100. -/
theorem C27_cache_key_loop_termination (imageData : List (Fin 256)) (hash : Int) :
    (100 ≤ imageData.length →
      100 ≤ (imageData.length + imageData.length / 100 - 1) / (imageData.length / 100)
      ∧ (imageData.length + imageData.length / 100 - 1) / (imageData.length / 100) ≤ 199
      ∧ (cacheKeyLoop imageData (imageData.length / 100)
          ((imageData.length + imageData.length / 100 - 1) / (imageData.length / 100) + 1)
          0 hash).isSome = true
      ∧ (∀ fuel, fuel ≤ (imageData.length + imageData.length / 100 - 1)
            / (imageData.length / 100) →
          cacheKeyLoop imageData (imageData.length / 100) fuel 0 hash = none))
    ∧ (imageData.length = 0 →
      cacheKeyLoop imageData (imageData.length / 100) 1 0 hash = some hash)
    ∧ (1 ≤ imageData.length → imageData.length ≤ 99 →
      imageData.length / 100 = 0
      ∧ ∀ fuel, cacheKeyLoop imageData (imageData.length / 100) fuel 0 hash = none)
    ∧ ((generateCacheKey imageData).isSome = true
      ↔ imageData.length = 0 ∨ 100 ≤ imageData.length) := by
  refine ⟨?_, ?_, ?_, ?_⟩
  · intro hlen
    generalize hL : imageData.length = L at hlen ⊢
    have hstep : 0 < L / 100 := Nat.div_pos hlen (by decide)
    generalize hs : L / 100 = step at hstep ⊢
    have hlo : step * 100 ≤ L := by omega
    have hhi : L < step * 100 + 100 := by omega
    have hq := Nat.div_add_mod (L + step - 1) step
    have hr := Nat.mod_lt (L + step - 1) hstep
    generalize hn : (L + step - 1) / step = n at hq ⊢
    generalize hm : (L + step - 1) % step = r at hq hr
    have h100 : 100 ≤ n := by
      by_contra hc
      have : n ≤ 99 := by omega
      have : step * n ≤ step * 99 := Nat.mul_le_mul_left step this
      omega
    have h199 : n ≤ 199 := by
      by_contra hc
      have : 200 ≤ n := by omega
      have : step * 200 ≤ step * n := Nat.mul_le_mul_left step this
      omega
    refine ⟨h100, h199, ?_, ?_⟩
    · rw [cacheKeyLoop_isSome, hL]
      refine ⟨by omega, ?_⟩
      have e : n + 1 - 1 = n := by omega
      rw [e, Nat.zero_add, Nat.mul_comm]
      omega
    · intro fuel hf
      rw [cacheKeyLoop_none_iff, hL]
      rintro ⟨h1, h2⟩
      rw [Nat.zero_add] at h2
      have : (fuel - 1) * step ≤ (n - 1) * step := Nat.mul_le_mul_right step (by omega)
      have e : (n - 1) * step + step = step * n := by
        have : n - 1 + 1 = n := by omega
        calc (n - 1) * step + step = (n - 1 + 1) * step := by rw [Nat.succ_mul]
          _ = step * n := by rw [this, Nat.mul_comm]
      omega
  · intro h0
    rw [cacheKeyLoop]
    simp [h0]
  · intro h1 h99
    have hs : imageData.length / 100 = 0 := by omega
    refine ⟨hs, fun fuel => ?_⟩
    rw [cacheKeyLoop_none_iff, hs]
    rintro ⟨_, h2⟩
    simp only [Nat.mul_zero, Nat.add_zero] at h2
    omega
  · unfold generateCacheKey
    rw [cacheKeyLoop_isSome]
    have e : imageData.length + 1 - 1 = imageData.length := by omega
    rw [e, Nat.zero_add]
    constructor
    · rintro ⟨_, h⟩
      by_contra hc
      have hs : imageData.length / 100 = 0 := by omega
      rw [hs, Nat.mul_zero] at h
      omega
    · rintro (h | h)
      · exact ⟨by omega, by omega⟩
      · refine ⟨by omega, ?_⟩
        have hstep : 0 < imageData.length / 100 := Nat.div_pos h (by decide)
        calc imageData.length = imageData.length * 1 := (Nat.mul_one _).symm
          _ ≤ imageData.length * (imageData.length / 100) := Nat.mul_le_mul_left _ hstep

theorem C27_cache_key_loop_termination_witness :
    generateCacheKey [1, 2, 3, 4] = none := by
  have h := (C27_cache_key_loop_termination [1, 2, 3, 4] 0).2.2.1 (by decide) (by decide)
  exact h.2 5

end Saliency

end CacheKeyTheorems

section ConvexTheorems

variable {α : Type} [LinearOrderedField α]

theorem foldl_max_spec (xs : List α) :
    ∀ a : α, a ≤ xs.foldl max a ∧ (∀ v ∈ xs, v ≤ xs.foldl max a)
      ∧ (xs.foldl max a = a ∨ xs.foldl max a ∈ xs) := by
  induction xs with
  | nil => intro a; simp
  | cons x rest ih =>
    intro a
    obtain ⟨h1, h2, h3⟩ := ih (max a x)
    simp only [List.foldl_cons]
    refine ⟨le_trans (le_max_left a x) h1, ?_, ?_⟩
    · intro v hv
      rcases List.mem_cons.mp hv with hv | hv
      · rw [hv]; exact le_trans (le_max_right a x) h1
      · exact h2 v hv
    · rcases h3 with h3 | h3
      · rcases max_choice a x with hc | hc
        · left; rw [h3, hc]
        · right; rw [h3, hc]; exact List.mem_cons_self _ _
      · right; exact List.mem_cons_of_mem _ h3

theorem foldl_min_spec (xs : List α) :
    ∀ a : α, xs.foldl min a ≤ a ∧ (∀ v ∈ xs, xs.foldl min a ≤ v)
      ∧ (xs.foldl min a = a ∨ xs.foldl min a ∈ xs) := by
  induction xs with
  | nil => intro a; simp
  | cons x rest ih =>
    intro a
    obtain ⟨h1, h2, h3⟩ := ih (min a x)
    simp only [List.foldl_cons]
    refine ⟨le_trans h1 (min_le_left a x), ?_, ?_⟩
    · intro v hv
      rcases List.mem_cons.mp hv with hv | hv
      · rw [hv]; exact le_trans h1 (min_le_right a x)
      · exact h2 v hv
    · rcases h3 with h3 | h3
      · rcases min_choice a x with hc | hc
        · left; rw [h3, hc]
        · right; rw [h3, hc]; exact List.mem_cons_self _ _
      · right; exact List.mem_cons_of_mem _ h3

namespace Saliency

/-- `Math.max(...arr)` is an upper bound of the array and one of its cells. -/
theorem arrayMax_spec (arr : List α) (hne : arr ≠ []) :
    (∀ v ∈ arr, v ≤ arrayMax arr) ∧ arrayMax arr ∈ arr := by
  cases arr with
  | nil => exact absurd rfl hne
  | cons x xs =>
    obtain ⟨h1, h2, h3⟩ := foldl_max_spec xs x
    refine ⟨?_, ?_⟩
    · intro v hv
      rcases List.mem_cons.mp hv with hv | hv
      · rw [hv]; exact h1
      · exact h2 v hv
    · rcases h3 with h3 | h3
      · simp only [arrayMax, h3]; exact List.mem_cons_self _ _
      · exact List.mem_cons_of_mem _ h3

/-- `Math.min(...arr)` is a lower bound of the array and one of its cells. -/
theorem arrayMin_spec (arr : List α) (hne : arr ≠ []) :
    (∀ v ∈ arr, arrayMin arr ≤ v) ∧ arrayMin arr ∈ arr := by
  cases arr with
  | nil => exact absurd rfl hne
  | cons x xs =>
    obtain ⟨h1, h2, h3⟩ := foldl_min_spec xs x
    refine ⟨?_, ?_⟩
    · intro v hv
      rcases List.mem_cons.mp hv with hv | hv
      · rw [hv]; exact h1
      · exact h2 v hv
    · rcases h3 with h3 | h3
      · simp only [arrayMin, h3]; exact List.mem_cons_self _ _
      · exact List.mem_cons_of_mem _ h3

theorem convex_two (lo hi a b t : α) (ha : lo ≤ a ∧ a ≤ hi) (hb : lo ≤ b ∧ b ≤ hi)
    (ht : 0 ≤ t ∧ t ≤ 1) : lo ≤ a * (1 - t) + b * t ∧ a * (1 - t) + b * t ≤ hi := by
  have h1 : 0 ≤ 1 - t := by linarith [ht.2]
  have e1 := mul_nonneg h1 (sub_nonneg.mpr ha.1)
  have e2 := mul_nonneg ht.1 (sub_nonneg.mpr hb.1)
  have e3 := mul_nonneg h1 (sub_nonneg.mpr ha.2)
  have e4 := mul_nonneg ht.1 (sub_nonneg.mpr hb.2)
  constructor
  · have : a * (1 - t) + b * t - lo = (1 - t) * (a - lo) + t * (b - lo) := by ring
    linarith
  · have : hi - (a * (1 - t) + b * t) = (1 - t) * (hi - a) + t * (hi - b) := by ring
    linarith

theorem convex_four (lo hi a b c d tx ty : α)
    (ha : lo ≤ a ∧ a ≤ hi) (hb : lo ≤ b ∧ b ≤ hi) (hc : lo ≤ c ∧ c ≤ hi) (hd : lo ≤ d ∧ d ≤ hi)
    (htx : 0 ≤ tx ∧ tx ≤ 1) (hty : 0 ≤ ty ∧ ty ≤ 1) :
    lo ≤ (a * (1 - tx) + b * tx) * (1 - ty) + (c * (1 - tx) + d * tx) * ty
    ∧ (a * (1 - tx) + b * tx) * (1 - ty) + (c * (1 - tx) + d * tx) * ty ≤ hi :=
  convex_two lo hi _ _ ty (convex_two lo hi a b tx ha hb htx) (convex_two lo hi c d tx hc hd htx)
    hty

theorem getD_mem_of_lt (heatmap : List α) (i : Nat) (h : i < heatmap.length) :
    heatmap.getD i 0 ∈ heatmap := by
  rw [List.getD_eq_getElem _ _ h]
  exact List.getElem_mem _

variable [FloorRing α]

/-- The interpolation weight `srcX - x0` lies in `[0, 1)`. -/
theorem lerp_mem_unit (src dst x : Nat) :
    0 ≤ (x : α) * ((src : α) / (dst : α)) - (srcIndex0 α src dst x : α)
    ∧ (x : α) * ((src : α) / (dst : α)) - (srcIndex0 α src dst x : α) < 1 := by
  have hnn : (0 : α) ≤ (x : α) * ((src : α) / (dst : α)) := by positivity
  unfold srcIndex0
  constructor
  · have := Nat.floor_le hnn
    linarith
  · have := Nat.lt_floor_add_one ((x : α) * ((src : α) / (dst : α)))
    linarith

/-- The loop body of `upscaleHeatmap` stays within the bounds of the source cells. -/
theorem upscaleCell_mem (heatmap : List α) (srcWidth srcHeight dstWidth dstHeight x y : Nat)
    (lo hi : α) (hsw : 1 ≤ srcWidth) (hsh : 1 ≤ srcHeight)
    (hlen : heatmap.length = srcWidth * srcHeight)
    (hb : ∀ v ∈ heatmap, lo ≤ v ∧ v ≤ hi) (hx : x < dstWidth) (hy : y < dstHeight) :
    lo ≤ upscaleCell heatmap srcWidth srcHeight dstWidth dstHeight x y
    ∧ upscaleCell heatmap srcWidth srcHeight dstWidth dstHeight x y ≤ hi := by
  have hx0 := srcIndex0_lt (α := α) srcWidth dstWidth x hsw hx
  have hy0 := srcIndex0_lt (α := α) srcHeight dstHeight y hsh hy
  have hx1 := srcIndex1_lt (α := α) srcWidth dstWidth x hsw
  have hy1 := srcIndex1_lt (α := α) srcHeight dstHeight y hsh
  have h1 := grid_index_lt _ _ _ _ hy0 hx0
  have h2 := grid_index_lt _ _ _ _ hy0 hx1
  have h3 := grid_index_lt _ _ _ _ hy1 hx0
  have h4 := grid_index_lt _ _ _ _ hy1 hx1
  rw [← hlen] at h1 h2 h3 h4
  obtain ⟨tx0, tx1⟩ := lerp_mem_unit (α := α) srcWidth dstWidth x
  obtain ⟨ty0, ty1⟩ := lerp_mem_unit (α := α) srcHeight dstHeight y
  exact convex_four lo hi _ _ _ _ _ _
    (hb _ (getD_mem_of_lt heatmap _ h1)) (hb _ (getD_mem_of_lt heatmap _ h2))
    (hb _ (getD_mem_of_lt heatmap _ h3)) (hb _ (getD_mem_of_lt heatmap _ h4))
    ⟨tx0, le_of_lt tx1⟩ ⟨ty0, le_of_lt ty1⟩

theorem upscaleHeatmap_mem (heatmap : List α) (srcWidth srcHeight dstWidth dstHeight : Nat)
    (lo hi : α) (hsw : 1 ≤ srcWidth) (hsh : 1 ≤ srcHeight)
    (hlen : heatmap.length = srcWidth * srcHeight)
    (hb : ∀ v ∈ heatmap, lo ≤ v ∧ v ≤ hi) :
    ∀ v ∈ upscaleHeatmap heatmap srcWidth srcHeight dstWidth dstHeight, lo ≤ v ∧ v ≤ hi := by
  intro v hv
  obtain ⟨hl, hget⟩ := upscaleHeatmap_get heatmap srcWidth srcHeight dstWidth dstHeight
  obtain ⟨j, hj, rfl⟩ := List.getElem_of_mem hv
  have hj' : j < dstWidth * dstHeight := by rw [← hl]; exact hj
  have := hget j
  rw [if_pos hj', List.getElem?_eq_getElem hj] at this
  rw [Option.some.inj this]
  have hdw : 0 < dstWidth := by
    rcases Nat.eq_zero_or_pos dstWidth with h0 | h0
    · rw [h0, Nat.zero_mul] at hj'; omega
    · exact h0
  exact upscaleCell_mem heatmap srcWidth srcHeight dstWidth dstHeight _ _ lo hi hsw hsh hlen hb
    (Nat.mod_lt _ hdw) (Nat.div_lt_of_lt_mul hj')

theorem upscaleCell_same_size (heatmap : List α) (srcWidth srcHeight x y : Nat)
    (hsw : 1 ≤ srcWidth) (hsh : 1 ≤ srcHeight) :
    upscaleCell heatmap srcWidth srcHeight srcWidth srcHeight x y
      = heatmap.getD (y * srcWidth + x) 0 := by
  have hw : (srcWidth : α) ≠ 0 := by
    have : 0 < srcWidth := by omega
    exact_mod_cast (Nat.pos_iff_ne_zero.mp this)
  have hh : (srcHeight : α) ≠ 0 := by
    have : 0 < srcHeight := by omega
    exact_mod_cast (Nat.pos_iff_ne_zero.mp this)
  have ex : srcIndex0 α srcWidth srcWidth x = x := by
    unfold srcIndex0
    rw [div_self hw, mul_one, Nat.floor_natCast]
  have ey : srcIndex0 α srcHeight srcHeight y = y := by
    unfold srcIndex0
    rw [div_self hh, mul_one, Nat.floor_natCast]
  simp only [upscaleCell, ex, ey, div_self hw, div_self hh, mul_one, sub_self, sub_zero,
    mul_zero, add_zero]

/-- C29: for a source grid of `srcWidth * srcHeight` cells, with source size at
least `1 x 1`, every cell of the result of `upscaleHeatmap` lies between any
bounds of the source cells, in particular between their minimum and their
maximum; so a grid with values in `[0, 1]` is upscaled to values in
`[0, 1]`; and upscaling to the source's own size returns the source grid. -/
theorem C29_upscale_within_source_range (heatmap : List α)
    (srcWidth srcHeight dstWidth dstHeight : Nat)
    (hsw : 1 ≤ srcWidth) (hsh : 1 ≤ srcHeight)
    (hlen : heatmap.length = srcWidth * srcHeight) :
    (∀ lo hi : α, (∀ v ∈ heatmap, lo ≤ v ∧ v ≤ hi) →
        ∀ v ∈ upscaleHeatmap heatmap srcWidth srcHeight dstWidth dstHeight, lo ≤ v ∧ v ≤ hi)
    ∧ (∀ v ∈ upscaleHeatmap heatmap srcWidth srcHeight dstWidth dstHeight,
        arrayMin heatmap ≤ v ∧ v ≤ arrayMax heatmap)
    ∧ ((∀ v ∈ heatmap, 0 ≤ v ∧ v ≤ 1) →
        ∀ v ∈ upscaleHeatmap heatmap srcWidth srcHeight dstWidth dstHeight, 0 ≤ v ∧ v ≤ 1)
    ∧ upscaleHeatmap heatmap srcWidth srcHeight srcWidth srcHeight = heatmap := by
  have hne : heatmap ≠ [] := by
    intro h
    rw [h, List.length_nil] at hlen
    have : 0 < srcWidth * srcHeight := Nat.mul_pos (by omega) (by omega)
    omega
  refine ⟨fun lo hi hb => upscaleHeatmap_mem heatmap _ _ _ _ lo hi hsw hsh hlen hb, ?_,
    fun hb => upscaleHeatmap_mem heatmap _ _ _ _ 0 1 hsw hsh hlen hb, ?_⟩
  · apply upscaleHeatmap_mem heatmap _ _ _ _ _ _ hsw hsh hlen
    intro v hv
    exact ⟨(arrayMin_spec heatmap hne).1 v hv, (arrayMax_spec heatmap hne).1 v hv⟩
  · obtain ⟨_, hget⟩ := upscaleHeatmap_get heatmap srcWidth srcHeight srcWidth srcHeight
    apply List.ext_getElem?
    intro j
    rw [hget]
    by_cases hj : j < srcWidth * srcHeight
    · rw [if_pos hj, upscaleCell_same_size heatmap srcWidth srcHeight _ _ hsw hsh]
      have e : j / srcWidth * srcWidth + j % srcWidth = j := by
        rw [Nat.mul_comm]; exact Nat.div_add_mod j srcWidth
      have hj' : j < heatmap.length := by rw [hlen]; exact hj
      rw [e, List.getD_eq_getElem _ _ hj', List.getElem?_eq_getElem hj']
    · rw [if_neg hj]
      have : heatmap.length ≤ j := by rw [hlen]; omega
      rw [List.getElem?_eq_none this]

theorem C29_upscale_within_source_range_witness :
    upscaleHeatmap [(1 / 4 : ℚ), 1 / 2, 3 / 4, 1] 2 2 2 2 = [1 / 4, 1 / 2, 3 / 4, 1] :=
  (C29_upscale_within_source_range [(1 / 4 : ℚ), 1 / 2, 3 / 4, 1] 2 2 2 2
    (by decide) (by decide) rfl).2.2.2

end Saliency

end ConvexTheorems

section NormalizeTheorems

namespace Saliency

/-- Min-max normalization of a grid whose maximum exceeds its minimum: every
cell lands in `[0, 1]` and both ends are attained. -/
theorem normalizeHeatmap_spec {α : Type} [LinearOrderedField α] (heatmap : List α)
    (hpos : 0 < arrayMax heatmap - arrayMin heatmap) :
    (∀ v ∈ normalizeHeatmap heatmap, 0 ≤ v ∧ v ≤ 1)
    ∧ (0 : α) ∈ normalizeHeatmap heatmap ∧ (1 : α) ∈ normalizeHeatmap heatmap := by
  have hne : heatmap ≠ [] := by
    intro h
    rw [h] at hpos
    simp [arrayMax, arrayMin] at hpos
  obtain ⟨hmax, hmaxmem⟩ := arrayMax_spec heatmap hne
  obtain ⟨hmin, hminmem⟩ := arrayMin_spec heatmap hne
  refine ⟨?_, ?_, ?_⟩
  · intro v hv
    obtain ⟨u, hu, rfl⟩ := List.mem_map.mp hv
    constructor
    · exact div_nonneg (sub_nonneg.mpr (hmin u hu)) (le_of_lt hpos)
    · rw [div_le_one hpos]
      exact sub_le_sub_right (hmax u hu) _
  · exact List.mem_map.mpr ⟨arrayMin heatmap, hminmem, by rw [sub_self, zero_div]⟩
  · exact List.mem_map.mpr ⟨arrayMax heatmap, hmaxmem, div_self (ne_of_gt hpos)⟩

/-- The centre cell (`x = y = 7`) of the attention map is at least `1`. -/
theorem attentionAt_centre (random : Nat → ℝ) (hr : 0 ≤ random 105) :
    1 ≤ attentionAt Real.sqrt random 105 := by
  have e : attentionAt Real.sqrt random 105 = max 0 (1 - Real.sqrt 0 / 10) + random 105 * (2 / 10) := by
    simp only [attentionAt]
    norm_num
  rw [e, Real.sqrt_zero]
  have : max (0 : ℝ) (1 - 0 / 10) = 1 := by norm_num
  rw [this]
  nlinarith

/-- The corner cell (`x = y = 0`) of the attention map is below `3 / 10`. -/
theorem attentionAt_corner (random : Nat → ℝ) (hr : random 0 < 1) :
    attentionAt Real.sqrt random 0 < 3 / 10 := by
  have e : attentionAt Real.sqrt random 0 = max 0 (1 - Real.sqrt 98 / 10) + random 0 * (2 / 10) := by
    simp only [attentionAt]
    norm_num
  rw [e]
  have h9 : (9 : ℝ) < Real.sqrt 98 := by
    rw [Real.lt_sqrt (by norm_num)]
    norm_num
  have : max (0 : ℝ) (1 - Real.sqrt 98 / 10) ≤ 1 / 10 := by
    apply max_le
    · norm_num
    · linarith
  linarith

/-- C22: for every assignment of the 196 noise samples in `[0, 1)`, the
divisor `maxVal - minVal` of the normalization of the 14 x 14 attention
grid of `generateGradCAM` is strictly positive, the normalized grid has 196
cells, every one of them lies in `[0, 1]`, and the values `0` and `1` are
both attained; the normalized grid is the one `generateGradCAM` upscales. -/
theorem C22_attention_grid_normalized (random : Nat → ℝ)
    (hr : ∀ i, i < 196 → 0 ≤ random i ∧ random i < 1) :
    0 < arrayMax ((List.range (14 * 14)).map (attentionAt Real.sqrt random))
        - arrayMin ((List.range (14 * 14)).map (attentionAt Real.sqrt random))
    ∧ (normalizeHeatmap ((List.range (14 * 14)).map (attentionAt Real.sqrt random))).length = 196
    ∧ (∀ v ∈ normalizeHeatmap ((List.range (14 * 14)).map (attentionAt Real.sqrt random)),
        0 ≤ v ∧ v ≤ 1)
    ∧ (0 : ℝ) ∈ normalizeHeatmap ((List.range (14 * 14)).map (attentionAt Real.sqrt random))
    ∧ (1 : ℝ) ∈ normalizeHeatmap ((List.range (14 * 14)).map (attentionAt Real.sqrt random))
    ∧ ∀ width height : Nat, computeHeatmap Real.sqrt random width height
        = upscaleHeatmap
            (normalizeHeatmap ((List.range (14 * 14)).map (attentionAt Real.sqrt random)))
            14 14 width height := by
  have hne : (List.range (14 * 14)).map (attentionAt Real.sqrt random) ≠ [] := by
    intro h
    have := congrArg List.length h
    simp at this
  have hc : attentionAt Real.sqrt random 105
      ∈ (List.range (14 * 14)).map (attentionAt Real.sqrt random) :=
    List.mem_map.mpr ⟨105, List.mem_range.mpr (by norm_num), rfl⟩
  have h0 : attentionAt Real.sqrt random 0
      ∈ (List.range (14 * 14)).map (attentionAt Real.sqrt random) :=
    List.mem_map.mpr ⟨0, List.mem_range.mpr (by norm_num), rfl⟩
  have hmax := (arrayMax_spec _ hne).1 _ hc
  have hmin := (arrayMin_spec _ hne).1 _ h0
  have h1 := attentionAt_centre random (hr 105 (by norm_num)).1
  have h2 := attentionAt_corner random (hr 0 (by norm_num)).2
  have hpos : 0 < arrayMax ((List.range (14 * 14)).map (attentionAt Real.sqrt random))
        - arrayMin ((List.range (14 * 14)).map (attentionAt Real.sqrt random)) := by
    linarith
  obtain ⟨a, b, c⟩ := normalizeHeatmap_spec _ hpos
  refine ⟨hpos, ?_, a, b, c, fun _ _ => rfl⟩
  simp [normalizeHeatmap]

theorem C22_attention_grid_normalized_witness :
    (0 : ℝ) ∈ normalizeHeatmap ((List.range (14 * 14)).map (attentionAt Real.sqrt (fun _ => 0)))
    ∧ (1 : ℝ) ∈ normalizeHeatmap
        ((List.range (14 * 14)).map (attentionAt Real.sqrt (fun _ => 0))) :=
  ⟨(C22_attention_grid_normalized (fun _ => 0) (fun _ _ => ⟨le_refl 0, zero_lt_one⟩)).2.2.2.1,
   (C22_attention_grid_normalized (fun _ => 0) (fun _ _ => ⟨le_refl 0, zero_lt_one⟩)).2.2.2.2.1⟩

end Saliency

end NormalizeTheorems

section CollisionTheorems

namespace Saliency

variable {α : Type} [LinearOrderedField α] [FloorRing α]

/-- A request with an all-zero buffer of at least 100 bytes that fits its
dimensions, sent to an idle initialized worker with an empty cache, is a cache
miss with key `0`: it is suspended at `session.run`. -/
theorem onGenerate_zero_miss (id width height : Nat) (h100 : 100 ≤ 4 * width * height) :
    onGenerate ({ session := true, posted := [Message.INITIALIZED] } : Worker α)
        ⟨id, List.replicate (4 * width * height) 0, width, height⟩
      = { session := true, posted := [Message.INITIALIZED], activeJobs := 1,
          awaiting := [(⟨id, List.replicate (4 * width * height) 0, width, height⟩, 0)] } := by
  have hkey := generateCacheKey_zeros (4 * width * height) h100
  have hne : 4 * width * height ≠ 0 := by omega
  have hn : ¬ ((0 : Int) ≥ MAX_CONCURRENT_JOBS) := by decide
  simp [onGenerate, hn, generateGradCAMStart, hkey, cacheHas, imageDataOk, hne]

/-- The messages of a worker that serves an all-zero request of `wA x hA`
pixels and then, once that job has stored its heatmap, an all-zero request of
`wB x hB` pixels: the second is answered from the heatmap of the first. -/
theorem zero_requests_posted (sqrt : α → α) (random : Nat → α)
    (idA idB wA hA wB hB : Nat) (h100 : 100 ≤ 4 * wA * hA) (h100B : 100 ≤ 4 * wB * hB) :
    (run (workerStep sqrt) ({} : Worker α)
        [WorkerEvent.initialized true,
         WorkerEvent.generate ⟨idA, List.replicate (4 * wA * hA) 0, wA, hA⟩,
         WorkerEvent.settle 0 (some random),
         WorkerEvent.generate ⟨idB, List.replicate (4 * wB * hB) 0, wB, hB⟩]).posted
      = [Message.INITIALIZED,
         Message.SALIENCY_RESULT idA
           (heatmapToRGBA (computeHeatmap sqrt random wA hA) wA hA) wA hA,
         Message.SALIENCY_RESULT idB
           (heatmapToRGBA (computeHeatmap sqrt random wA hA) wB hB) wB hB] := by
  have hkeyB := generateCacheKey_zeros (4 * wB * hB) h100B
  have s1 : workerStep sqrt ({} : Worker α) (WorkerEvent.initialized true)
      = { session := true, posted := [Message.INITIALIZED] } := rfl
  have s2 := onGenerate_zero_miss (α := α) idA wA hA h100
  have s3 : onSettle sqrt
      ({ session := true, posted := [Message.INITIALIZED], activeJobs := 1,
         awaiting := [(⟨idA, List.replicate (4 * wA * hA) 0, wA, hA⟩, 0)] } : Worker α)
      0 (some random)
      = { session := true,
          saliencyCache := cacheResult [] 0 (computeHeatmap sqrt random wA hA),
          posted := [Message.INITIALIZED,
            Message.SALIENCY_RESULT idA
              (heatmapToRGBA (computeHeatmap sqrt random wA hA) wA hA) wA hA],
          activeJobs := 0 } := by
    simp [onSettle, postResult]
  have s4 := onGenerate_hit
    ({ session := true,
       saliencyCache := cacheResult [] 0 (computeHeatmap sqrt random wA hA),
       posted := [Message.INITIALIZED,
         Message.SALIENCY_RESULT idA
           (heatmapToRGBA (computeHeatmap sqrt random wA hA) wA hA) wA hA],
       activeJobs := 0 } : Worker α)
    ⟨idB, List.replicate (4 * wB * hB) 0, wB, hB⟩ 0 (computeHeatmap sqrt random wA hA)
    rfl (by simp [MAX_CONCURRENT_JOBS]) hkeyB (cacheGet_cacheResult [] 0 _)
  have r2 : workerStep sqrt
      ({ session := true, posted := [Message.INITIALIZED] } : Worker α)
      (WorkerEvent.generate ⟨idA, List.replicate (4 * wA * hA) 0, wA, hA⟩)
      = { session := true, posted := [Message.INITIALIZED], activeJobs := 1,
          awaiting := [(⟨idA, List.replicate (4 * wA * hA) 0, wA, hA⟩, 0)] } := by
    rw [workerStep_generate sqrt _ _ rfl, s2]
  have r3 : workerStep sqrt
      ({ session := true, posted := [Message.INITIALIZED], activeJobs := 1,
         awaiting := [(⟨idA, List.replicate (4 * wA * hA) 0, wA, hA⟩, 0)] } : Worker α)
      (WorkerEvent.settle 0 (some random))
      = { session := true,
          saliencyCache := cacheResult [] 0 (computeHeatmap sqrt random wA hA),
          posted := [Message.INITIALIZED,
            Message.SALIENCY_RESULT idA
              (heatmapToRGBA (computeHeatmap sqrt random wA hA) wA hA) wA hA],
          activeJobs := 0 } := by
    rw [← s3]
    simp [workerStep]
  have r4 := workerStep_generate sqrt
    ({ session := true,
       saliencyCache := cacheResult [] 0 (computeHeatmap sqrt random wA hA),
       posted := [Message.INITIALIZED,
         Message.SALIENCY_RESULT idA
           (heatmapToRGBA (computeHeatmap sqrt random wA hA) wA hA) wA hA],
       activeJobs := 0 } : Worker α)
    ⟨idB, List.replicate (4 * wB * hB) 0, wB, hB⟩ rfl
  simp only [run, List.foldl_cons, List.foldl_nil, s1, r2, r3, r4, s4]
  rfl

/-- C28: the cache key is computed from the buffer alone, and two all-zero
buffers of at least 100 bytes have the same key `0` whatever their lengths.
So when a worker has served an all-zero request of `wA x hA` pixels, a later
all-zero request of `wB x hB` pixels with more pixels is a cache hit: its
result is drawn from the heatmap stored for the first, whose length is
`wA * hA` and not `wB * hB`, and every overlay pixel from index `wA * hA` on
has alpha `0`. -/
theorem C28_cache_key_ignores_dimensions (sqrt : α → α) (random : Nat → α)
    (idA idB wA hA wB hB : Nat) (h100 : 100 ≤ 4 * wA * hA) (hlt : wA * hA < wB * hB) :
    generateCacheKey (List.replicate (4 * wA * hA) 0)
      = generateCacheKey (List.replicate (4 * wB * hB) 0)
    ∧ (run (workerStep sqrt) ({} : Worker α)
        [WorkerEvent.initialized true,
         WorkerEvent.generate ⟨idA, List.replicate (4 * wA * hA) 0, wA, hA⟩,
         WorkerEvent.settle 0 (some random),
         WorkerEvent.generate ⟨idB, List.replicate (4 * wB * hB) 0, wB, hB⟩]).posted
      = [Message.INITIALIZED,
         Message.SALIENCY_RESULT idA
           (heatmapToRGBA (computeHeatmap sqrt random wA hA) wA hA) wA hA,
         Message.SALIENCY_RESULT idB
           (heatmapToRGBA (computeHeatmap sqrt random wA hA) wB hB) wB hB]
    ∧ (computeHeatmap sqrt random wA hA).length = wA * hA
    ∧ (computeHeatmap sqrt random wA hA).length ≠ wB * hB
    ∧ ∀ p, wA * hA ≤ p → p < wB * hB →
        (heatmapToRGBA (computeHeatmap sqrt random wA hA) wB hB)[4 * p + 3]? = some 0 := by
  have h100B : 100 ≤ 4 * wB * hB := by
    have : 4 * wA * hA < 4 * wB * hB := by
      rw [Nat.mul_assoc, Nat.mul_assoc]; omega
    omega
  have hkeyA := generateCacheKey_zeros (4 * wA * hA) h100
  have hkeyB := generateCacheKey_zeros (4 * wB * hB) h100B
  have hlen : (computeHeatmap sqrt random wA hA).length = wA * hA :=
    (upscaleHeatmap_get _ 14 14 wA hA).1
  refine ⟨by rw [hkeyA, hkeyB], ?_, hlen, by rw [hlen]; omega, ?_⟩
  · exact zero_requests_posted sqrt random idA idB wA hA wB hB h100 h100B
  · intro p hp1 hp2
    have hget := (heatmapToRGBA_get (computeHeatmap sqrt random wA hA) wB hB).2 (4 * p + 3)
    have h1 : 4 * p + 3 < wB * hB * 4 := by omega
    have h2 : ¬ (4 * p + 3) / 4 < (computeHeatmap sqrt random wA hA).length := by
      rw [hlen]; omega
    rw [hget, if_pos h1, if_neg h2]

theorem C28_cache_key_ignores_dimensions_witness :
    (computeHeatmap (fun x : ℚ => x) (fun _ => 0) 200 200).length ≠ 300 * 300
    ∧ (heatmapToRGBA (computeHeatmap (fun x : ℚ => x) (fun _ => 0) 200 200) 300 300)[359999]?
        = some 0 :=
  ⟨(C28_cache_key_ignores_dimensions (fun x : ℚ => x) (fun _ => 0) 1 2 200 200 300 300
      (by decide) (by decide)).2.2.2.1,
   (C28_cache_key_ignores_dimensions (fun x : ℚ => x) (fun _ => 0) 1 2 200 200 300 300
      (by decide) (by decide)).2.2.2.2 89999 (by decide) (by decide)⟩

end Saliency

end CollisionTheorems

section ShortHeatmapTheorems

namespace Saliency

/-- C21, the claim as stated fails when the heatmap is shorter than the
overlay: the one-cell heatmap `[1/2]` drawn on `2 x 1` pixels leaves pixel
`1` with alpha `0`. The worker produces such an overlay: after an all-zero
request of `5 x 5` pixels, an all-zero request of `10 x 10` pixels is
answered from the stored heatmap of 25 cells, and pixel `25` of its overlay
has alpha `0`. -/
theorem C21_short_heatmap_counterexample :
    (∀ x ∈ [(1 / 2 : ℚ)], 0 ≤ x ∧ x ≤ 1)
    ∧ (heatmapToRGBA [(1 / 2 : ℚ)] 2 1)[1 * 4 + 3]? = some 0
    ∧ (run (workerStep Real.sqrt) ({} : Worker ℝ)
        [WorkerEvent.initialized true,
         WorkerEvent.generate ⟨1, List.replicate (4 * 5 * 5) 0, 5, 5⟩,
         WorkerEvent.settle 0 (some (fun _ => 0)),
         WorkerEvent.generate ⟨2, List.replicate (4 * 10 * 10) 0, 10, 10⟩]).posted
      = [Message.INITIALIZED,
         Message.SALIENCY_RESULT 1
           (heatmapToRGBA (computeHeatmap Real.sqrt (fun _ => 0) 5 5) 5 5) 5 5,
         Message.SALIENCY_RESULT 2
           (heatmapToRGBA (computeHeatmap Real.sqrt (fun _ => 0) 5 5) 10 10) 10 10]
    ∧ (heatmapToRGBA (computeHeatmap Real.sqrt (fun _ => 0) 5 5) 10 10)[25 * 4 + 3]?
      = some 0 := by
  refine ⟨?_, ?_, ?_, ?_⟩
  · intro x hx
    rw [List.mem_singleton.mp hx]
    norm_num
  · exact heatmapToRGBA_alpha_beyond [(1 / 2 : ℚ)] 2 1 1 (by decide) (by decide)
  · exact zero_requests_posted Real.sqrt (fun _ => 0) 1 2 5 5 10 10 (by decide) (by decide)
  · have hlen : (computeHeatmap Real.sqrt (fun _ => (0 : ℝ)) 5 5).length = 5 * 5 :=
      (upscaleHeatmap_get _ 14 14 5 5).1
    exact heatmapToRGBA_alpha_beyond _ 10 10 25 (by decide) (by rw [hlen])

end Saliency

end ShortHeatmapTheorems

section LoaderTheorems

namespace Loader

theorem loaderStep_settled (s : Wait) (e : LoaderEvent) (o : Settled)
    (h : s.ortReady = some o) : (loaderStep s e).ortReady = some o := by
  cases e with
  | message data =>
    cases data <;> simp only [loaderStep, handler, resolve, reject] <;> split <;> simp [h]
  | timer =>
    simp only [loaderStep, timeoutCallback, reject]
    split <;> simp [h]

theorem loader_run_settled (events : List LoaderEvent) :
    ∀ (s : Wait) (o : Settled), s.ortReady = some o →
      (run loaderStep s events).ortReady = some o := by
  induction events with
  | nil => intro s o h; exact h
  | cons e rest ih =>
    intro s o h
    exact ih (loaderStep s e) o (loaderStep_settled s e o h)

theorem loader_run_other (pre : List Data) (hpre : ∀ d ∈ pre, d = Data.other) :
    run loaderStep executor (pre.map LoaderEvent.message) = executor := by
  induction pre with
  | nil => rfl
  | cons d rest ih =>
    have hd : d = Data.other := hpre d (List.mem_cons_self _ _)
    have hr : ∀ x ∈ rest, x = Data.other := fun x hx => hpre x (List.mem_cons_of_mem _ hx)
    rw [hd]
    exact ih hr

/-- C23: while only other messages have arrived, the wait is unchanged. If
then `ORT_READY` or `ORT_ERROR` arrives, the promise is settled (resolved
with `true`, or rejected with the error of the message), the timer is
cleared and the handler is removed. If instead the 30 s timer fires, the
promise is rejected with the timeout error but the handler stays registered:
a later `ORT_READY` still reaches it, and only then is it removed. In every
run the first settlement of the promise is final. -/
theorem C23_timeout_leaves_handler_registered (pre : List Data)
    (hpre : ∀ d ∈ pre, d = Data.other) (error : String) :
    run loaderStep executor (pre.map LoaderEvent.message ++ [LoaderEvent.message Data.ORT_READY])
      = { ortReady := some (Settled.resolved true), timeoutPending := false,
          handlerRegistered := false }
    ∧ run loaderStep executor
        (pre.map LoaderEvent.message ++ [LoaderEvent.message (Data.ORT_ERROR error)])
      = { ortReady := some (Settled.rejected error), timeoutPending := false,
          handlerRegistered := false }
    ∧ run loaderStep executor (pre.map LoaderEvent.message ++ [LoaderEvent.timer])
      = { ortReady := some (Settled.rejected "ORT initialization timeout"),
          timeoutPending := false, handlerRegistered := true }
    ∧ run loaderStep executor
        (pre.map LoaderEvent.message ++ [LoaderEvent.timer, LoaderEvent.message Data.ORT_READY])
      = { ortReady := some (Settled.rejected "ORT initialization timeout"),
          timeoutPending := false, handlerRegistered := false }
    ∧ ∀ (events more : List LoaderEvent) (o : Settled),
        (run loaderStep executor events).ortReady = some o →
        (run loaderStep executor (events ++ more)).ortReady = some o := by
  have h := loader_run_other pre hpre
  unfold run at h
  refine ⟨?_, ?_, ?_, ?_, ?_⟩
  · unfold run; rw [List.foldl_append, h]; rfl
  · unfold run; rw [List.foldl_append, h]; rfl
  · unfold run; rw [List.foldl_append, h]; rfl
  · unfold run; rw [List.foldl_append, h]; rfl
  · intro events more o ho
    have := loader_run_settled more (run loaderStep executor events) o ho
    unfold run at this ⊢
    rw [List.foldl_append]
    exact this

theorem C23_timeout_leaves_handler_registered_witness :
    (run loaderStep executor [LoaderEvent.message Data.other, LoaderEvent.timer]).handlerRegistered
      = true :=
  congrArg Wait.handlerRegistered
    (C23_timeout_leaves_handler_registered [Data.other] (by simp) "").2.2.1

end Loader

end LoaderTheorems

section ListenerTheorems

theorem count_filter_queueImage (s : State) (i j : Nat) :
    List.count (Obs.filter j) (queueImage s i).trace = List.count (Obs.filter j) s.trace := by
  unfold queueImage
  dsimp only
  split
  · rfl
  · simp [List.count_append]

/-- Every run of a `load` listener calls the filter once. -/
theorem count_filter_checkAndQueue (s : State) (i : Nat) :
    List.count (Obs.filter i) (checkAndQueue s i).trace
      = List.count (Obs.filter i) s.trace + 1 := by
  unfold checkAndQueue
  dsimp only
  split
  · rw [count_filter_queueImage]
    simp [List.count_append]
  · simp [List.count_append]

theorem count_filter_iterate (i : Nat) : ∀ (n : Nat) (s : State),
    List.count (Obs.filter i) ((fun s => checkAndQueue s i)^[n] s).trace
      = List.count (Obs.filter i) s.trace + n := by
  intro n
  induction n with
  | zero => intro s; rfl
  | succ n ih =>
    intro s
    rw [Function.iterate_succ_apply, ih, count_filter_checkAndQueue]
    omega

/-- A scan of an image that is neither detected, skipped nor loaded only
registers one more `load` listener for it. -/
theorem processImages_unloaded (s : State) (i : Nat)
    (hd : (s.imgs i).dataAiDetected = false) (hs : (s.imgs i).dataAiSkip = none)
    (hl : ((s.imgs i).complete && decide ((s.imgs i).naturalWidth > 0)) = false) :
    processImages s [i]
      = { s with listeners := Function.update s.listeners i (s.listeners i + 1) } := by
  simp only [processImages, List.foldl_cons, List.foldl_nil, hd, hs, hl, Option.isSome_none,
    Bool.or_self, Bool.false_eq_true, if_false]

theorem scans_unloaded (i : Nat) : ∀ (k : Nat) (s : State),
    (s.imgs i).dataAiDetected = false → (s.imgs i).dataAiSkip = none →
    ((s.imgs i).complete && decide ((s.imgs i).naturalWidth > 0)) = false →
    (run processImages s (List.replicate k [i])).listeners i = s.listeners i + k
    ∧ (run processImages s (List.replicate k [i])).trace = s.trace
    ∧ (run processImages s (List.replicate k [i])).imgs = s.imgs := by
  intro k
  induction k with
  | zero => intro s _ _ _; exact ⟨rfl, rfl, rfl⟩
  | succ k ih =>
    intro s hd hs hl
    have e : run processImages s (List.replicate (k + 1) [i])
        = run processImages (processImages s [i]) (List.replicate k [i]) := rfl
    rw [e, processImages_unloaded s i hd hs hl]
    obtain ⟨a, b, c⟩ := ih { s with listeners := Function.update s.listeners i (s.listeners i + 1) }
      hd hs hl
    refine ⟨?_, b, c⟩
    rw [a]
    simp only [Function.update_same]
    omega

theorem listeners_queueImage (s : State) (i : Nat) :
    (queueImage s i).listeners = s.listeners := by
  unfold queueImage
  dsimp only
  split <;> rfl

theorem listeners_checkAndQueue (s : State) (i : Nat) :
    (checkAndQueue s i).listeners = s.listeners := by
  unfold checkAndQueue
  dsimp only
  split
  · rw [listeners_queueImage]
  · rfl

/-- After the `load` event no listener of the image is pending: each was one-shot. -/
theorem listeners_load (s : State) (i w h : Nat) : (load s i w h).listeners i = 0 := by
  have hit : ∀ (n : Nat) (t : State),
      ((fun s => checkAndQueue s i)^[n] t).listeners = t.listeners := by
    intro n
    induction n with
    | zero => intro t; rfl
    | succ n ih => intro t; rw [Function.iterate_succ_apply, ih, listeners_checkAndQueue]
  unfold load
  dsimp only
  rw [hit]
  simp

/-- C24 fails as stated: the scan of `startDetection` and the scan of one
mutation both find image `0` unloaded, so two `load` listeners are pending
and the filter runs twice (not once) when the image loads, in `detect.js`
and in `detect-simple.js`. -/
theorem C24_filter_runs_twice_counterexample :
    (run (Detect.step (fun x : ℚ => x)) { imgs := fun _ => {} }
        [Event.startDetection [0], Event.mutation [0], Event.load 0 300 300]).trace
      = [Obs.filter 0, Obs.push 0, Obs.filter 0]
    ∧ List.count (Obs.filter 0)
        (run (Detect.step (fun x : ℚ => x)) { imgs := fun _ => {} }
          [Event.startDetection [0], Event.mutation [0], Event.load 0 300 300]).trace ≠ 1
    ∧ List.count (Obs.filter 0)
        (run (DetectSimple.step (fun x : ℚ => x)) { imgs := fun _ => {} }
          [Event.startDetection [0], Event.mutation [0], Event.load 0 300 300]).trace ≠ 1 := by
  decide

/-- C24 (amended): for an image that is not loaded, not detected and not
skipped, and has no listener yet, eligibility is deferred to load completion:
`k` scans by `processImages` call the filter not at all and leave `k` one-shot
listeners, and when the image loads `isValidImageSize` runs once for each of
them, `k` times in all (once when the image was scanned once). -/
theorem C24_filter_runs_once_per_scan (s : State) (i k w h : Nat)
    (hd : (s.imgs i).dataAiDetected = false) (hs : (s.imgs i).dataAiSkip = none)
    (hl : ((s.imgs i).complete && decide ((s.imgs i).naturalWidth > 0)) = false)
    (h0 : s.listeners i = 0) :
    (run processImages s (List.replicate k [i])).trace = s.trace
    ∧ (run processImages s (List.replicate k [i])).listeners i = k
    ∧ List.count (Obs.filter i) (load (run processImages s (List.replicate k [i])) i w h).trace
      = List.count (Obs.filter i) s.trace + k
    ∧ (load (run processImages s (List.replicate k [i])) i w h).listeners i = 0 := by
  obtain ⟨a, b, _⟩ := scans_unloaded i k s hd hs hl
  refine ⟨b, by rw [a, h0]; omega, ?_, ?_⟩
  · unfold load
    dsimp only
    rw [count_filter_iterate, a, h0, b]
    omega
  · exact listeners_load _ i w h

theorem C24_filter_runs_once_per_scan_witness :
    List.count (Obs.filter 0)
      (load (run processImages { imgs := fun _ => {} } (List.replicate 2 [0])) 0 300 300).trace
      = List.count (Obs.filter 0) ({ imgs := fun _ => {} } : State).trace + 2 :=
  (C24_filter_runs_once_per_scan { imgs := fun _ => {} } 0 2 300 300 rfl rfl rfl rfl).2.2.1

end ListenerTheorems

section OptionsTheorems

namespace Options

/-- Every input the pattern accepts contains a dot. -/
theorem domainRegex_has_dot (x : List Char) (h : domainRegex.rmatch x = true) : '.' ∈ x := by
  rw [RegularExpression.rmatch_iff_matches'] at h
  simp only [domainRegex, RegularExpression.matches'_mul, RegularExpression.matches'_char] at h
  obtain ⟨a, ha, b, _, rfl⟩ := Language.mem_mul.mp h
  obtain ⟨c, hc, d, _, rfl⟩ := Language.mem_mul.mp ha
  obtain ⟨e, _, f, hf, rfl⟩ := Language.mem_mul.mp hc
  have : f = ['.'] := hf
  rw [this]
  simp

theorem addDomain_no_dot (s : Page) (domain : String) (hne : domain ≠ "")
    (hdot : '.' ∉ domain.toList) :
    addDomain s domain = showStatus s "Please enter a valid domain" "error" := by
  have hr : domainRegex.rmatch domain.toList = false := by
    cases hm : domainRegex.rmatch domain.toList with
    | false => rfl
    | true => exact absurd (domainRegex_has_dot _ hm) hdot
  have hc : domain.toList.contains '.' = false := by
    simpa using hdot
  simp only [addDomain, hne, if_false, hr, hc, Bool.not_false, Bool.and_self, if_true]

theorem addDomain_dot (s : Page) (domain : String) (hne : domain ≠ "")
    (hdot : '.' ∈ domain.toList) (hnew : s.currentBlacklist.contains domain = false) :
    addDomain s domain
      = { currentBlacklist := sort (s.currentBlacklist ++ [domain])
          blacklistItems := sort (s.currentBlacklist ++ [domain])
          statusMessage := some ("Blacklist saved", "success")
          stored := some (sort (s.currentBlacklist ++ [domain]))
          inputValue := "" } := by
  have hc : domain.toList.contains '.' = true := by
    simpa using hdot
  have hlen : ¬ (s.currentBlacklist ++ [domain]).length = 0 := by simp
  simp only [addDomain, hne, if_false, hc, Bool.not_true, Bool.and_false, hnew,
    Bool.false_eq_true, renderBlacklist, hlen, saveBlacklist, showStatus]

/-- C25: the test of `addDomain` rejects an input only when the pattern fails
AND the input has no dot, and every input the pattern accepts has a dot; so a
non-empty input is rejected with `Please enter a valid domain` exactly when
it has no dot. The input `a..b` does not match the pattern, yet it is added
to `currentBlacklist` and written to storage; every new input with a dot is. -/
theorem C25_dotted_input_bypasses_pattern :
    domainRegex.rmatch "a..b".toList = false
    ∧ addDomain {} "a..b"
      = { currentBlacklist := ["a..b"], blacklistItems := ["a..b"],
          statusMessage := some ("Blacklist saved", "success"),
          stored := some ["a..b"], inputValue := "" }
    ∧ (∀ (s : Page) (domain : String), domain ≠ "" → '.' ∉ domain.toList →
        addDomain s domain = showStatus s "Please enter a valid domain" "error")
    ∧ (∀ (s : Page) (domain : String), domain ≠ "" → '.' ∈ domain.toList →
        s.currentBlacklist.contains domain = false →
        domain ∈ (addDomain s domain).currentBlacklist
        ∧ (addDomain s domain).stored = some (addDomain s domain).currentBlacklist
        ∧ (addDomain s domain).currentBlacklist.Perm (s.currentBlacklist ++ [domain])) := by
  refine ⟨by decide, ?_, addDomain_no_dot, ?_⟩
  · rw [addDomain_dot {} "a..b" (by decide) (by decide) rfl]
    rfl
  · intro s domain hne hdot hnew
    rw [addDomain_dot s domain hne hdot hnew]
    have hp : (sort (s.currentBlacklist ++ [domain])).Perm (s.currentBlacklist ++ [domain]) :=
      List.perm_insertionSort _ _
    exact ⟨hp.mem_iff.mpr (by simp), rfl, hp⟩

theorem C25_dotted_input_bypasses_pattern_witness :
    domainRegex.rmatch "1.2".toList = false
    ∧ "1.2" ∈ (addDomain { currentBlacklist := ["youtube.com"] } "1.2").currentBlacklist :=
  ⟨by decide,
   (C25_dotted_input_bypasses_pattern.2.2.2 { currentBlacklist := ["youtube.com"] } "1.2"
      (by decide) (by decide) (by decide)).1⟩

end Options

end OptionsTheorems

section ParkedTheorems

variable {α : Type} [LinearOrderedField α] [FloorRing α]

theorem isValidImageSize_detected (img : Img) :
    (isValidImageSize img).2.dataAiDetected = img.dataAiDetected := by
  unfold isValidImageSize
  simp only
  split_ifs <;> rfl

theorem count_pushes_snoc (t : List Obs) (o : Obs) (i : Nat)
    (h : ∀ j, o = Obs.push j → j ≠ i) :
    (Obs.pushes (t ++ [o])).count i = (Obs.pushes t).count i := by
  rw [pushes_append, List.count_append]
  cases o with
  | push j =>
    have hj : j ≠ i := h j rfl
    have e : Obs.pushes [Obs.push j] = [j] := rfl
    rw [e, List.count_singleton]
    simp [hj]
  | cycle b => rfl
  | detect j => rfl
  | filter j => rfl

theorem count_detects_snoc (t : List Obs) (o : Obs) (i : Nat)
    (h : ∀ j, o = Obs.detect j → j ≠ i) :
    (Obs.detects (t ++ [o])).count i = (Obs.detects t).count i := by
  rw [detects_append, List.count_append]
  cases o with
  | push j => rfl
  | cycle b => rfl
  | detect j =>
    have hj : j ≠ i := h j rfl
    have e : Obs.detects [Obs.detect j] = [j] := rfl
    rw [e, List.count_singleton]
    simp [hj]
  | filter j => rfl

theorem parked_queueImage {i c d : Nat} {s : State} (h : Parked i c d s) (j : Nat) :
    Parked i c d (queueImage s j) := by
  obtain ⟨h1, h2, h3, h4, h5, h6⟩ := h
  by_cases hm : (s.imgs j).dataAiDetected = true ∨ (s.imgs j).dataAiSkip ≠ none
      ∨ (s.imgs j).dataAiQueued = true
  · rw [queueImage_marked s j hm]
    exact ⟨h1, h2, h3, h4, h5, h6⟩
  · have hf : (s.imgs j).dataAiDetected = false ∧ (s.imgs j).dataAiSkip = none
        ∧ (s.imgs j).dataAiQueued = false := by
      push_neg at hm
      refine ⟨by simpa using hm.1, hm.2.1, by simpa using hm.2.2⟩
    have hji : j ≠ i := by
      intro e
      rw [e, h1] at hf
      exact absurd hf.2.2 (by decide)
    have hij : i ≠ j := fun e => hji e.symm
    rw [queueImage_fresh s j hf]
    refine ⟨?_, ?_, ?_, h4, ?_, ?_⟩
    · simp only [Function.update_noteq hij]; exact h1
    · simp only [Function.update_noteq hij]; exact h2
    · intro hmem
      rcases List.mem_append.mp hmem with hmem | hmem
      · exact h3 hmem
      · exact hij (List.mem_singleton.mp hmem)
    · rw [← h5]
      exact count_pushes_snoc _ _ _ (fun k hk => by cases hk; exact hji)
    · rw [← h6]
      exact count_detects_snoc _ _ _ (fun k hk => by cases hk)

theorem parked_checkAndQueue {i c d : Nat} {s : State} (h : Parked i c d s) (j : Nat) :
    Parked i c d (checkAndQueue s j) := by
  have h1 : Parked i c d { s with
      imgs := Function.update s.imgs j (isValidImageSize (s.imgs j)).2
      trace := s.trace ++ [Obs.filter j] } := by
    obtain ⟨a1, a2, a3, a4, a5, a6⟩ := h
    refine ⟨?_, ?_, a3, a4, ?_, ?_⟩
    · by_cases hji : i = j
      · subst hji
        simp only [Function.update_same]
        rw [isValidImageSize_queued]; exact a1
      · simp only [Function.update_noteq hji]; exact a1
    · by_cases hji : i = j
      · subst hji
        simp only [Function.update_same]
        rw [isValidImageSize_detected]; exact a2
      · simp only [Function.update_noteq hji]; exact a2
    · rw [← a5]
      exact count_pushes_snoc _ _ _ (fun k hk => by cases hk)
    · rw [← a6]
      exact count_detects_snoc _ _ _ (fun k hk => by cases hk)
  unfold checkAndQueue
  simp only
  split_ifs
  · exact parked_queueImage h1 j
  · exact h1

theorem parked_processImages {i c d : Nat} (doc : List Nat) :
    ∀ {s : State}, Parked i c d s → Parked i c d (processImages s doc) := by
  induction doc with
  | nil => intro s h; exact h
  | cons j rest ih =>
    intro s h
    unfold processImages
    rw [List.foldl_cons]
    apply ih
    simp only
    split_ifs
    · exact h
    · exact parked_checkAndQueue h j
    · exact h

theorem parked_iterate {i c d : Nat} (j n : Nat) :
    ∀ {s : State}, Parked i c d s → Parked i c d ((fun s => checkAndQueue s j)^[n] s) := by
  induction n with
  | zero => intro s h; exact h
  | succ n ih =>
    intro s h
    rw [Function.iterate_succ_apply]
    exact ih (parked_checkAndQueue h j)

theorem parked_load {i c d : Nat} {s : State} (h : Parked i c d s) (j w ht : Nat) :
    Parked i c d (load s j w ht) := by
  unfold load
  apply parked_iterate
  obtain ⟨a1, a2, a3, a4, a5, a6⟩ := h
  refine ⟨?_, ?_, a3, a4, a5, a6⟩
  · by_cases hji : i = j
    · subst hji
      simp only [Function.update_same]; exact a1
    · simp only [Function.update_noteq hji]; exact a1
  · by_cases hji : i = j
    · subst hji
      simp only [Function.update_same]; exact a2
    · simp only [Function.update_noteq hji]; exact a2

/-- `stopDetection` leaves the queued mark of an image that is not detected,
and empties the queue. -/
theorem stopDetection_undetected (s : State) (doc : List Nat) (i : Nat)
    (hd : (s.imgs i).dataAiDetected = false) :
    ((stopDetection s doc).imgs i).dataAiQueued = (s.imgs i).dataAiQueued
    ∧ ((stopDetection s doc).imgs i).dataAiDetected = false := by
  simp only [stopDetection]
  by_cases hi : i ∈ doc
  · simp [hi, hd]
  · simp [hi, hd]

theorem parked_stopDetection {i c d : Nat} {s : State} (doc : List Nat)
    (h1 : (s.imgs i).dataAiQueued = true) (h2 : (s.imgs i).dataAiDetected = false)
    (h4 : ∀ batch ∈ s.running, i ∉ batch)
    (h5 : (Obs.pushes s.trace).count i = c) (h6 : (Obs.detects s.trace).count i = d) :
    Parked i c d (stopDetection s doc) := by
  obtain ⟨a, b⟩ := stopDetection_undetected s doc i h2
  exact ⟨by rw [a]; exact h1, b, by simp [stopDetection], h4, h5, h6⟩

theorem parked_batch {i c d : Nat} {s : State} (h : Parked i c d s) :
    Parked i c d { s with
      isProcessing := true
      processingQueue := s.processingQueue.drop MAX_BATCH_SIZE
      running := s.running ++ [s.processingQueue.take MAX_BATCH_SIZE]
      trace := s.trace ++ [Obs.cycle (s.processingQueue.take MAX_BATCH_SIZE)] } := by
  obtain ⟨a1, a2, a3, a4, a5, a6⟩ := h
  refine ⟨a1, a2, fun hm => a3 (List.mem_of_mem_drop hm), ?_, ?_, ?_⟩
  · intro batch hb
    rcases List.mem_append.mp hb with hb | hb
    · exact a4 batch hb
    · rw [List.mem_singleton.mp hb]
      exact fun hm => a3 (List.mem_of_mem_take hm)
  · rw [← a5]
    exact count_pushes_snoc _ _ _ (fun k hk => by cases hk)
  · rw [← a6]
    exact count_detects_snoc _ _ _ (fun k hk => by cases hk)

theorem detect_parked_processBatch {i c d : Nat} {s : State} (h : Parked i c d s) :
    Parked i c d (Detect.processBatch s) := by
  unfold Detect.processBatch
  split_ifs
  · exact h
  · exact parked_batch h

theorem simple_parked_processBatch {i c d : Nat} {s : State} (h : Parked i c d s) :
    Parked i c d (DetectSimple.processBatch s) := by
  unfold DetectSimple.processBatch
  split_ifs
  · exact h
  · exact parked_batch h

/-- A cycle that takes its next image `j`, which is not the parked image. -/
theorem parked_item {i c d : Nat} {s : State} (h : Parked i c d s) (k j : Nat)
    (rest : List Nat) (img : Img) (hk : s.running[k]? = some (j :: rest)) :
    Parked i c d { s with
      imgs := Function.update s.imgs j img
      running := s.running.set k rest
      trace := s.trace ++ [Obs.detect j] } := by
  obtain ⟨a1, a2, a3, a4, a5, a6⟩ := h
  have hmem : (j :: rest) ∈ s.running := List.getElem?_mem hk
  have hni := a4 _ hmem
  have hij : i ≠ j := fun e => hni (by rw [e]; exact List.mem_cons_self _ _)
  refine ⟨?_, ?_, a3, ?_, ?_, ?_⟩
  · simp only [Function.update_noteq hij]; exact a1
  · simp only [Function.update_noteq hij]; exact a2
  · intro batch hb
    rcases List.mem_or_eq_of_mem_set hb with hb | hb
    · exact a4 batch hb
    · rw [hb]
      exact fun hm => hni (List.mem_cons_of_mem _ hm)
  · rw [← a5]
    exact count_pushes_snoc _ _ _ (fun k hk => by cases hk)
  · rw [← a6]
    exact count_detects_snoc _ _ _ (fun k hk => by cases hk; exact fun e => hij e.symm)

theorem detect_parked_processNext (exp : α → α) {i c d : Nat} {s : State}
    (h : Parked i c d s) (k : Nat) (result : Option (List α)) :
    Parked i c d (Detect.processNext exp s k result) := by
  unfold Detect.processNext
  split
  · exact h
  · obtain ⟨a1, a2, a3, a4, a5, a6⟩ := h
    exact ⟨a1, a2, a3, fun b hb => a4 b (List.mem_of_mem_eraseIdx hb), a5, a6⟩
  · rename_i j rest hk
    exact parked_item h k j rest _ hk

theorem simple_parked_processNext (exp : α → α) {i c d : Nat} {s : State}
    (h : Parked i c d s) (k : Nat) (result : Option (List α)) :
    Parked i c d (DetectSimple.processNext exp s k result) := by
  unfold DetectSimple.processNext
  split
  · exact h
  · obtain ⟨a1, a2, a3, a4, a5, a6⟩ := h
    simp only
    split_ifs
    · exact ⟨a1, a2, a3, fun b hb => a4 b (List.mem_of_mem_eraseIdx hb), a5, a6⟩
    · exact ⟨a1, a2, a3, fun b hb => a4 b (List.mem_of_mem_eraseIdx hb), a5, a6⟩
  · rename_i j rest hk
    exact parked_item h k j rest _ hk

theorem parked_shared {i c d : Nat} {s : State} (h : Parked i c d s) :
    (∀ doc, Parked i c d (mutation s doc)) ∧ (∀ doc, Parked i c d (startDetection s doc))
    ∧ (∀ doc, Parked i c d (stopDetection s doc))
    ∧ Parked i c d { s with batchTimer := false } := by
  refine ⟨?_, ?_, ?_, ?_⟩
  · intro doc
    simp only [mutation]
    split_ifs
    · exact parked_processImages doc h
    · exact h
  · intro doc
    simp only [startDetection]
    split_ifs
    · exact h
    · obtain ⟨a1, a2, a3, a4, a5, a6⟩ := parked_processImages (i := i) (c := c) (d := d) doc h
      exact ⟨a1, a2, a3, a4, a5, a6⟩
  · intro doc
    exact parked_stopDetection doc h.1 h.2.1 h.2.2.2.1 h.2.2.2.2.1 h.2.2.2.2.2
  · obtain ⟨a1, a2, a3, a4, a5, a6⟩ := h
    exact ⟨a1, a2, a3, a4, a5, a6⟩

theorem detect_parked_step (exp : α → α) {i c d : Nat} {s : State} (h : Parked i c d s)
    (e : Event α) : Parked i c d (Detect.step exp s e) := by
  cases e with
  | queueImage j => exact parked_queueImage h j
  | processImages doc => exact parked_processImages doc h
  | load j w ht => exact parked_load h j w ht
  | mutation doc => exact (parked_shared h).1 doc
  | startDetection doc => exact (parked_shared h).2.1 doc
  | stopDetection doc => exact (parked_shared h).2.2.1 doc
  | timer =>
    simp only [Detect.step]
    split_ifs
    · exact detect_parked_processBatch (parked_shared h).2.2.2
    · exact h
  | nextTimer => exact h
  | processBatch => exact detect_parked_processBatch h
  | processNext k result => exact detect_parked_processNext exp h k result

theorem simple_parked_step (exp : α → α) {i c d : Nat} {s : State} (h : Parked i c d s)
    (e : Event α) : Parked i c d (DetectSimple.step exp s e) := by
  cases e with
  | queueImage j => exact parked_queueImage h j
  | processImages doc => exact parked_processImages doc h
  | load j w ht => exact parked_load h j w ht
  | mutation doc => exact (parked_shared h).1 doc
  | startDetection doc => exact (parked_shared h).2.1 doc
  | stopDetection doc => exact (parked_shared h).2.2.1 doc
  | timer =>
    simp only [DetectSimple.step]
    split_ifs
    · exact simple_parked_processBatch (parked_shared h).2.2.2
    · exact h
  | nextTimer =>
    simp only [DetectSimple.step]
    split_ifs
    · apply simple_parked_processBatch
      obtain ⟨a1, a2, a3, a4, a5, a6⟩ := h
      exact ⟨a1, a2, a3, a4, a5, a6⟩
    · exact h
  | processBatch => exact simple_parked_processBatch h
  | processNext k result => exact simple_parked_processNext exp h k result

theorem parked_run {σ : Type} (step : State → σ → State) {i c d : Nat}
    (hstep : ∀ (s : State) (e : σ), Parked i c d s → Parked i c d (step s e))
    (events : List σ) : ∀ {s : State}, Parked i c d s → Parked i c d (run step s events) := by
  induction events with
  | nil => intro s h; exact h
  | cons e rest ih =>
    intro s h
    simp only [run, List.foldl_cons]
    exact ih (hstep s e h)

/-- C30 fails as stated: image `0` is queued and not detected when
`stopDetection` runs, but it sits in the batch of a running cycle; the cycle
goes on and classifies it after the stop, and after a second `stopDetection`
the image, now detected, loses its queued mark, so the next `queueImage`
enqueues it again. -/
theorem C30_running_image_counterexample :
    ((run (Detect.step (fun x : ℚ => x)) { imgs := fun _ => {} }
        [Event.queueImage 0, Event.timer]).imgs 0).dataAiQueued = true
    ∧ ((run (Detect.step (fun x : ℚ => x)) { imgs := fun _ => {} }
        [Event.queueImage 0, Event.timer]).imgs 0).dataAiDetected = false
    ∧ (run (Detect.step (fun x : ℚ => x)) { imgs := fun _ => {} }
        [Event.queueImage 0, Event.timer, Event.stopDetection [0],
         Event.processNext 0 (some [9 / 10]), Event.stopDetection [0],
         Event.queueImage 0]).trace
      = [Obs.push 0, Obs.cycle [0], Obs.detect 0, Obs.push 0]
    ∧ (run (DetectSimple.step (fun x : ℚ => x)) { imgs := fun _ => {} }
        [Event.queueImage 0, Event.timer, Event.stopDetection [0],
         Event.processNext 0 (some [9 / 10]), Event.stopDetection [0],
         Event.queueImage 0]).trace
      = [Obs.push 0, Obs.cycle [0], Obs.detect 0, Obs.push 0] := by
  refine ⟨by decide, by decide, ?_, ?_⟩
  · simp [run, Detect.step, queueImage, Detect.processBatch, stopDetection, Detect.processNext,
      Detect.detectAI, Detect.aiProbability, singleOutput, UI.updateImageBadge, MAX_BATCH_SIZE,
      Function.update]
    norm_num
  · simp [run, DetectSimple.step, queueImage, DetectSimple.processBatch, stopDetection,
      DetectSimple.processNext, DetectSimple.detectAI, DetectSimple.aiProbability, singleOutput,
      UI.updateImageBadge, MAX_BATCH_SIZE, Function.update]
    norm_num

/-- C30 (amended): `stopDetection` empties the queue, keeps the queued mark of
every image that is not detected and removes it from the detected images of
the document. An image that is marked queued and not detected when
`stopDetection` runs (whether or not its inference errored), and that is not
in the batch of a cycle still running, stays so along every later sequence of
events of `detect.js` and of `detect-simple.js`, `startDetection` and further
`stopDetection` calls included: it keeps `data-ai-queued`, `queueImage` on it
changes nothing, it is never in the queue or in a batch, and the trace gains
no push and no `detectAI` call of it. -/
theorem C30_parked_image_stays_parked (exp : α → α) (s0 : State) (doc : List Nat) (i : Nat)
    (events : List (Event α))
    (hq : (s0.imgs i).dataAiQueued = true) (hd : (s0.imgs i).dataAiDetected = false)
    (hr : ∀ batch ∈ s0.running, i ∉ batch) :
    (stopDetection s0 doc).processingQueue = []
    ∧ (∀ j, (s0.imgs j).dataAiDetected = false →
        ((stopDetection s0 doc).imgs j).dataAiQueued = (s0.imgs j).dataAiQueued)
    ∧ (∀ j ∈ doc, (s0.imgs j).dataAiDetected = true →
        ((stopDetection s0 doc).imgs j).dataAiQueued = false)
    ∧ Parked i ((Obs.pushes s0.trace).count i) ((Obs.detects s0.trace).count i)
        (run (Detect.step exp) (stopDetection s0 doc) events)
    ∧ queueImage (run (Detect.step exp) (stopDetection s0 doc) events) i
        = run (Detect.step exp) (stopDetection s0 doc) events
    ∧ Parked i ((Obs.pushes s0.trace).count i) ((Obs.detects s0.trace).count i)
        (run (DetectSimple.step exp) (stopDetection s0 doc) events)
    ∧ queueImage (run (DetectSimple.step exp) (stopDetection s0 doc) events) i
        = run (DetectSimple.step exp) (stopDetection s0 doc) events := by
  have hp := parked_stopDetection (i := i) doc hq hd hr rfl rfl
  have hD := parked_run (Detect.step exp) (fun s e h => detect_parked_step exp h e) events hp
  have hS := parked_run (DetectSimple.step exp) (fun s e h => simple_parked_step exp h e)
    events hp
  refine ⟨rfl, fun j hj => (stopDetection_undetected s0 doc j hj).1, ?_, hD, ?_, hS, ?_⟩
  · intro j hj hdet
    simp [stopDetection, hj, hdet]
  · exact queueImage_marked _ i (Or.inr (Or.inr hD.1))
  · exact queueImage_marked _ i (Or.inr (Or.inr hS.1))

theorem C30_parked_image_stays_parked_witness :
    Parked 0 1 0
      (run (Detect.step (fun x : ℚ => x))
        (stopDetection (queueImage { imgs := fun _ => {} } 0) [0])
        [Event.startDetection [0], Event.queueImage 0, Event.timer]) :=
  (C30_parked_image_stays_parked (fun x : ℚ => x) (queueImage { imgs := fun _ => {} } 0) [0] 0
    [Event.startDetection [0], Event.queueImage 0, Event.timer] rfl rfl
    (fun _ hb => absurd hb (List.not_mem_nil _))).2.2.2.1

end ParkedTheorems

section ConcurrentTheorems

namespace Saliency

/-- The messages of a worker that receives two all-zero requests of the same
size before the job of the first has settled, and a third after both jobs
have settled: both jobs run inference and draw their own samples, the second
heatmap replaces the first in the cache, and the third request is answered
from the second. -/
theorem concurrent_requests_posted {α : Type} [LinearOrderedField α] [FloorRing α]
    (sqrt : α → α) (r1 r2 : Nat → α) (w h : Nat) (h100 : 100 ≤ 4 * w * h) :
    (run (workerStep sqrt) ({} : Worker α)
        [WorkerEvent.initialized true,
         WorkerEvent.generate ⟨1, List.replicate (4 * w * h) 0, w, h⟩,
         WorkerEvent.generate ⟨2, List.replicate (4 * w * h) 0, w, h⟩,
         WorkerEvent.settle 0 (some r1),
         WorkerEvent.settle 0 (some r2),
         WorkerEvent.generate ⟨3, List.replicate (4 * w * h) 0, w, h⟩]).posted
      = [Message.INITIALIZED,
         Message.SALIENCY_RESULT 1 (heatmapToRGBA (computeHeatmap sqrt r1 w h) w h) w h,
         Message.SALIENCY_RESULT 2 (heatmapToRGBA (computeHeatmap sqrt r2 w h) w h) w h,
         Message.SALIENCY_RESULT 3 (heatmapToRGBA (computeHeatmap sqrt r2 w h) w h) w h] := by
  have hkey := generateCacheKey_zeros (4 * w * h) h100
  have hne : 4 * w * h ≠ 0 := by omega
  simp [run, workerStep, onGenerate, onSettle, generateGradCAMStart, hkey, cacheHas, cacheGet,
    cacheResult, cacheSet, imageDataOk, postResult, MAX_CONCURRENT_JOBS, MAX_CACHE_SIZE, hne]

/-- The alpha byte of a pixel that has a heatmap cell. -/
theorem heatmapToRGBA_alpha_get {α : Type} [LinearOrderedField α] [FloorRing α]
    (heatmap : List α) (width height i : Nat)
    (hi : i < heatmap.length) (hwh : i < width * height) :
    (heatmapToRGBA heatmap width height)[i * 4 + 3]? = some (alphaOf (heatmap.getD i 0)) := by
  obtain ⟨_, hget⟩ := heatmapToRGBA_get heatmap width height
  have d3 : (i * 4 + 3) / 4 = i := by omega
  have m3 : (i * 4 + 3) % 4 = 3 := by omega
  have l3 : i * 4 + 3 < width * height * 4 := by omega
  rw [hget, if_pos l3, d3, if_pos hi, m3]
  simp

/-- Upscaling a grid to its own size returns the grid. -/
theorem upscaleHeatmap_same_size {α : Type} [LinearOrderedField α] [FloorRing α]
    (heatmap : List α) (srcWidth srcHeight : Nat) (hsw : 1 ≤ srcWidth) (hsh : 1 ≤ srcHeight)
    (hlen : heatmap.length = srcWidth * srcHeight) :
    upscaleHeatmap heatmap srcWidth srcHeight srcWidth srcHeight = heatmap := by
  obtain ⟨_, hget⟩ := upscaleHeatmap_get heatmap srcWidth srcHeight srcWidth srcHeight
  apply List.ext_getElem?
  intro j
  rw [hget]
  by_cases hj : j < srcWidth * srcHeight
  · rw [if_pos hj, upscaleCell_same_size heatmap srcWidth srcHeight _ _ hsw hsh]
    have e : j / srcWidth * srcWidth + j % srcWidth = j := by
      rw [Nat.mul_comm]; exact Nat.div_add_mod j srcWidth
    have hj' : j < heatmap.length := by rw [hlen]; exact hj
    rw [e, List.getD_eq_getElem _ _ hj', List.getElem?_eq_getElem hj']
  · rw [if_neg hj]
    have : heatmap.length ≤ j := by rw [hlen]; omega
    rw [List.getElem?_eq_none this]

/-- Cell `i` of the heatmap that `generateGradCAM` computes for a `14 x 14`
image: the normalized attention value of the cell. -/
theorem computeHeatmap_cell (random : Nat → ℝ) (i : Nat) (hi : i < 196) :
    (computeHeatmap Real.sqrt random 14 14).getD i 0
      = (attentionAt Real.sqrt random i
          - arrayMin ((List.range (14 * 14)).map (attentionAt Real.sqrt random)))
        / (arrayMax ((List.range (14 * 14)).map (attentionAt Real.sqrt random))
          - arrayMin ((List.range (14 * 14)).map (attentionAt Real.sqrt random))) := by
  have hl : (normalizeHeatmap ((List.range (14 * 14)).map (attentionAt Real.sqrt random))).length
      = 14 * 14 := by
    simp [normalizeHeatmap]
  have e : computeHeatmap Real.sqrt random 14 14
      = normalizeHeatmap ((List.range (14 * 14)).map (attentionAt Real.sqrt random)) :=
    upscaleHeatmap_same_size _ 14 14 (by decide) (by decide) hl
  have hi' : i < 14 * 14 := hi
  rw [e]
  simp [normalizeHeatmap, List.getD_eq_getElem?_getD, List.getElem?_map, List.getElem?_range hi']

theorem attentionAt_nonneg (random : Nat → ℝ) (i : Nat) (hr : 0 ≤ random i) :
    0 ≤ attentionAt Real.sqrt random i := by
  unfold attentionAt
  have := le_max_left (0 : ℝ)
    (1 - Real.sqrt ((((i % 14 : Nat) : ℝ) - 7) ^ 2 + (((i / 14 : Nat) : ℝ) - 7) ^ 2) / 10)
  have h2 : 0 ≤ random i * (2 / 10) := by positivity
  simp only
  linarith

theorem attentionAt_le (random : Nat → ℝ) (i : Nat) :
    attentionAt Real.sqrt random i ≤ 1 + random i * (2 / 10) := by
  unfold attentionAt
  simp only
  have hs := Real.sqrt_nonneg ((((i % 14 : Nat) : ℝ) - 7) ^ 2 + (((i / 14 : Nat) : ℝ) - 7) ^ 2)
  have : max 0 (1 - Real.sqrt ((((i % 14 : Nat) : ℝ) - 7) ^ 2
      + (((i / 14 : Nat) : ℝ) - 7) ^ 2) / 10) ≤ 1 := by
    apply max_le
    · norm_num
    · linarith
  linarith

/-- The two sample assignments of the counterexample give different overlays
for the `14 x 14` image: the alpha of the centre pixel is `178` with no
noise, and below `178` when the cell left of the centre draws `0.9`. -/
theorem overlays_differ :
    heatmapToRGBA (computeHeatmap Real.sqrt (fun _ => 0) 14 14) 14 14
      ≠ heatmapToRGBA
          (computeHeatmap Real.sqrt (fun i => if i = 104 then 9 / 10 else 0) 14 14) 14 14 := by
  have hlen : ∀ r : Nat → ℝ, (computeHeatmap Real.sqrt r 14 14).length = 14 * 14 :=
    fun r => (upscaleHeatmap_get _ 14 14 14 14).1
  have hne : ∀ r : Nat → ℝ, (List.range (14 * 14)).map (attentionAt Real.sqrt r) ≠ [] := by
    intro r h
    have := congrArg List.length h
    simp at this
  have hmem : ∀ (r : Nat → ℝ) (i : Nat), i < 196 →
      attentionAt Real.sqrt r i ∈ (List.range (14 * 14)).map (attentionAt Real.sqrt r) :=
    fun r i hi => List.mem_map.mpr ⟨i, List.mem_range.mpr hi, rfl⟩
  -- the first overlay
  have a1 : (heatmapToRGBA (computeHeatmap Real.sqrt (fun _ => 0) 14 14) 14 14)[105 * 4 + 3]?
      = some 178 := by
    rw [heatmapToRGBA_alpha_get _ 14 14 105 (by rw [hlen]; decide) (by decide),
      computeHeatmap_cell _ 105 (by decide)]
    have hc : attentionAt Real.sqrt (fun _ => (0 : ℝ)) 105 = 1 := by
      have h1 := attentionAt_centre (fun _ => (0 : ℝ)) (le_refl _)
      have h2 := attentionAt_le (fun _ => (0 : ℝ)) 105
      simp only [zero_mul, add_zero] at h2
      exact le_antisymm h2 h1
    have hmax : arrayMax ((List.range (14 * 14)).map (attentionAt Real.sqrt (fun _ => (0 : ℝ))))
        = 1 := by
      apply le_antisymm
      · obtain ⟨j, _, hj⟩ := List.mem_map.mp (arrayMax_spec _ (hne _)).2
        rw [← hj]
        have := attentionAt_le (fun _ => (0 : ℝ)) j
        simpa using this
      · have := (arrayMax_spec _ (hne (fun _ => (0 : ℝ)))).1 _ (hmem _ 105 (by decide))
        rw [hc] at this
        exact this
    have hmin : arrayMin ((List.range (14 * 14)).map (attentionAt Real.sqrt (fun _ => (0 : ℝ))))
        < 1 := by
      have h0 := (arrayMin_spec _ (hne (fun _ => (0 : ℝ)))).1 _ (hmem _ 0 (by decide))
      have h3 := attentionAt_corner (fun _ => (0 : ℝ)) zero_lt_one
      linarith
    rw [hc, hmax, div_self (by linarith)]
    obtain ⟨e, _, _⟩ := alphaOf_eq (1 : ℝ) (le_refl _)
    rw [e]
    have : ⌊max (3 / 10) (1 : ℝ) * 255 * (7 / 10)⌋ = 178 := by
      rw [Int.floor_eq_iff]
      constructor <;> norm_num
    rw [this]
    rfl
  -- the second overlay
  have a2 : ∃ a, (heatmapToRGBA
      (computeHeatmap Real.sqrt (fun i => if i = 104 then 9 / 10 else 0) 14 14) 14 14)[105 * 4 + 3]?
      = some a ∧ a < 178 := by
    refine ⟨_, heatmapToRGBA_alpha_get _ 14 14 105 (by rw [hlen]; decide) (by decide), ?_⟩
    rw [computeHeatmap_cell _ 105 (by decide)]
    have hr0 : ∀ i, (0 : ℝ) ≤ (fun i : Nat => if i = 104 then (9 / 10 : ℝ) else 0) i := by
      intro i
      simp only
      split_ifs <;> norm_num
    have hc : attentionAt Real.sqrt (fun i => if i = 104 then (9 / 10 : ℝ) else 0) 105 = 1 := by
      have h1 := attentionAt_centre (fun i => if i = 104 then (9 / 10 : ℝ) else 0) (hr0 105)
      have h2 := attentionAt_le (fun i => if i = 104 then (9 / 10 : ℝ) else 0) 105
      simp only [show ¬ (105 = 104) by decide, if_false, zero_mul, add_zero] at h2
      exact le_antisymm h2 h1
    have hn : attentionAt Real.sqrt (fun i => if i = 104 then (9 / 10 : ℝ) else 0) 104
        = 27 / 25 := by
      simp only [attentionAt]
      norm_num
    have hmax := (arrayMax_spec _ (hne (fun i => if i = 104 then (9 / 10 : ℝ) else 0))).1 _
      (hmem _ 104 (by decide))
    rw [hn] at hmax
    have hmin0 : 0 ≤ arrayMin ((List.range (14 * 14)).map
        (attentionAt Real.sqrt (fun i => if i = 104 then (9 / 10 : ℝ) else 0))) := by
      obtain ⟨j, _, hj⟩ := List.mem_map.mp (arrayMin_spec _
        (hne (fun i => if i = 104 then (9 / 10 : ℝ) else 0))).2
      rw [← hj]
      exact attentionAt_nonneg _ j (hr0 j)
    have hmin1 : arrayMin ((List.range (14 * 14)).map
        (attentionAt Real.sqrt (fun i => if i = 104 then (9 / 10 : ℝ) else 0))) < 3 / 10 := by
      have h0 := (arrayMin_spec _ (hne (fun i => if i = 104 then (9 / 10 : ℝ) else 0))).1 _
        (hmem _ 0 (by decide))
      have h3 := attentionAt_corner (fun i => if i = 104 then (9 / 10 : ℝ) else 0)
        (by norm_num)
      linarith
    rw [hc]
    set m := arrayMin ((List.range (14 * 14)).map
        (attentionAt Real.sqrt (fun i => if i = 104 then (9 / 10 : ℝ) else 0))) with hm
    set M := arrayMax ((List.range (14 * 14)).map
        (attentionAt Real.sqrt (fun i => if i = 104 then (9 / 10 : ℝ) else 0))) with hM
    have hpos : 0 < M - m := by linarith
    have hv : (1 - m) / (M - m) ≤ 25 / 27 := by
      rw [div_le_iff₀ hpos]
      linarith
    have hv1 : (1 - m) / (M - m) ≤ 1 := le_trans hv (by norm_num)
    obtain ⟨e, _, _⟩ := alphaOf_eq ((1 - m) / (M - m)) hv1
    rw [e]
    have hfl : ⌊max (3 / 10) ((1 - m) / (M - m)) * 255 * (7 / 10)⌋ < 178 := by
      rw [Int.floor_lt]
      have : max (3 / 10) ((1 - m) / (M - m)) ≤ 25 / 27 := max_le (by norm_num) hv
      push_cast
      linarith
    omega
  intro heq
  obtain ⟨a, ha, hlt⟩ := a2
  rw [← heq, a1] at ha
  have : (178 : Nat) = a := Option.some.inj ha
  omega

/-- C16, the claim as stated fails for requests that are in flight together:
two requests for the same all-zero `14 x 14` image arrive before the first
job has stored its heatmap, so both miss the cache and both run inference;
with no noise in the first job and one sample of `0.9` in the second, their
overlays differ, and a third request for the same image gets the overlay of
the second request, not that of the first. -/
theorem C16_concurrent_requests_counterexample :
    (run (workerStep Real.sqrt) ({} : Worker ℝ)
        [WorkerEvent.initialized true,
         WorkerEvent.generate ⟨1, List.replicate (4 * 14 * 14) 0, 14, 14⟩,
         WorkerEvent.generate ⟨2, List.replicate (4 * 14 * 14) 0, 14, 14⟩,
         WorkerEvent.settle 0 (some (fun _ => 0)),
         WorkerEvent.settle 0 (some (fun i => if i = 104 then 9 / 10 else 0)),
         WorkerEvent.generate ⟨3, List.replicate (4 * 14 * 14) 0, 14, 14⟩]).posted
      = [Message.INITIALIZED,
         Message.SALIENCY_RESULT 1
           (heatmapToRGBA (computeHeatmap Real.sqrt (fun _ => 0) 14 14) 14 14) 14 14,
         Message.SALIENCY_RESULT 2
           (heatmapToRGBA
             (computeHeatmap Real.sqrt (fun i => if i = 104 then 9 / 10 else 0) 14 14) 14 14)
           14 14,
         Message.SALIENCY_RESULT 3
           (heatmapToRGBA
             (computeHeatmap Real.sqrt (fun i => if i = 104 then 9 / 10 else 0) 14 14) 14 14)
           14 14]
    ∧ heatmapToRGBA (computeHeatmap Real.sqrt (fun _ => 0) 14 14) 14 14
      ≠ heatmapToRGBA
          (computeHeatmap Real.sqrt (fun i => if i = 104 then 9 / 10 else 0) 14 14) 14 14 :=
  ⟨concurrent_requests_posted Real.sqrt (fun _ => 0) (fun i => if i = 104 then 9 / 10 else 0)
    14 14 (by decide), overlays_differ⟩

end Saliency

end ConcurrentTheorems

end NeuroCheck
